import Mathlib

/-!
# state.js v5.0.0: a shallow embedding of the finite state machine library

The model tree of `src/src/state-5.0.0.js` is embedded as an arena: every JavaScript object
(`Region`, `PseudoState`, `State`, `FinalState`, `StateMachine`) is an `Element` stored in a
list, and object identity is the position in that list.  Closures that the library stores in
its action arrays are defunctionalised into the constructors of `Action`; behaviours and guards
supplied by the caller stay functions.  A JavaScript `throw` (including the `TypeError` of a
property access on `undefined`) is `Outcome.throw`.
-/

namespace fsm

/-! ## Values -/

/-- The enumeration `PseudoStateKind` (lines 243-262). -/
inductive PseudoStateKind
  | Choice
  | Initial
  | Junction
  | ShallowHistory
  | DeepHistory
  | Terminate
  deriving DecidableEq, Repr

/-- A message: `undefined`, an element of the model (compared by identity), or any other
value (an integer tag stands for it). -/
inductive Message
  | undefined
  | element (id : Nat)
  | value (v : Int)
  deriving DecidableEq, Repr

/-- The class `Context` (lines 760-784): the `isTerminated` flag and the `last` object, a map
from the qualified name of a region to the state last recorded for it.  `props` holds the
further properties a caller puts on its context object (such as `counter` in test/static.js). -/
structure Context where
  isTerminated : Bool
  last : List (String × Nat)
  props : List (String × Int)
  deriving DecidableEq, Repr

/-- Result of running JavaScript code that works on a state of type `σ`: a returned value, or a
thrown error, each with the state reached; or no answer within the depth the interpreter was
given. -/
inductive Outcome (σ : Type) (α : Type)
  | ok (a : α) (s : σ)
  | throw (error : String) (s : σ)
  | timeout

/-- Sequencing: a thrown error ends the computation and keeps the state it was thrown in. -/
def Outcome.bind {σ α β : Type} (x : Outcome σ α) (f : α → σ → Outcome σ β) : Outcome σ β :=
  match x with
  | Outcome.ok a s => f a s
  | Outcome.throw e s => Outcome.throw e s
  | Outcome.timeout => Outcome.timeout

/-- The error thrown, if the code threw. -/
def Outcome.error? {σ α : Type} : Outcome σ α → Option String
  | Outcome.throw e _ => some e
  | _ => none

/-- The value returned, if the code returned. -/
def Outcome.value? {σ α : Type} : Outcome σ α → Option α
  | Outcome.ok a _ => some a
  | _ => none

/-- The state reached, by a return or by a throw. -/
def Outcome.state? {σ α : Type} : Outcome σ α → Option σ
  | Outcome.ok _ s => some s
  | Outcome.throw _ s => some s
  | Outcome.timeout => none

/-- The state reached by a return. -/
def Outcome.final? {σ α : Type} : Outcome σ α → Option σ
  | Outcome.ok _ s => some s
  | _ => none

/-- The error of reading a property of `undefined`. -/
def typeError : String := "TypeError: cannot read property of undefined"

/-- The closures and callbacks stored in the arrays `leave`, `beginEnter`, `endEnter`, `enter`
and `traverse`. -/
inductive Action
  /-- The closure pushed by `Region.bootstrap` at line 118, `_this` being region `r`. -/
  | regionLeave (r : Nat)
  /-- The closure pushed by `Region.bootstrap` at line 125, `_this` being region `r`. -/
  | regionEnter (r : Nat)
  /-- The closure pushed by `Vertex.bootstrap` at line 211, `_this` being vertex `v`. -/
  | completions (v : Nat)
  /-- The closure pushed by `PseudoState.bootstrap` at line 299. -/
  | terminate
  /-- The closure pushed by `State.bootstrap` at line 418; `r` is the value that the
  function-scoped variable `region` holds when the closure is called. -/
  | invokeLeave (r : Nat)
  /-- The closure pushed by `State.bootstrap` at line 426, `_this` being state `s`. -/
  | setCurrent (s : Nat)
  /-- A behaviour supplied by the caller: `(message, context, history)`, acting on the context. -/
  | user (f : Message → Context → Bool → Context)

/-- The function stored in `Transition.guard`. -/
inductive Guard
  /-- The closure installed by `Transition.completion` (line 594). -/
  | completion
  /-- The function `Transition.isElse` (line 667). -/
  | isElse
  /-- A guard supplied by the caller through `when`. -/
  | user (g : Message → Context → Bool)

/-- The `target` field of a transition: a vertex, `null`, or `undefined` (argument omitted). -/
inductive Target
  | vertex (id : Nat)
  | null
  | undefined
  deriving DecidableEq, Repr

/-- The class `Transition` (lines 574-671). -/
structure Transition where
  source : Nat
  target : Target
  guard : Guard
  transitionBehavior : List Action
  traverse : List Action

/-- The class of an element. -/
inductive ElementKind
  | Region
  | PseudoState (kind : PseudoStateKind)
  | State
  | FinalState
  | StateMachine
  deriving DecidableEq, Repr

/-- One object of the model: the fields of `Element`, `Region`, `Vertex`, `PseudoState`, `State`
and `StateMachine` side by side; the fields of the classes an object does not belong to keep
their empty value. -/
structure Element where
  kind : ElementKind
  name : String
  leave : List Action := []
  beginEnter : List Action := []
  endEnter : List Action := []
  enter : List Action := []
  /-- Field `state` of a Region: its parent state. -/
  state : Option Nat := none
  /-- Field `vertices` of a Region. -/
  vertices : List Nat := []
  /-- Field `initial` of a Region. -/
  initial : Option Nat := none
  /-- Field `region` of a Vertex: its parent region. -/
  region : Option Nat := none
  /-- Field `transitions` of a Vertex. -/
  transitions : List Transition := []
  /-- Field `regions` of a State. -/
  regions : List Nat := []
  exitBehavior : List Action := []
  entryBehavior : List Action := []
  /-- Field `clean` of a StateMachine. -/
  clean : Bool := true

/-- The model: all objects created so far; an object is named by its position. -/
abbrev Model := List Element

/-- Test `instanceof Region`. -/
def Element.isRegion (e : Element) : Bool :=
  match e.kind with
  | ElementKind.Region => true
  | _ => false

/-- Test `instanceof State` (true of `FinalState` and `StateMachine` too). -/
def Element.isState (e : Element) : Bool :=
  match e.kind with
  | ElementKind.State => true
  | ElementKind.FinalState => true
  | ElementKind.StateMachine => true
  | _ => false

/-- Method `PseudoState.isHistory` (line 290); false of an element that is no pseudo state. -/
def Element.isHistory (e : Element) : Bool :=
  match e.kind with
  | ElementKind.PseudoState PseudoStateKind.DeepHistory => true
  | ElementKind.PseudoState PseudoStateKind.ShallowHistory => true
  | _ => false

/-- Test `kind === DeepHistory`. -/
def Element.isDeepHistory (e : Element) : Bool :=
  match e.kind with
  | ElementKind.PseudoState PseudoStateKind.DeepHistory => true
  | _ => false

/-- Method `parent` (lines 32, 99, 180): the state of a region, the region of a vertex. -/
def Element.parent (e : Element) : Option Nat :=
  match e.kind with
  | ElementKind.Region => e.state
  | _ => e.region

/-- Replace the object at position `id`. -/
def Model.update (m : Model) (id : Nat) (f : Element → Element) : Model :=
  match m.get? id with
  | some e => m.set id (f e)
  | none => m

/-- Method `parent` of the object at position `id`. -/
def Model.parent (m : Model) (id : Nat) : Option Nat :=
  match m.get? id with
  | some e => e.parent
  | none => none

/-- Method `ancestors` (line 38), root first, for a recursion depth of `fuel`. -/
def Model.ancestorsAux (m : Model) : Nat → Nat → List Nat
  | 0, id => [id]
  | fuel + 1, id =>
    match m.parent id with
    | some p => Model.ancestorsAux m fuel p ++ [id]
    | none => [id]

/-- Method `ancestors` (line 38): a parent chain in a model of `n` objects has at most `n`
links, which is the depth allowed here. -/
def Model.ancestors (m : Model) (id : Nat) : List Nat :=
  Model.ancestorsAux m m.length id

/-- Method `Array.prototype.join`. -/
def join (sep : String) : List String → String
  | [] => ""
  | [s] => s
  | s :: rest => s ++ sep ++ join sep rest

/-- The static member `Element.namespaceSeperator` (line 71). -/
def namespaceSeperator : String := "."

/-- Method `toString` (line 61): the names of the ancestors joined by the separator. -/
def Model.toString (m : Model) (id : Nat) : String :=
  join namespaceSeperator ((m.ancestors id).map (fun a =>
    match m.get? a with
    | some e => e.name
    | none => ""))

/-- Method `Context.setCurrent` (line 771): `this.last[region.toString()] = state`. -/
def Context.setCurrent (c : Context) (key : String) (state : Nat) : Context :=
  { c with last :=
      if c.last.any (fun p => p.1 == key)
      then c.last.map (fun p => if p.1 == key then (key, state) else p)
      else c.last ++ [(key, state)] }

/-- Method `Context.getCurrent` (line 780): `this.last[region.toString()]`. -/
def Context.getCurrent (c : Context) (key : String) : Option Nat :=
  (c.last.find? (fun p => p.1 == key)).map (fun p => p.2)

/-- A fresh `Context` (line 761). -/
def Context.new : Context :=
  { isTerminated := false, last := [], props := [] }

/-- Method `Element.root` (lines 35, 507): follow `parent` up to the StateMachine; `none`
stands for the TypeError of calling `root` on `undefined`. -/
def Model.rootAux (m : Model) : Nat → Nat → Option Nat
  | 0, _ => none
  | fuel + 1, id =>
    match m.get? id with
    | none => none
    | some e =>
      match e.kind with
      | ElementKind.StateMachine => some id
      | _ =>
        match e.parent with
        | some p => Model.rootAux m fuel p
        | none => none

/-- Method `Element.root` for a parent chain within the model. -/
def Model.root (m : Model) (id : Nat) : Option Nat :=
  Model.rootAux m (m.length + 1) id

/-! ## Selectors (lines 330-341 and 673-741) -/

/-- The call `transition.guard(message, context)`. -/
def Transition.evalGuard (t : Transition) (message : Message) (context : Context) : Bool :=
  match t.guard with
  | Guard.completion => decide (message = Message.element t.source)
  | Guard.isElse => false
  | Guard.user g => g message context

/-- The text thrown at lines 335, 700, 709 and 731. -/
def multipleOutbound : String := "Multiple outbound transitions evaluated true"

/-- The loop of `State.selector` (lines 332-339), `result` being the variable of that name. -/
def State.selectorLoop (message : Message) (context : Context) :
    List Transition → Option Transition → Except String (Option Transition)
  | [], result => Except.ok result
  | t :: rest, result =>
    if t.evalGuard message context then
      match result with
      | some _ => Except.error multipleOutbound
      | none => State.selectorLoop message context rest (some t)
    else State.selectorLoop message context rest result

/-- The function `State.selector` (lines 330-341). -/
def State.selector (transitions : List Transition) (message : Message) (context : Context) :
    Except String (Option Transition) :=
  State.selectorLoop message context transitions none

/-- The function `initial` (lines 687-694). -/
def initial (transitions : List Transition) : Except String (Option Transition) :=
  match transitions with
  | [t] => Except.ok (some t)
  | _ => Except.error "Initial transition must have a single outbound transition"

/-- Test `transitions[i].guard === Transition.isElse`. -/
def Transition.guardIsElse (t : Transition) : Bool :=
  match t.guard with
  | Guard.isElse => true
  | _ => false

/-- The second loop of `junction` and of `choice` (lines 706-713 and 728-735). -/
def elseLoop : List Transition → Option Transition → Except String (Option Transition)
  | [], result => Except.ok result
  | t :: rest, result =>
    if t.guardIsElse then
      match result with
      | some _ => Except.error multipleOutbound
      | none => elseLoop rest (some t)
    else elseLoop rest result

/-- The function `junction` (lines 695-716). -/
def junction (transitions : List Transition) (message : Message) (context : Context) :
    Except String (Option Transition) :=
  match State.selectorLoop message context transitions none with
  | Except.ok none => elseLoop transitions none
  | other => other

/-- The function `Math.round` on a rational: the nearest integer, a half rounding up. -/
def mathRound (x : ℚ) : ℤ := ⌊x + 1 / 2⌋

/-- The array `results` of `choice` (lines 719-723). -/
def choiceResults (transitions : List Transition) (message : Message) (context : Context) :
    List Transition :=
  transitions.filter (fun t => t.evalGuard message context)

/-- The function `choice` (lines 717-738); `random` is the value `Math.random()` returns when
it is called, which is when `results` is not empty. -/
def choice (transitions : List Transition) (message : Message) (context : Context)
    (random : ℚ) : Except String (Option Transition) :=
  let results := choiceResults transitions message context
  let result : Option Transition :=
    if results.length ≠ 0 then
      match mathRound (((results.length : ℚ) - 1) * random) with
      | Int.ofNat k => results.get? k
      | Int.negSucc _ => none
    else none
  match result with
  | some t => Except.ok (some t)
  | none => elseLoop transitions none

/-- The function `terminate` (lines 739-741). -/
def terminate : Except String (Option Transition) := Except.ok none

/-- The function `pseudoState` (lines 673-686): the selector of a pseudo state kind. -/
def pseudoState (kind : PseudoStateKind) (transitions : List Transition) (message : Message)
    (context : Context) (random : ℚ) : Except String (Option Transition) :=
  match kind with
  | PseudoStateKind.Initial => initial transitions
  | PseudoStateKind.DeepHistory => initial transitions
  | PseudoStateKind.ShallowHistory => initial transitions
  | PseudoStateKind.Junction => junction transitions message context
  | PseudoStateKind.Choice => choice transitions message context random
  | PseudoStateKind.Terminate => terminate

/-- The field `selector` of a vertex as its constructor sets it (lines 284 and 325). -/
def Element.selector (e : Element) (transitions : List Transition) (message : Message)
    (context : Context) (random : ℚ) : Except String (Option Transition) :=
  match e.kind with
  | ElementKind.PseudoState kind => pseudoState kind transitions message context random
  | _ => State.selector transitions message context

/-- Number of calls of `Math.random` the selector of `e` makes: one in `choice` when some
guard is true, none otherwise. -/
def Element.randomCalls (e : Element) (transitions : List Transition) (message : Message)
    (context : Context) : Nat :=
  match e.kind with
  | ElementKind.PseudoState PseudoStateKind.Choice =>
    if (choiceResults transitions message context).length ≠ 0 then 1 else 0
  | _ => 0

/-! ## The bootstrap compiler, first pass (lines 41-52, 112-137, 208-215, 296-303, 412-432) -/

/-- Method `Element.reset` (lines 41-46). -/
def Element.reset (e : Element) : Element :=
  { e with leave := [], beginEnter := [], endEnter := [], enter := [] }

/-- Method `Element.bootstrap` (lines 47-52). -/
def Element.bootstrap (e : Element) : Element :=
  { e with enter := e.beginEnter ++ e.endEnter }

/-- Method `Vertex.bootstrap` (lines 208-215) of the vertex at position `id`. -/
def Vertex.bootstrap (id : Nat) (e : Element) : Element :=
  let e1 := Element.bootstrap e
  let e2 := { e1 with endEnter := e1.endEnter ++ [Action.completions id] }
  { e2 with enter := e2.beginEnter ++ e2.endEnter }

/-- Method `PseudoState.bootstrap` (lines 296-303). -/
def PseudoState.bootstrap (id : Nat) (kind : PseudoStateKind) (e : Element) : Element :=
  let e1 := Vertex.bootstrap id e
  match kind with
  | PseudoStateKind.Terminate => { e1 with enter := e1.enter ++ [Action.terminate] }
  | _ => e1

/-- The part of `Region.bootstrap` after its loop (lines 118-136) for the region at `id`. -/
def Region.bootstrapTail (m : Model) (id : Nat) (deepHistoryAbove : Bool) (e : Element) :
    Element :=
  let e1 := { e with leave := e.leave ++ [Action.regionLeave id] }
  let ini : Option Element := e1.initial.bind (fun i => m.get? i)
  let e2 :=
    match ini with
    | none => { e1 with endEnter := e1.endEnter ++ [Action.regionEnter id] }
    | some i =>
      if deepHistoryAbove || i.isHistory
      then { e1 with endEnter := e1.endEnter ++ [Action.regionEnter id] }
      else { e1 with endEnter := e1.endEnter ++ i.enter }
  Element.bootstrap e2

/-- The part of `State.bootstrap` after its loop (lines 423-431) for the state at `id`. -/
def State.bootstrapTail (id : Nat) (e : Element) : Element :=
  let e1 := Vertex.bootstrap id e
  let e2 := { e1 with leave := e1.leave ++ e1.exitBehavior }
  let e3 := { e2 with beginEnter := e2.beginEnter ++ e2.entryBehavior }
  let e4 := { e3 with beginEnter := e3.beginEnter ++ [Action.setCurrent id] }
  { e4 with enter := e4.beginEnter ++ e4.endEnter }

/-- The virtual method `bootstrap` of the object at position `id`, with `fuel` bounding the
depth of the tree below it.  In `State.bootstrap` the variable `region` (line 415) is declared
with `var`, so it belongs to the whole function: every closure pushed at line 418 reads the
one variable, which after the loop holds the last region. -/
def bootstrap : Nat → Nat → Bool → Model → Outcome Model Unit
  | 0, _, _, _ => Outcome.timeout
  | fuel + 1, id, deepHistoryAbove, m =>
    match m.get? id with
    | none => Outcome.throw typeError m
    | some e =>
      match e.kind with
      | ElementKind.Region =>
        let initialDeep : Bool :=
          match e.initial.bind (fun i => m.get? i) with
          | some i => i.isDeepHistory
          | none => false
        (e.vertices.foldl
          (fun acc v => acc.bind (fun _ m1 =>
            bootstrap fuel v (deepHistoryAbove || initialDeep) (m1.update v Element.reset)))
          (Outcome.ok () m)).bind (fun _ m1 =>
            Outcome.ok () (m1.update id (Region.bootstrapTail m1 id deepHistoryAbove)))
      | ElementKind.PseudoState kind =>
        Outcome.ok () (m.update id (PseudoState.bootstrap id kind))
      | _ =>
        (e.regions.foldl
          (fun acc r => acc.bind (fun _ m1 =>
            (bootstrap fuel r deepHistoryAbove (m1.update r Element.reset)).bind (fun _ m2 =>
              let regionEnter : List Action :=
                match m2.get? r with
                | some re => re.enter
                | none => []
              Outcome.ok () (m2.update id (fun s =>
                { s with
                  leave := s.leave ++ [Action.invokeLeave (e.regions.getLast?.getD r)],
                  endEnter := s.endEnter ++ regionEnter })))))
          (Outcome.ok () m)).bind (fun _ m1 =>
            Outcome.ok () (m1.update id (State.bootstrapTail id)))

/-! ## The bootstrap compiler, second pass (lines 138-142, 216-220, 433-446, 631-666) -/

/-- The loop of lines 645-648: the first position at which the two paths differ, or the
length of the shorter one. -/
def commonLength : List Nat → List Nat → Nat
  | a :: as, b :: bs => if a = b then commonLength as bs + 1 else 0
  | _, _ => 0

/-- The text of the assertion at line 650. -/
def crossRegions : String := "Transitions may not cross sibling orthogonal region boundaries"

/-- The concatenation of the `enter` arrays of the given regions. -/
def regionsEnter (m : Model) : List Nat → Except String (List Action)
  | [] => Except.ok []
  | r :: rest =>
    match m.get? r with
    | none => Except.error typeError
    | some re =>
      match regionsEnter m rest with
      | Except.ok more => Except.ok (re.enter ++ more)
      | Except.error err => Except.error err

/-- The virtual method `bootstrapEnter` (lines 53-55 and 439-446): what the object at `id`
hands to `add` when the next object on the path is `next`. -/
def bootstrapEnter (m : Model) (id : Nat) (next : Option Nat) : Except String (List Action) :=
  match m.get? id with
  | none => Except.error typeError
  | some e =>
    if e.isState then
      match regionsEnter m (e.regions.filter (fun r => decide (some r ≠ next))) with
      | Except.ok more => Except.ok (e.beginEnter ++ more)
      | Except.error err => Except.error err
    else Except.ok e.beginEnter

/-- The loop of lines 658-662 over the rest of the target path. -/
def bootstrapEnterPath (m : Model) : List Nat → Except String (List Action)
  | [] => Except.ok []
  | x :: rest =>
    match bootstrapEnter m x rest.head? with
    | Except.error err => Except.error err
    | Except.ok first =>
      match bootstrapEnterPath m rest with
      | Except.ok more => Except.ok (first ++ more)
      | Except.error err => Except.error err

/-- Test `sourceAncestors[i] instanceof Region` (line 650). -/
def isRegionAt (m : Model) (path : List Nat) (i : Nat) : Bool :=
  match (path.get? i).bind (fun a => m.get? a) with
  | some x => x.isRegion
  | none => false

/-- The external branch of `Transition.bootstrap` (lines 641-664) for a transition from
`source` to the vertex `target`, whose object is `te`. -/
def Transition.bootstrapExternal (m : Model) (t : Transition) (target : Nat) (te : Element) :
    Except String (List Action) :=
  let sourceAncestors := m.ancestors t.source
  let targetAncestors := m.ancestors target
  let i := commonLength sourceAncestors targetAncestors
  if isRegionAt m sourceAncestors i then Except.error crossRegions
  else
    match m.get? ((sourceAncestors.get? i).getD t.source) with
    | none => Except.error typeError
    | some first =>
      let traverse := first.leave ++ t.transitionBehavior
      let traverse := if i ≥ targetAncestors.length then traverse ++ te.beginEnter else traverse
      match bootstrapEnterPath m (targetAncestors.drop i) with
      | Except.error err => Except.error err
      | Except.ok additional => Except.ok (traverse ++ additional ++ te.endEnter)

/-- Method `Transition.bootstrap` (lines 631-666): the array it stores in `traverse`. -/
def Transition.bootstrap (m : Model) (t : Transition) : Except String (List Action) :=
  match t.target with
  | Target.null => Except.ok t.transitionBehavior
  | Target.undefined => Except.error typeError
  | Target.vertex target =>
    match m.get? target, m.get? t.source with
    | some te, some se =>
      if te.parent = se.parent then
        Except.ok (se.leave ++ t.transitionBehavior ++ te.enter)
      else Transition.bootstrapExternal m t target te
    | _, _ => Except.error typeError

/-- The loop of `Vertex.bootstrapTransitions` (lines 217-219) over the transitions from
position `i` on of the vertex `id`; each `traverse` is stored as soon as it is compiled. -/
def Vertex.bootstrapTransitionsFrom (id : Nat) : List Transition → Nat → Model → Outcome Model Unit
  | [], _, m => Outcome.ok () m
  | t :: rest, i, m =>
    match Transition.bootstrap m t with
    | Except.error err => Outcome.throw err m
    | Except.ok traverse =>
      Vertex.bootstrapTransitionsFrom id rest (i + 1)
        (m.update id (fun v =>
          { v with transitions := v.transitions.set i { t with traverse := traverse } }))

/-- Method `Vertex.bootstrapTransitions` (lines 216-220). -/
def Vertex.bootstrapTransitions (id : Nat) (m : Model) : Outcome Model Unit :=
  match m.get? id with
  | none => Outcome.throw typeError m
  | some e => Vertex.bootstrapTransitionsFrom id e.transitions 0 m

/-- The virtual method `bootstrapTransitions` (lines 138-142, 216-220, 433-438). -/
def bootstrapTransitions : Nat → Nat → Model → Outcome Model Unit
  | 0, _, _ => Outcome.timeout
  | fuel + 1, id, m =>
    match m.get? id with
    | none => Outcome.throw typeError m
    | some e =>
      match e.kind with
      | ElementKind.Region =>
        e.vertices.foldl
          (fun acc v => acc.bind (fun _ m1 => bootstrapTransitions fuel v m1))
          (Outcome.ok () m)
      | ElementKind.PseudoState _ => Vertex.bootstrapTransitions id m
      | _ =>
        (e.regions.foldl
          (fun acc r => acc.bind (fun _ m1 => bootstrapTransitions fuel r m1))
          (Outcome.ok () m)).bind (fun _ m1 => Vertex.bootstrapTransitions id m1)

/-- Method `StateMachine.bootstrap` (lines 519-524) of the machine at position `sm`.  The tree
below the machine is at most as deep as the model has objects. -/
def StateMachine.bootstrap (sm : Nat) (deepHistoryAbove : Bool) (m : Model) :
    Outcome Model Unit :=
  let m1 := m.update sm (fun e => { Element.reset e with clean := true })
  (fsm.bootstrap (m.length + 1) sm deepHistoryAbove m1).bind (fun _ m2 =>
    fsm.bootstrapTransitions (m.length + 1) sm m2)

/-! ## The evaluation engine (lines 109-111, 143-145, 191-193, 221-233, 447-461, 532-559, 742-746) -/

/-- What a running call works on: the model, the context of the instance, and the number of
calls of `Math.random` made so far. -/
structure Run where
  model : Model
  context : Context
  randomCalls : Nat

/-- The two mutually recursive entry points of the engine, as available to a caller: `invoke`
(lines 742-746) and the virtual method `evaluate` of the object at a position. -/
structure Engine where
  invoke : List Action → Message → Bool → Run → Outcome Run Unit
  evaluate : Nat → Message → Run → Outcome Run Bool

/-- Method `Vertex.isComplete` (lines 191-193), which no class overrides. -/
def Vertex.isComplete (_m : Model) (_id : Nat) (_context : Context) : Bool := true

/-- Method `State.isFinal` (lines 360-362). -/
def State.isFinal (e : Element) : Bool := decide (e.transitions.length = 0)

/-- Method `Region.isComplete` (lines 109-111), which nothing calls: `none` is the TypeError
of a region without a current state. -/
def Region.isComplete (m : Model) (id : Nat) (context : Context) : Option Bool :=
  ((context.getCurrent (m.toString id)).bind (fun s => m.get? s)).map State.isFinal

/-- Run `StateMachine.bootstrap` on the model of a run. -/
def Run.bootstrap (sm : Nat) (run : Run) : Outcome Run Unit :=
  match StateMachine.bootstrap sm false run.model with
  | Outcome.ok _ m => Outcome.ok () { run with model := m }
  | Outcome.throw err m => Outcome.throw err { run with model := m }
  | Outcome.timeout => Outcome.timeout

/-- Method `Vertex.evaluateCompletions` (lines 221-225), `evaluate` being the virtual call. -/
def Vertex.evaluateCompletions (engine : Engine) (id : Nat) (run : Run) : Outcome Run Unit :=
  if Vertex.isComplete run.model id run.context then
    (engine.evaluate id (Message.element id) run).bind (fun _ run1 => Outcome.ok () run1)
  else Outcome.ok () run

/-- The call of one stored function with `(message, context, history)`. -/
def Action.run (engine : Engine) (action : Action) (message : Message) (history : Bool)
    (run : Run) : Outcome Run Unit :=
  match action with
  | Action.regionLeave r =>
    match (run.context.getCurrent (run.model.toString r)).bind (fun c => run.model.get? c) with
    | none => Outcome.throw typeError run
    | some current => engine.invoke current.leave message history run
  | Action.regionEnter r =>
    match run.model.get? r with
    | none => Outcome.throw typeError run
    | some region =>
      let initial : Option Element := region.initial.bind (fun i => run.model.get? i)
      let current : Option Element :=
        (run.context.getCurrent (run.model.toString r)).bind (fun c => run.model.get? c)
      match history, initial with
      | false, none => Outcome.throw typeError run
      | false, some i =>
        if i.isHistory then
          engine.invoke (current.getD i).enter message (false || i.isDeepHistory) run
        else engine.invoke i.enter message (false || i.isDeepHistory) run
      | true, some i => engine.invoke (current.getD i).enter message true run
      | true, none =>
        match current with
        | some c => engine.invoke c.enter message true run
        | none => Outcome.throw typeError run
  | Action.completions v => Vertex.evaluateCompletions engine v run
  | Action.terminate =>
    Outcome.ok () { run with context := { run.context with isTerminated := true } }
  | Action.invokeLeave r =>
    match run.model.get? r with
    | none => Outcome.throw typeError run
    | some region => engine.invoke region.leave message history run
  | Action.setCurrent s =>
    match (run.model.get? s).bind (fun e => e.region) with
    | some r =>
      Outcome.ok () { run with context := run.context.setCurrent (run.model.toString r) s }
    | none => Outcome.ok () run
  | Action.user f => Outcome.ok () { run with context := f message run.context history }

/-- The function `invoke` (lines 742-746). -/
def invoke (engine : Engine) : List Action → Message → Bool → Run → Outcome Run Unit
  | [], _, _, run => Outcome.ok () run
  | action :: rest, message, history, run =>
    (Action.run engine action message history run).bind (fun _ run1 =>
      invoke engine rest message history run1)

/-- Method `Vertex.evaluate` (lines 226-233) of the vertex at `id`; `random k` is what the
call number `k` of `Math.random` returns. -/
def Vertex.evaluate (engine : Engine) (random : Nat → ℚ) (id : Nat) (message : Message)
    (run : Run) : Outcome Run Bool :=
  match run.model.get? id with
  | none => Outcome.throw typeError run
  | some e =>
    let run1 : Run :=
      { run with randomCalls := run.randomCalls + e.randomCalls e.transitions message run.context }
    match e.selector e.transitions message run.context (random run.randomCalls) with
    | Except.error err => Outcome.throw err run1
    | Except.ok none => Outcome.ok false run1
    | Except.ok (some transition) =>
      (engine.invoke transition.traverse message false run1).bind (fun _ run2 =>
        Outcome.ok true run2)

/-- The loop of `State.evaluate` (lines 449-453), `processed` being the variable of that name. -/
def State.evaluateRegions (engine : Engine) (message : Message) :
    List Nat → Bool → Run → Outcome Run Bool
  | [], processed, run => Outcome.ok processed run
  | r :: rest, processed, run =>
    (engine.evaluate r message run).bind (fun result run1 =>
      State.evaluateRegions engine message rest (if result then true else processed) run1)

/-- Method `State.evaluate` (lines 447-461) of the state at `id`. -/
def State.evaluate (engine : Engine) (random : Nat → ℚ) (id : Nat) (message : Message)
    (run : Run) : Outcome Run Bool :=
  match run.model.get? id with
  | none => Outcome.throw typeError run
  | some e =>
    (State.evaluateRegions engine message e.regions false run).bind (fun processed run1 =>
      (if processed = false then Vertex.evaluate engine random id message run1
       else Outcome.ok processed run1).bind (fun processed run2 =>
        if processed = true ∧ message ≠ Message.element id then
          (Vertex.evaluateCompletions engine id run2).bind (fun _ run3 =>
            Outcome.ok processed run3)
        else Outcome.ok processed run2))

/-- Method `StateMachine.evaluate` (lines 550-559) of the machine at `sm`. -/
def StateMachine.evaluateWith (engine : Engine) (random : Nat → ℚ) (sm : Nat)
    (message : Message) (autoBootstrap : Bool) (run : Run) : Outcome Run Bool :=
  match run.model.get? sm with
  | none => Outcome.throw typeError run
  | some e =>
    (if autoBootstrap && (e.clean == false) then Run.bootstrap sm run
     else Outcome.ok () run).bind (fun _ run1 =>
      if run1.context.isTerminated then Outcome.ok false run1
      else State.evaluate engine random sm message run1)

/-- Method `Region.evaluate` (lines 143-145) of the region at `id`. -/
def Region.evaluate (engine : Engine) (id : Nat) (message : Message) (run : Run) :
    Outcome Run Bool :=
  match run.context.getCurrent (run.model.toString id) with
  | none => Outcome.throw typeError run
  | some current => engine.evaluate current message run

/-- The virtual method `evaluate` of the object at `id`, called with two arguments (so that
`autoBootstrap` takes its default, true, when the object is the machine). -/
def evaluate (engine : Engine) (random : Nat → ℚ) (id : Nat) (message : Message) (run : Run) :
    Outcome Run Bool :=
  match run.model.get? id with
  | none => Outcome.throw typeError run
  | some e =>
    match e.kind with
    | ElementKind.Region => Region.evaluate engine id message run
    | ElementKind.PseudoState _ => Vertex.evaluate engine random id message run
    | ElementKind.StateMachine => StateMachine.evaluateWith engine random id message true run
    | _ => State.evaluate engine random id message run

/-- The engine for calls nested at most `depth` deep: a call of `invoke` or `evaluate` made
from inside another one uses the engine of the depth below. -/
def engine (random : Nat → ℚ) : Nat → Engine
  | 0 =>
    { invoke := fun _ _ _ _ => Outcome.timeout,
      evaluate := fun _ _ _ => Outcome.timeout }
  | depth + 1 =>
    { invoke := invoke (engine random depth),
      evaluate := evaluate (engine random depth) random }

/-- Method `StateMachine.initialise` (lines 532-538) of the machine at `sm`. -/
def StateMachine.initialise (depth : Nat) (random : Nat → ℚ) (sm : Nat) (autoBootstrap : Bool)
    (run : Run) : Outcome Run Unit :=
  match run.model.get? sm with
  | none => Outcome.throw typeError run
  | some e =>
    (if autoBootstrap && (e.clean == false) then Run.bootstrap sm run
     else Outcome.ok () run).bind (fun _ run1 =>
      match run1.model.get? sm with
      | none => Outcome.throw typeError run1
      | some e1 => (engine random depth).invoke e1.enter Message.undefined false run1)

/-- Method `StateMachine.evaluate` (lines 550-559), called by the user of the library. -/
def StateMachine.evaluate (depth : Nat) (random : Nat → ℚ) (sm : Nat) (message : Message)
    (autoBootstrap : Bool) (run : Run) : Outcome Run Bool :=
  StateMachine.evaluateWith (engine random depth) random sm message autoBootstrap run

/-! ## The builder (constructors and fluent methods) -/

/-- The statement `x.root().clean = false`; a TypeError when `x` has no root. -/
def setDirty (id : Nat) (m : Model) : Outcome Model Unit :=
  match m.root id with
  | some root => Outcome.ok () (m.update root (fun e => { e with clean := false }))
  | none => Outcome.throw typeError m

/-- The constructor `Region` (lines 92-98) applied to a new object of name `name`; the result
is the position of the new region. -/
def Region.new (name : String) (state : Nat) (m : Model) : Outcome Model Nat :=
  let id := m.length
  let m1 := m ++ [{ kind := ElementKind.Region, name := name, state := some state }]
  match m1.get? state with
  | none => Outcome.throw typeError m1
  | some _ =>
    let m2 := m1.update state (fun e => { e with regions := e.regions ++ [id] })
    (setDirty state m2).bind (fun _ m3 => Outcome.ok id m3)

/-- The static member `Region.defaultName` (line 152). -/
def Region.defaultName : String := "default"

/-- Method `State.defaultRegion` (lines 342-353): the last region of that name, or a new one. -/
def State.defaultRegion (state : Nat) (m : Model) : Outcome Model Nat :=
  match m.get? state with
  | none => Outcome.throw typeError m
  | some e =>
    let found := e.regions.foldl
      (fun (acc : Option Nat) r =>
        match m.get? r with
        | some re => if re.name = Region.defaultName then some r else acc
        | none => acc)
      none
    match found with
    | some r => Outcome.ok r m
    | none => Region.new Region.defaultName state m

/-- The constructor `Vertex` (lines 165-179) applied to the object already placed at `id`;
`element` is the parent given by the caller, if any. -/
def Vertex.init (id : Nat) (element : Option Nat) (m : Model) : Outcome Model Unit :=
  match element.bind (fun p => (m.get? p).map (fun pe => (p, pe))) with
  | none => Outcome.ok () m
  | some (p, pe) =>
    (if pe.isRegion then Outcome.ok (some p) m
     else if pe.isState then (State.defaultRegion p m).bind (fun r m1 => Outcome.ok (some r) m1)
     else Outcome.ok none m).bind (fun region m1 =>
      match region with
      | none => Outcome.ok () m1
      | some r =>
        let m2 := m1.update id (fun e => { e with region := some r })
        let m3 := m2.update r (fun e => { e with vertices := e.vertices ++ [id] })
        setDirty r m3)

/-- The constructor `State` (lines 324-329); the result is the position of the new state. -/
def State.new (name : String) (element : Option Nat) (m : Model) : Outcome Model Nat :=
  let id := m.length
  (Vertex.init id element (m ++ [{ kind := ElementKind.State, name := name }])).bind
    (fun _ m1 => Outcome.ok id m1)

/-- The constructor `FinalState` (lines 481-483). -/
def FinalState.new (name : String) (element : Option Nat) (m : Model) : Outcome Model Nat :=
  let id := m.length
  (Vertex.init id element (m ++ [{ kind := ElementKind.FinalState, name := name }])).bind
    (fun _ m1 => Outcome.ok id m1)

/-- The constructor `StateMachine` (lines 503-506). -/
def StateMachine.new (name : String) (m : Model) : Outcome Model Nat :=
  let id := m.length
  (Vertex.init id none (m ++ [{ kind := ElementKind.StateMachine, name := name }])).bind
    (fun _ m1 => Outcome.ok id (m1.update id (fun e => { e with clean := true })))

/-- Method `PseudoState.isInitial` (line 293). -/
def PseudoStateKind.isInitial (kind : PseudoStateKind) : Bool :=
  match kind with
  | PseudoStateKind.Initial => true
  | PseudoStateKind.DeepHistory => true
  | PseudoStateKind.ShallowHistory => true
  | _ => false

/-- The constructor `PseudoState` (lines 283-289). -/
def PseudoState.new (name : String) (element : Option Nat) (kind : PseudoStateKind)
    (m : Model) : Outcome Model Nat :=
  let id := m.length
  (Vertex.init id element (m ++ [{ kind := ElementKind.PseudoState kind, name := name }])).bind
    (fun _ m1 =>
      if kind.isInitial then
        match (m1.get? id).bind (fun e => e.region) with
        | none => Outcome.throw typeError m1
        | some r => Outcome.ok id (m1.update r (fun e => { e with initial := some id }))
      else Outcome.ok id m1)

/-- A transition is named by its source and its position among the source's transitions. -/
structure TransitionRef where
  source : Nat
  index : Nat
  deriving DecidableEq, Repr

/-- The virtual method `to` (lines 202-207 and 484-486). -/
def Vertex.to (source : Nat) (target : Target) (m : Model) : Outcome Model TransitionRef :=
  match m.get? source with
  | none => Outcome.throw typeError m
  | some e =>
    match e.kind with
    | ElementKind.FinalState =>
      Outcome.throw "A FinalState cannot be the source of a transition." m
    | _ =>
      let transition : Transition :=
        { source := source, target := target, guard := Guard.completion,
          transitionBehavior := [], traverse := [] }
      let m1 := m.update source (fun v => { v with transitions := v.transitions ++ [transition] })
      (setDirty source m1).bind (fun _ m2 =>
        Outcome.ok { source := source, index := e.transitions.length } m2)

/-- Change the transition `t` in place. -/
def Model.updateTransition (m : Model) (t : TransitionRef) (f : Transition → Transition) :
    Model :=
  m.update t.source (fun v =>
    { v with transitions :=
        match v.transitions.get? t.index with
        | some tr => v.transitions.set t.index (f tr)
        | none => v.transitions })

/-- Method `Transition.completion` (lines 592-598). -/
def Transition.completion (t : TransitionRef) (m : Model) : Outcome Model TransitionRef :=
  Outcome.ok t (m.updateTransition t (fun tr => { tr with guard := Guard.completion }))

/-- Method `Transition.else` (lines 606-609). -/
def Transition.else (t : TransitionRef) (m : Model) : Outcome Model TransitionRef :=
  Outcome.ok t (m.updateTransition t (fun tr => { tr with guard := Guard.isElse }))

/-- Method `Transition.when` (lines 616-619). -/
def Transition.when (t : TransitionRef) (guard : Message → Context → Bool) (m : Model) :
    Outcome Model TransitionRef :=
  Outcome.ok t (m.updateTransition t (fun tr => { tr with guard := Guard.user guard }))

/-- Method `Transition.effect` (lines 626-630). -/
def Transition.effect (t : TransitionRef) (transitionAction : Message → Context → Bool → Context)
    (m : Model) : Outcome Model TransitionRef :=
  let m1 := m.updateTransition t (fun tr =>
    { tr with transitionBehavior := tr.transitionBehavior ++ [Action.user transitionAction] })
  (setDirty t.source m1).bind (fun _ m2 => Outcome.ok t m2)

/-- Method `State.exit` (lines 396-400). -/
def State.exit (state : Nat) (exitAction : Message → Context → Bool → Context) (m : Model) :
    Outcome Model Nat :=
  let m1 := m.update state (fun e =>
    { e with exitBehavior := e.exitBehavior ++ [Action.user exitAction] })
  (setDirty state m1).bind (fun _ m2 => Outcome.ok state m2)

/-- Method `State.entry` (lines 407-411). -/
def State.entry (state : Nat) (entryAction : Message → Context → Bool → Context) (m : Model) :
    Outcome Model Nat :=
  let m1 := m.update state (fun e =>
    { e with entryBehavior := e.entryBehavior ++ [Action.user entryAction] })
  (setDirty state m1).bind (fun _ m2 => Outcome.ok state m2)

/-- A script of builder calls: each call works on the model the calls before it left. -/
def Build (α : Type) : Type := Model → Outcome Model α

instance : Monad Build where
  pure a := fun m => Outcome.ok a m
  bind x f := fun m => Outcome.bind (x m) f

/-- The model a script leaves, starting from no objects; empty if the script threw. -/
def Build.model {α : Type} (script : Build α) : Model :=
  ((script []).final?).getD []

/-! ## Running a model -/

/-- The object at a position, for positions within the model. -/
def Model.elem (m : Model) (id : Nat) : Element :=
  (m.get? id).getD { kind := ElementKind.Region, name := "" }

/-- A run about to start on a fresh context. -/
def Run.start (m : Model) : Run :=
  { model := m, context := Context.new, randomCalls := 0 }

/-- The call `machine.initialise(context)` for the machine at position 0, the random source
returning 0 and calls nesting at most 32 deep. -/
def Run.initialise (run : Run) : Outcome Run Unit :=
  StateMachine.initialise 32 (fun _ => 0) 0 true run

/-- The call `machine.evaluate(message, context)` for the machine at position 0. -/
def Run.evaluate (message : Message) (run : Run) : Outcome Run Bool :=
  StateMachine.evaluate 32 (fun _ => 0) 0 message true run

/-- The run that `initialise` leaves on a fresh context. -/
def Run.initialised (m : Model) : Run :=
  ((Run.initialise (Run.start m)).final?).getD (Run.start m)

/-- The run left by `initialise` on a fresh context followed by `evaluate(message)`. -/
def Run.dispatched (m : Model) (message : Message) : Run :=
  ((Run.evaluate message (Run.initialised m)).state?).getD (Run.start m)

/-- The property `name` of a context object, 0 when it is absent. -/
def Context.prop (c : Context) (name : String) : Int :=
  ((c.props.find? (fun p => p.1 == name)).map (fun p => p.2)).getD 0

/-- The statement `context[name]++`. -/
def Context.increment (name : String) (c : Context) : Context :=
  { c with props :=
      if c.props.any (fun p => p.1 == name)
      then c.props.map (fun p => if p.1 == name then (p.1, p.2 + 1) else p)
      else c.props ++ [(name, 1)] }

/-- A guard that holds of the message `1` only. -/
def onOne : Message → Context → Bool :=
  fun message _ => decide (message = Message.value 1)

/-! ## Models -/

/-- A state `s` with two transitions whose guards both hold of the message 1.
Positions: model 0, initial 1, default region 2, s 3, a 4, b 5. -/
def twoGuards : Build Unit := do
  let model ← StateMachine.new "model"
  let initial ← PseudoState.new "initial" (some model) PseudoStateKind.Initial
  let s ← State.new "s" (some model)
  let a ← State.new "a" (some model)
  let b ← State.new "b" (some model)
  let _ ← Vertex.to initial (Target.vertex s)
  let t1 ← Vertex.to s (Target.vertex a)
  let _ ← Transition.when t1 onOne
  let t2 ← Vertex.to s (Target.vertex b)
  let _ ← Transition.when t2 onOne
  pure ()

/-- A local transition to a Terminate pseudo state: `a` and `t` are both in the default region
of the machine.  Positions: model 0, initial 1, default region 2, a 3, t 4. -/
def terminateLocal : Build Unit := do
  let model ← StateMachine.new "model"
  let initial ← PseudoState.new "initial" (some model) PseudoStateKind.Initial
  let a ← State.new "a" (some model)
  let t ← PseudoState.new "t" (some model) PseudoStateKind.Terminate
  let _ ← Vertex.to initial (Target.vertex a)
  let t1 ← Vertex.to a (Target.vertex t)
  let _ ← Transition.when t1 onOne
  pure ()

/-- An external transition to a Terminate pseudo state: `aa` is inside `a`, the target `t` is
in the default region of the machine.  Positions: model 0, initial 1, default region 2, a 3,
t 4, initial of a 5, default region of a 6, aa 7. -/
def terminateExternal : Build Unit := do
  let model ← StateMachine.new "model"
  let initial ← PseudoState.new "initial" (some model) PseudoStateKind.Initial
  let a ← State.new "a" (some model)
  let t ← PseudoState.new "t" (some model) PseudoStateKind.Terminate
  let initialA ← PseudoState.new "initial" (some a) PseudoStateKind.Initial
  let aa ← State.new "aa" (some a)
  let _ ← Vertex.to initial (Target.vertex a)
  let _ ← Vertex.to initialA (Target.vertex aa)
  let t1 ← Vertex.to aa (Target.vertex t)
  let _ ← Transition.when t1 onOne
  pure ()

/-- The model of test/static.js.  Positions: model 0, initial 1, default region 2,
junction1 3, junction2 4, pass 5, fail 6. -/
def staticModel : Build Unit := do
  let model ← StateMachine.new "model"
  let initial ← PseudoState.new "initial" (some model) PseudoStateKind.Initial
  let junction1 ← PseudoState.new "junction1" (some model) PseudoStateKind.Junction
  let junction2 ← PseudoState.new "junction2" (some model) PseudoStateKind.Junction
  let pass ← State.new "success" (some model)
  let fail ← State.new "error" (some model)
  let _ ← Vertex.to initial (Target.vertex junction1)
  let t1 ← Vertex.to junction1 (Target.vertex junction2)
  let _ ← Transition.when t1 (fun _ context => context.prop "counter" == 0)
  let _ ← Transition.effect t1 (fun _ context _ => context.increment "counter")
  let t2 ← Vertex.to junction1 (Target.vertex fail)
  let _ ← Transition.else t2
  let t3 ← Vertex.to junction2 (Target.vertex pass)
  let _ ← Transition.when t3 (fun _ context => context.prop "counter" == 0)
  let _ ← Transition.effect t3 (fun _ context _ => context.increment "counter")
  let t4 ← Vertex.to junction2 (Target.vertex fail)
  let _ ← Transition.else t4
  pure ()

/-- The instance of test/static.js: `instance.counter = 0`. -/
def staticStart : Run :=
  { model := staticModel.model,
    context := { Context.new with props := [("counter", 0)] },
    randomCalls := 0 }

/-- A composite state `c` whose region rests in `s1`, a state that still has an outgoing
transition, and whose completion transition leads to `d`.  Positions: model 0, initial 1,
default region 2, c 3, d 4, initial of c 5, default region of c 6, s1 7, s2 8. -/
def incomplete : Build Unit := do
  let model ← StateMachine.new "model"
  let initial ← PseudoState.new "initial" (some model) PseudoStateKind.Initial
  let c ← State.new "c" (some model)
  let d ← State.new "d" (some model)
  let initialC ← PseudoState.new "initial" (some c) PseudoStateKind.Initial
  let s1 ← State.new "s1" (some c)
  let s2 ← State.new "s2" (some c)
  let _ ← Vertex.to initial (Target.vertex c)
  let _ ← Vertex.to initialC (Target.vertex s1)
  let t1 ← Vertex.to s1 (Target.vertex s2)
  let _ ← Transition.when t1 onOne
  let _ ← Vertex.to c (Target.vertex d)
  pure ()

/-- The completion cascade: the initial pseudo state of the machine leads to the composite
state `c`, the initial pseudo state of the one region of `c` leads to the final state `f`,
and the one transition of `c` is a completion transition to its sibling `d`; `dKind` is the
class of `d` (State or FinalState).  Positions: model 0, initial 1, default region 2, c 3,
d 4, initial of c 5, default region of c 6, f 7. -/
def cascade (dKind : ElementKind) : Build Unit := do
  let model ← StateMachine.new "model"
  let initial ← PseudoState.new "initial" (some model) PseudoStateKind.Initial
  let c ← State.new "c" (some model)
  let d ←
    match dKind with
    | ElementKind.FinalState => FinalState.new "d" (some model)
    | _ => State.new "d" (some model)
  let initialC ← PseudoState.new "initial" (some c) PseudoStateKind.Initial
  let f ← FinalState.new "f" (some c)
  let _ ← Vertex.to initial (Target.vertex c)
  let _ ← Vertex.to initialC (Target.vertex f)
  let _ ← Vertex.to c (Target.vertex d)
  pure ()

/-- The completion cascade in which the sibling `d` has a completion transition of its own,
to `e`.  Positions as in `cascade`, and e 8. -/
def cascadeOn : Build Unit := do
  cascade ElementKind.State
  let e ← State.new "e" (some 0)
  let _ ← Vertex.to 4 (Target.vertex e)
  pure ()

/-- A state `o` with two regions `r1` and `r2`, each with an initial pseudo state and one
state, and a transition from `x` in `r1` to `y` in `r2`.  Positions: model 0, initial 1,
default region 2, o 3, r1 4, r2 5, initial of r1 6, x 7, initial of r2 8, y 9. -/
def crossing : Build Unit := do
  let model ← StateMachine.new "model"
  let initial ← PseudoState.new "initial" (some model) PseudoStateKind.Initial
  let o ← State.new "o" (some model)
  let r1 ← Region.new "r1" o
  let r2 ← Region.new "r2" o
  let initial1 ← PseudoState.new "initial" (some r1) PseudoStateKind.Initial
  let x ← State.new "x" (some r1)
  let initial2 ← PseudoState.new "initial" (some r2) PseudoStateKind.Initial
  let y ← State.new "y" (some r2)
  let _ ← Vertex.to initial (Target.vertex o)
  let _ ← Vertex.to initial1 (Target.vertex x)
  let _ ← Vertex.to initial2 (Target.vertex y)
  let t ← Vertex.to x (Target.vertex y)
  let _ ← Transition.when t onOne
  pure ()

/-- A transition from the state `c` to the state `s` that contains it.  Positions: model 0,
initial 1, default region 2, s 3, initial of s 4, default region of s 5, c 6. -/
def toAncestor : Build Unit := do
  let model ← StateMachine.new "model"
  let initial ← PseudoState.new "initial" (some model) PseudoStateKind.Initial
  let s ← State.new "s" (some model)
  let initialS ← PseudoState.new "initial" (some s) PseudoStateKind.Initial
  let c ← State.new "c" (some s)
  let _ ← Vertex.to initial (Target.vertex s)
  let _ ← Vertex.to initialS (Target.vertex c)
  let t ← Vertex.to c (Target.vertex s)
  let _ ← Transition.when t onOne
  pure ()

/-- An external transition from `a` into the composite state `t` inside `b`; the entry
behaviour of `x`, the state that the region of `t` starts in, counts its calls in the
property `x`.  Positions: model 0, initial 1, default region 2, a 3, b 4, initial of b 5,
default region of b 6, t 7, initial of t 8, default region of t 9, x 10. -/
def intoComposite : Build Unit := do
  let model ← StateMachine.new "model"
  let initial ← PseudoState.new "initial" (some model) PseudoStateKind.Initial
  let a ← State.new "a" (some model)
  let b ← State.new "b" (some model)
  let initialB ← PseudoState.new "initial" (some b) PseudoStateKind.Initial
  let t ← State.new "t" (some b)
  let initialT ← PseudoState.new "initial" (some t) PseudoStateKind.Initial
  let x ← State.new "x" (some t)
  let _ ← State.entry x (fun _ context _ => context.increment "x")
  let _ ← Vertex.to initial (Target.vertex a)
  let _ ← Vertex.to initialB (Target.vertex t)
  let _ ← Vertex.to initialT (Target.vertex x)
  let tr ← Vertex.to a (Target.vertex t)
  let _ ← Transition.when tr onOne
  pure ()

/-- A state `o` with two regions, `r1` resting in `x` and `r2` resting in `y`, which is left
for `z` on the message 1; the exit behaviours of `x`, `y` and `o` count their calls in the
properties `x`, `y` and `o`.  Positions: model 0, initial 1, default region 2, o 3, z 4,
r1 5, r2 6, initial of r1 7, x 8, initial of r2 9, y 10. -/
def orthogonal : Build Unit := do
  let model ← StateMachine.new "model"
  let initial ← PseudoState.new "initial" (some model) PseudoStateKind.Initial
  let o ← State.new "o" (some model)
  let z ← State.new "z" (some model)
  let r1 ← Region.new "r1" o
  let r2 ← Region.new "r2" o
  let initial1 ← PseudoState.new "initial" (some r1) PseudoStateKind.Initial
  let x ← State.new "x" (some r1)
  let initial2 ← PseudoState.new "initial" (some r2) PseudoStateKind.Initial
  let y ← State.new "y" (some r2)
  let _ ← State.exit x (fun _ context _ => context.increment "x")
  let _ ← State.exit y (fun _ context _ => context.increment "y")
  let _ ← State.exit o (fun _ context _ => context.increment "o")
  let _ ← Vertex.to initial (Target.vertex o)
  let _ ← Vertex.to initial1 (Target.vertex x)
  let _ ← Vertex.to initial2 (Target.vertex y)
  let t ← Vertex.to o (Target.vertex z)
  let _ ← Transition.when t onOne
  pure ()

/-- Which closure an action is: the line of the source that creates it and the object it
refers to; 0 and 0 for a behaviour supplied by the caller. -/
def Action.code : Action → Nat × Nat
  | Action.regionLeave r => (118, r)
  | Action.regionEnter r => (125, r)
  | Action.completions v => (211, v)
  | Action.terminate => (299, 0)
  | Action.invokeLeave r => (418, r)
  | Action.setCurrent s => (426, s)
  | Action.user _ => (0, 0)

/-- Three transitions from the vertex 0 to the vertices 1, 2 and 3, with completion guards. -/
def threeCandidates : List Transition :=
  [{ source := 0, target := Target.vertex 1, guard := Guard.completion,
     transitionBehavior := [], traverse := [] },
   { source := 0, target := Target.vertex 2, guard := Guard.completion,
     transitionBehavior := [], traverse := [] },
   { source := 0, target := Target.vertex 3, guard := Guard.completion,
     transitionBehavior := [], traverse := [] }]

/-- The target of the transition a selector returned. -/
def selectedTarget : Except String (Option Transition) → Option Target
  | Except.ok (some t) => some t.target
  | _ => none

/-- A state `s` with a transition created by `s.to()`, the target omitted, guarded by the
message 1 and counting its traversals in the property `n`.  Positions: model 0, initial 1,
default region 2, s 3. -/
def internalOmitted : Build Unit := do
  let model ← StateMachine.new "model"
  let initial ← PseudoState.new "initial" (some model) PseudoStateKind.Initial
  let s ← State.new "s" (some model)
  let _ ← Vertex.to initial (Target.vertex s)
  let t ← Vertex.to s Target.undefined
  let _ ← Transition.when t onOne
  let _ ← Transition.effect t (fun _ context _ => context.increment "n")
  pure ()

/-- The same model with the transition created by `s.to(null)`. -/
def internalNull : Build Unit := do
  let model ← StateMachine.new "model"
  let initial ← PseudoState.new "initial" (some model) PseudoStateKind.Initial
  let s ← State.new "s" (some model)
  let _ ← Vertex.to initial (Target.vertex s)
  let t ← Vertex.to s Target.null
  let _ ← Transition.when t onOne
  let _ ← Transition.effect t (fun _ context _ => context.increment "n")
  pure ()

/-- A machine whose Initial pseudo state has no outgoing transition.  Positions: model 0,
initial 1, default region 2, a 3. -/
def initialWithoutTransition : Build Unit := do
  let model ← StateMachine.new "model"
  let _ ← PseudoState.new "initial" (some model) PseudoStateKind.Initial
  let _ ← State.new "a" (some model)
  pure ()

/-- A state `o` with two regions that are both named `r`; the names of the vertices are
unique within each region.  Positions: model 0, initial 1, default region 2, o 3, first
region 4, second region 5, initial of the first 6, x 7, initial of the second 8, y 9. -/
def twinRegions : Build Unit := do
  let model ← StateMachine.new "model"
  let initial ← PseudoState.new "initial" (some model) PseudoStateKind.Initial
  let o ← State.new "o" (some model)
  let r1 ← Region.new "r" o
  let r2 ← Region.new "r" o
  let initial1 ← PseudoState.new "initial" (some r1) PseudoStateKind.Initial
  let x ← State.new "x" (some r1)
  let initial2 ← PseudoState.new "initial" (some r2) PseudoStateKind.Initial
  let y ← State.new "y" (some r2)
  let _ ← Vertex.to initial (Target.vertex o)
  let _ ← Vertex.to initial1 (Target.vertex x)
  let _ ← Vertex.to initial2 (Target.vertex y)
  pure ()

/-- Spec section 4.4, "evaluate every child Region ... OR-ing whether any processed the
message": the regions are evaluated one after the other, each on the run the one before it
left, and the answers are collected. -/
def evaluateAllRegions (engine : Engine) (message : Message) :
    List Nat → Run → Outcome Run (List Bool)
  | [], run => Outcome.ok [] run
  | r :: rest, run =>
    (engine.evaluate r message run).bind (fun result run1 =>
      (evaluateAllRegions engine message rest run1).bind (fun results run2 =>
        Outcome.ok (result :: results) run2))

/-- The depth of an object: the number of parent links from it up to an object without
parent, following at most `fuel` links. -/
def Model.depthAux (m : Model) : Nat → Nat → Nat
  | 0, _ => 0
  | fuel + 1, id =>
    match m.parent id with
    | some p => Model.depthAux m fuel p + 1
    | none => 0

/-- The depth of an object of the model (0 for an object without parent). -/
def Model.depth (m : Model) (id : Nat) : Nat :=
  Model.depthAux m m.length id

/-- Modelled from the spec: the body of `lowestCommonAncestorIndex` of the ancestry utility,
which lib/node/tree.d.ts declares and src/test/tree.js tests but which is not under src/.
Spec 4.1: it "scans both sequences from index 0 while elements are identical" and returns
"-1 if the sequences disagree at index 0"; identical single-node sequences "return 0"; spec
section 8: for identical inputs it "returns the full shared depth".  The result is the
position of the last element the scan passed, which is what every assertion of
src/test/tree.js expects. -/
def lowestCommonAncestorIndex (ancestry1 ancestry2 : List Nat) : Int :=
  (commonLength ancestry1 ancestry2 : Int) - 1

/-- The tree of src/test/tree.js as ancestries: root 0, left 1, right 2, rightLeft 3,
rightRight 4, other 5. -/
def treeAncestry : Nat → List Nat
  | 0 => [0]
  | 1 => [0, 1]
  | 2 => [0, 2]
  | 3 => [0, 2, 3]
  | 4 => [0, 2, 4]
  | _ => [5]

/-- A transition without what bootstrap computes: its `traverse`. -/
def Transition.frame (t : Transition) : Transition :=
  { t with traverse := [] }

/-- An object without what bootstrap computes: its four action lists and the `traverse` of
its transitions. -/
def Element.frame (e : Element) : Element :=
  { e with
    leave := [], beginEnter := [], endEnter := [], enter := [],
    transitions := e.transitions.map Transition.frame }

/-- The model as the builder made it: every object without what bootstrap computes. -/
def Model.frame (m : Model) : Model :=
  m.map Element.frame

/-- A property of the state an outcome reached, by return or by throw. -/
def Outcome.All {σ α : Type} (P : σ → Prop) : Outcome σ α → Prop
  | Outcome.ok _ s => P s
  | Outcome.throw _ s => P s
  | Outcome.timeout => True

/-- A guard that holds of the messages `1` and `2` only. -/
def onOneOrTwo : Message → Context → Bool :=
  fun message _ => decide (message = Message.value 1) || decide (message = Message.value 2)

/-- A composite state `s` with two transitions whose guards both hold of the messages 1 and
2, and inside it a state `a` with a transition to `b` on the message 1.  Positions: model 0,
initial 1, default region 2, s 3, x 4, y 5, initial of s 6, default region of s 7, a 8,
b 9. -/
def twoGuardsComposite : Build Unit := do
  let model ← StateMachine.new "model"
  let initial ← PseudoState.new "initial" (some model) PseudoStateKind.Initial
  let s ← State.new "s" (some model)
  let x ← State.new "x" (some model)
  let y ← State.new "y" (some model)
  let initialS ← PseudoState.new "initial" (some s) PseudoStateKind.Initial
  let a ← State.new "a" (some s)
  let b ← State.new "b" (some s)
  let _ ← Vertex.to initial (Target.vertex s)
  let _ ← Vertex.to initialS (Target.vertex a)
  let t ← Vertex.to a (Target.vertex b)
  let _ ← Transition.when t onOne
  let t1 ← Vertex.to s (Target.vertex x)
  let _ ← Transition.when t1 onOneOrTwo
  let t2 ← Vertex.to s (Target.vertex y)
  let _ ← Transition.when t2 onOneOrTwo
  pure ()

/-- A guard that holds of the message `n` only. -/
def onValue (n : Int) : Message → Context → Bool :=
  fun message _ => decide (message = Message.value n)

/-- The composite state `o`, whose region starts in a history pseudo state of kind `kind`
leading to `a`; `a` goes to the composite state `b` on 1; the region of `b` starts in a plain
Initial pseudo state leading to `b1`, which goes to `b2` on 2; `o` is left for `out` on 3 and
entered again on 4.  Positions: model 0, initial 1, default region 2, o 3, out 4, h 5,
region of o 6, a 7, b 8, initial of b 9, region of b 10, b1 11, b2 12. -/
def history (kind : PseudoStateKind) : Build Unit := do
  let model ← StateMachine.new "model"
  let initial ← PseudoState.new "initial" (some model) PseudoStateKind.Initial
  let o ← State.new "o" (some model)
  let out ← State.new "out" (some model)
  let h ← PseudoState.new "h" (some o) kind
  let a ← State.new "a" (some o)
  let b ← State.new "b" (some o)
  let initialB ← PseudoState.new "initial" (some b) PseudoStateKind.Initial
  let b1 ← State.new "b1" (some b)
  let b2 ← State.new "b2" (some b)
  let _ ← Vertex.to initial (Target.vertex o)
  let _ ← Vertex.to h (Target.vertex a)
  let _ ← Vertex.to initialB (Target.vertex b1)
  let t1 ← Vertex.to a (Target.vertex b)
  let _ ← Transition.when t1 (onValue 1)
  let t2 ← Vertex.to b1 (Target.vertex b2)
  let _ ← Transition.when t2 (onValue 2)
  let t3 ← Vertex.to o (Target.vertex out)
  let _ ← Transition.when t3 (onValue 3)
  let t4 ← Vertex.to out (Target.vertex o)
  let _ ← Transition.when t4 (onValue 4)
  pure ()

/-- The run left by `initialise` on a fresh context followed by `evaluate` of each of the
messages in turn; `none` when one of the calls raised an error. -/
def Run.after (m : Model) (messages : List Int) : Option Run :=
  messages.foldl
    (fun acc n => acc.bind (fun run => (Run.evaluate (Message.value n) run).final?))
    ((Run.initialise (Run.start m)).final?)

/-- The loop of `State.defaultRegion` (lines 344-348): the last of the regions whose name is
`Region.defaultName`. -/
def lastDefault (m : Model) (regions : List Nat) : Option Nat :=
  regions.foldl
    (fun (acc : Option Nat) r =>
      match m.get? r with
      | some re => if re.name = Region.defaultName then some r else acc
      | none => acc)
    none

/-- An object without what bootstrap writes: the action lists, `traverse` and `clean`. -/
def Element.shape (e : Element) : Element :=
  { e.frame with clean := true }

/-- The model without what bootstrap writes. -/
def Model.shape (m : Model) : Model := m.map Element.shape

/-- The objects that `bootstrap` of an object goes on to: the vertices of a region, the
regions of a state. -/
def Element.children (e : Element) : List Nat :=
  match e.kind with
  | ElementKind.Region => e.vertices
  | ElementKind.PseudoState _ => []
  | _ => e.regions

/-- Every object that a region or a state holds has that region or state as parent, as the
constructors leave it. -/
def Model.wellFormed (m : Model) : Prop :=
  ∀ x e, m.get? x = some e → ∀ c ∈ e.children, m.parent c = some x

/-- The object `x` is `v` or lies, at any depth, inside `v`: following `parent` from `x`
leads to `v`. -/
inductive Model.Under (m : Model) (v : Nat) : Nat → Prop where
  | self : Model.Under m v v
  | step (x p : Nat) : m.parent x = some p → Model.Under m v p → Model.Under m v x

/-- The behaviours are functions supplied by the caller, as `entry`, `exit` and `effect`
store them. -/
def UserActions (actions : List Action) : Prop :=
  ∀ a ∈ actions, ∃ f, a = Action.user f

/-- The behaviours are functions supplied by the caller that leave alone the record of
current states that the context keeps. -/
def KeepCurrent (actions : List Action) : Prop :=
  ∀ a ∈ actions, ∃ f, a = Action.user f ∧
    ∀ message context history, (f message context history).last = context.last

/-- The premises of the completion cascade: the machine `sm` has the one region `R`, which
starts in the Initial pseudo state `I` leading to the composite state `C`; the one region
`RC` of `C` starts in the Initial pseudo state `IC` leading to the final state `F`; the one
transition of `C` is a completion transition to `D`, a state of `R` other than `C`.  With
them, what the constructors guarantee (parents, a final state without transitions, behaviours
that are functions of the caller) and the one condition on the behaviours of the caller:
those run from the entry of `F` to the entry of `D` leave the record of current states
alone. -/
structure Cascade (m : Model) (sm R I C RC IC F D : Nat) : Prop where
  /-- The eight objects are objects of the model. -/
  inModel : ∀ x ∈ [sm, R, I, C, RC, IC, F, D], x < m.length
  /-- Parents are as the constructors leave them. -/
  wellFormed : m.wellFormed
  /-- The machine is the root and has the one region `R` and no transition. -/
  machine : (m.elem sm).kind = ElementKind.StateMachine ∧ (m.elem sm).region = none ∧
    (m.elem sm).regions = [R] ∧ (m.elem sm).transitions = []
  /-- The region `R` of the machine starts in `I` and holds `I`, `C` and `D`. -/
  rootRegion : (m.elem R).kind = ElementKind.Region ∧ (m.elem R).state = some sm ∧
    (m.elem R).initial = some I ∧ I ∈ (m.elem R).vertices ∧ C ∈ (m.elem R).vertices ∧
    D ∈ (m.elem R).vertices
  /-- The pseudo state `I` is an Initial pseudo state with one transition, to `C`. -/
  rootInitial : (m.elem I).kind = ElementKind.PseudoState PseudoStateKind.Initial ∧
    (m.elem I).region = some R ∧
    (m.elem I).transitions.map (fun t => (t.source, t.target)) = [(I, Target.vertex C)]
  /-- The state `C` has the one region `RC` and one transition, a completion transition
  to `D`. -/
  composite : (m.elem C).kind = ElementKind.State ∧ (m.elem C).region = some R ∧
    (m.elem C).regions = [RC] ∧
    (m.elem C).transitions.map (fun t => (t.source, t.target)) = [(C, Target.vertex D)] ∧
    ∀ t ∈ (m.elem C).transitions, t.guard = Guard.completion
  /-- The region `RC` of `C` starts in `IC` and holds `IC` and `F`. -/
  childRegion : (m.elem RC).kind = ElementKind.Region ∧ (m.elem RC).state = some C ∧
    (m.elem RC).initial = some IC ∧ IC ∈ (m.elem RC).vertices ∧ F ∈ (m.elem RC).vertices
  /-- The pseudo state `IC` is an Initial pseudo state with one transition, to `F`. -/
  childInitial : (m.elem IC).kind = ElementKind.PseudoState PseudoStateKind.Initial ∧
    (m.elem IC).region = some RC ∧
    (m.elem IC).transitions.map (fun t => (t.source, t.target)) = [(IC, Target.vertex F)]
  /-- The final state `F` has no transition and no region. -/
  final : (m.elem F).kind = ElementKind.FinalState ∧ (m.elem F).region = some RC ∧
    (m.elem F).regions = [] ∧ (m.elem F).transitions = []
  /-- The state `D` is a state of `R` other than `C`. -/
  sibling : (m.elem D).isState = true ∧ (m.elem D).region = some R ∧ D ≠ C
  /-- Entry behaviours and effects on the way to `F` are functions of the caller. -/
  behaviours : UserActions (m.elem sm).entryBehavior ∧ UserActions (m.elem C).entryBehavior ∧
    UserActions (m.elem F).entryBehavior ∧
    (∀ t ∈ (m.elem I).transitions, UserActions t.transitionBehavior) ∧
    (∀ t ∈ (m.elem IC).transitions, UserActions t.transitionBehavior)
  /-- The behaviours run between the entry of `F` and the entry of `D` leave the record of
  current states alone. -/
  keepCurrent : KeepCurrent (m.elem F).exitBehavior ∧ KeepCurrent (m.elem C).exitBehavior ∧
    KeepCurrent (m.elem D).entryBehavior ∧
    ∀ t ∈ (m.elem C).transitions, KeepCurrent t.transitionBehavior

/-- What the first pass leaves at an Initial pseudo state `i`: nothing to do on leaving, and
the completion closure of line 211 on entering. -/
def EntersInitial (s : Model) (i : Nat) : Prop :=
  (s.elem i).leave = [] ∧ (s.elem i).enter = [Action.completions i]

/-- What the first pass leaves at a state `f` without regions. -/
def EntersLeaf (s : Model) (f : Nat) : Prop :=
  (s.elem f).leave = (s.elem f).exitBehavior ∧
  (s.elem f).enter =
    (s.elem f).entryBehavior ++ [Action.setCurrent f, Action.completions f]

/-- What the first pass leaves at a region `r` whose initial pseudo state is the Initial
pseudo state `i`. -/
def EntersRegion (s : Model) (r i : Nat) : Prop :=
  (s.elem r).leave = [Action.regionLeave r] ∧ (s.elem r).enter = [Action.completions i]

/-- What the first pass leaves at a state `c` whose one region is `r`, with Initial pseudo
state `i`. -/
def EntersComposite (s : Model) (c r i : Nat) : Prop :=
  (s.elem c).leave = [Action.invokeLeave r] ++ (s.elem c).exitBehavior ∧
  (s.elem c).enter =
    (s.elem c).entryBehavior ++
      [Action.setCurrent c, Action.completions i, Action.completions c]

/-- What the first pass leaves at any state `d`: its `enter` sequence runs the entry
behaviour, records the state as current, and goes on with `endEnter`, which for a state
without regions is the completion closure of line 211. -/
def EntersState (s : Model) (d : Nat) : Prop :=
  (s.elem d).enter =
    (s.elem d).entryBehavior ++ [Action.setCurrent d] ++ (s.elem d).endEnter ∧
  ((s.elem d).regions = [] → (s.elem d).endEnter = [Action.completions d])

/-- What the second pass leaves at a vertex `x` whose transitions lead to the vertex `y` of
the same region. -/
def Traverses (s : Model) (x y : Nat) : Prop :=
  ∀ t ∈ (s.elem x).transitions,
    t.traverse = (s.elem x).leave ++ t.transitionBehavior ++ (s.elem y).enter

/-- What the first pass leaves at the composite state `c` and below it. -/
def EntersCascade (s : Model) (c r i f : Nat) : Prop :=
  EntersComposite s c r i ∧ EntersRegion s r i ∧ EntersInitial s i ∧ EntersLeaf s f

/-- An object without its transitions: what the second pass of bootstrap leaves alone. -/
def Element.compiled (e : Element) : Element := { e with transitions := [] }

/-- The model `t` is the model `s` but for the `traverse` sequences of its transitions. -/
def Model.Retraversed (s t : Model) : Prop :=
  t.frame = s.frame ∧ ∀ z, (t.elem z).compiled = (s.elem z).compiled

/-- The model of the cascade as `StateMachine.bootstrap` leaves it. -/
structure CompiledCascade (s : Model) (sm R I C RC IC F D : Nat) : Prop where
  /-- The model is one of the cascade. -/
  cascade : Cascade s sm R I C RC IC F D
  /-- Line 521 has set the flag. -/
  clean : (s.elem sm).clean = true
  /-- Entering the machine runs its entry behaviour, records it, and evaluates the
  completions of the Initial pseudo state of the root region and of the machine. -/
  machine : (s.elem sm).enter = (s.elem sm).entryBehavior ++
    [Action.setCurrent sm, Action.completions I, Action.completions sm]
  /-- The Initial pseudo state of the root region. -/
  initial : EntersInitial s I
  /-- The composite state and what is below it. -/
  below : EntersCascade s C RC IC F
  /-- The sibling. -/
  sibling : EntersState s D
  /-- The transition of the Initial pseudo state of the root region. -/
  fromInitial : Traverses s I C
  /-- The transition of the Initial pseudo state of the region of `C`. -/
  fromChildInitial : Traverses s IC F
  /-- The completion transition of `C`. -/
  fromComposite : Traverses s C D

/-- The code returns, in a state that satisfies `P`. -/
def Outcome.Returns {σ α : Type} (x : Outcome σ α) (P : σ → Prop) : Prop :=
  ∃ a s, x = Outcome.ok a s ∧ P s

/-- The run works on the model `s`, and its context records `d` as the current state of the
region `r` and `f` as the current state of the region `rc`. -/
def Run.Settled (s : Model) (r rc d f : Nat) (run : Run) : Prop :=
  run.model = s ∧ run.context.getCurrent (s.toString r) = some d ∧
  run.context.getCurrent (s.toString rc) = some f

/-- A behaviour that erases the record of current states of the context. -/
def forget : Message → Context → Bool → Context :=
  fun _ context _ => { context with last := [] }

/-- The completion cascade in which the composite state `c` has an exit behaviour that
erases the record of current states.  Positions as in `cascade`. -/
def cascadeForget : Build Unit := do
  cascade ElementKind.State
  let _ ← State.exit 3 forget
  pure ()

/-- The completion cascade next to a state `o` with two regions and a transition from the
state `x` of the one to the state `y` of the other.  Positions as in `cascade`, and o 8,
r1 9, r2 10, x 11, y 12. -/
def cascadeCrossing : Build Unit := do
  cascade ElementKind.State
  let o ← State.new "o" (some 0)
  let r1 ← Region.new "r1" o
  let r2 ← Region.new "r2" o
  let x ← State.new "x" (some r1)
  let y ← State.new "y" (some r2)
  let _ ← Vertex.to x (Target.vertex y)
  pure ()

/-- The initial pseudo state of every region is one of its vertices, as the constructors of
Vertex and PseudoState leave it (lines 165-179 and 283-289).  The model without objects has
the property and every constructor and method that changes the model keeps it (the theorems
whose names end in `_listed`). -/
def Model.initialsListed (F : Model) : Prop :=
  ∀ r e i, F.get? r = some e → e.kind = ElementKind.Region → e.initial = some i →
    i ∈ e.vertices

/-- The test of lines 116-117 of `Region.bootstrap`: the initial pseudo state of the region
is a DeepHistory pseudo state. -/
def Region.initialDeep (m : Model) (e : Element) : Bool :=
  match e.initial.bind (fun i => m.get? i) with
  | some i => i.isDeepHistory
  | none => false

set_option maxRecDepth 100000

/-! ## Selectors: `State.selector` -/

/-- Once a transition has been selected, a further true guard is an error. -/
theorem stateSelectorLoop_some (message : Message) (context : Context)
    (transitions : List Transition) (r : Transition) :
    State.selectorLoop message context transitions (some r) =
      match transitions.filter (fun t => t.evalGuard message context) with
      | [] => Except.ok (some r)
      | _ :: _ => Except.error multipleOutbound := by
  induction transitions with
  | nil => simp [State.selectorLoop]
  | cons t rest ih =>
    by_cases h : t.evalGuard message context = true
    · simp [State.selectorLoop, h]
    · simp [State.selectorLoop, h, ih]

/-- The result of `State.selector` in terms of the transitions whose guard is true. -/
theorem stateSelector_eq (transitions : List Transition) (message : Message)
    (context : Context) :
    State.selector transitions message context =
      match transitions.filter (fun t => t.evalGuard message context) with
      | [] => Except.ok none
      | [t] => Except.ok (some t)
      | _ :: _ :: _ => Except.error multipleOutbound := by
  unfold State.selector
  induction transitions with
  | nil => simp [State.selectorLoop]
  | cons t rest ih =>
    by_cases h : t.evalGuard message context = true
    · simp only [State.selectorLoop, h, if_true]
      rw [stateSelectorLoop_some]
      have hc : List.filter (fun t => t.evalGuard message context) (t :: rest) =
          t :: List.filter (fun t => t.evalGuard message context) rest := by
        simp [List.filter, h]
      rw [hc]
      cases rest.filter (fun t => t.evalGuard message context) with
      | nil => rfl
      | cons a as => rfl
    · simp only [State.selectorLoop, h]
      have hc : List.filter (fun t => t.evalGuard message context) (t :: rest) =
          List.filter (fun t => t.evalGuard message context) rest := by
        simp [List.filter, h]
      rw [hc]
      simpa using ih

/-- `Vertex.evaluate` of a state raises when two of its guards are true. -/
theorem vertexEvaluate_throws (engine : Engine) (random : Nat → ℚ) (id : Nat)
    (message : Message) (run : Run) (e : Element)
    (he : run.model.get? id = some e) (hs : e.isState = true)
    (h2 : 2 ≤ (e.transitions.filter (fun t => t.evalGuard message run.context)).length) :
    Vertex.evaluate engine random id message run = Outcome.throw multipleOutbound run := by
  have hsel : State.selector e.transitions message run.context =
      Except.error multipleOutbound := by
    rw [stateSelector_eq]
    cases hf : e.transitions.filter (fun t => t.evalGuard message run.context) with
    | nil => rw [hf] at h2; simp at h2
    | cons a as =>
      cases as with
      | nil => rw [hf] at h2; simp at h2
      | cons b bs => rfl
  unfold Vertex.evaluate
  rw [he]
  cases hk : e.kind <;> simp [Element.isState, hk] at hs <;>
    simp [Element.selector, Element.randomCalls, hk, hsel]

/-- `State.evaluate` raises when none of the child regions made a transition and two guards
of the state are true in the run the regions left. -/
theorem stateEvaluate_throws (engine : Engine) (random : Nat → ℚ) (id : Nat)
    (message : Message) (run run1 : Run) (e e1 : Element)
    (he : run.model.get? id = some e)
    (hregions : State.evaluateRegions engine message e.regions false run =
      Outcome.ok false run1)
    (he1 : run1.model.get? id = some e1) (hs : e1.isState = true)
    (h2 : 2 ≤ (e1.transitions.filter (fun t => t.evalGuard message run1.context)).length) :
    State.evaluate engine random id message run = Outcome.throw multipleOutbound run1 := by
  unfold State.evaluate
  rw [he]
  simp only [hregions, Outcome.bind, if_true,
    vertexEvaluate_throws engine random id message run1 e1 he1 hs h2]

/-- An error raised by a region ends the loop of `State.evaluate` over the regions. -/
theorem evaluateRegions_throws (engine : Engine) (message : Message) (before after : List Nat)
    (r : Nat) (processed processed0 : Bool) (run run0 run1 : Run) (err : String)
    (hbefore : State.evaluateRegions engine message before processed run =
      Outcome.ok processed0 run0)
    (hr : engine.evaluate r message run0 = Outcome.throw err run1) :
    State.evaluateRegions engine message (before ++ r :: after) processed run =
      Outcome.throw err run1 := by
  induction before generalizing processed run with
  | nil =>
    simp only [State.evaluateRegions, Outcome.ok.injEq] at hbefore
    rw [hbefore.2]
    simp only [List.nil_append, State.evaluateRegions, hr, Outcome.bind]
  | cons a rest ih =>
    simp only [List.cons_append, State.evaluateRegions] at hbefore ⊢
    cases ha : engine.evaluate a message run with
    | timeout => rw [ha] at hbefore; simp [Outcome.bind] at hbefore
    | throw err2 s => rw [ha] at hbefore; simp [Outcome.bind] at hbefore
    | ok result s =>
      rw [ha] at hbefore
      simp only [Outcome.bind] at hbefore ⊢
      exact ih _ _ hbefore

/-- An error raised by a region is raised by `State.evaluate` of its state. -/
theorem stateEvaluate_region_throws (engine : Engine) (random : Nat → ℚ) (id : Nat)
    (message : Message) (before after : List Nat) (r : Nat) (processed0 : Bool)
    (run run0 run1 : Run) (e : Element) (err : String)
    (he : run.model.get? id = some e) (hregions : e.regions = before ++ r :: after)
    (hbefore : State.evaluateRegions engine message before false run =
      Outcome.ok processed0 run0)
    (hr : engine.evaluate r message run0 = Outcome.throw err run1) :
    State.evaluate engine random id message run = Outcome.throw err run1 := by
  unfold State.evaluate
  rw [he]
  simp only [hregions,
    evaluateRegions_throws engine message before after r false processed0 run run0 run1 err
      hbefore hr, Outcome.bind]

/-- Dispatching through the machine to the current state of one of its regions raises when
the regions before that one return, no child region of the state makes a transition and two
guards of the state are true. -/
theorem machineEvaluate_throws (depth : Nat) (random : Nat → ℚ) (sm r s : Nat)
    (message : Message) (autoBootstrap : Bool) (run run0 run1 : Run)
    (root region e e1 : Element) (before after : List Nat) (processed0 : Bool)
    (hroot : run.model.get? sm = some root) (hclean : root.clean = true)
    (hterm : run.context.isTerminated = false)
    (hregions : root.regions = before ++ r :: after)
    (hbefore : State.evaluateRegions (engine random (depth + 2)) message before false run =
      Outcome.ok processed0 run0)
    (hregion : run0.model.get? r = some region) (hrk : region.kind = ElementKind.Region)
    (hcur : run0.context.getCurrent (run0.model.toString r) = some s)
    (he : run0.model.get? s = some e) (hek : e.kind = ElementKind.State)
    (hinner : State.evaluateRegions (engine random depth) message e.regions false run0 =
      Outcome.ok false run1)
    (he1 : run1.model.get? s = some e1) (hs : e1.isState = true)
    (h2 : 2 ≤ (e1.transitions.filter (fun t => t.evalGuard message run1.context)).length) :
    StateMachine.evaluate (depth + 2) random sm message autoBootstrap run =
      Outcome.throw multipleOutbound run1 := by
  have h3 : (engine random (depth + 1)).evaluate s message run0 =
      Outcome.throw multipleOutbound run1 := by
    show evaluate (engine random depth) random s message run0 = _
    unfold evaluate
    rw [he]
    simp only [hek]
    exact stateEvaluate_throws _ random s message run0 run1 e e1 he hinner he1 hs h2
  have h4 : (engine random (depth + 2)).evaluate r message run0 =
      Outcome.throw multipleOutbound run1 := by
    show evaluate (engine random (depth + 1)) random r message run0 = _
    unfold evaluate
    rw [hregion]
    simp only [hrk]
    unfold Region.evaluate
    rw [hcur]
    exact h3
  unfold StateMachine.evaluate StateMachine.evaluateWith
  rw [hroot]
  have hb : (autoBootstrap && (root.clean == false)) = false := by
    rw [hclean]; cases autoBootstrap <;> rfl
  simp only [hb, Bool.false_eq_true, if_false, Outcome.bind, hterm]
  exact stateEvaluate_region_throws _ random sm message before after r processed0 run run0 run1
    root multipleOutbound hroot hregions hbefore h4

/-- C1, as stated, fails: in the model `twoGuardsComposite` the composite state `s` is the
current state of the root region and both its guards hold of the message 1, yet
`evaluate(1)` raises nothing: the child region of `s` takes the transition from `a` to `b`
and returns true, so `State.evaluate` (lines 449-456) never asks the selector of `s`. -/
theorem C1_composite_state_with_two_true_guards_returns :
    (Run.initialised twoGuardsComposite.model).context.getCurrent "model.default" = some 3 ∧
    (((Run.initialised twoGuardsComposite.model).model.elem 3).transitions.filter
      (fun t => t.evalGuard (Message.value 1)
        (Run.initialised twoGuardsComposite.model).context)).length = 2 ∧
    (match State.selector ((Run.initialised twoGuardsComposite.model).model.elem 3).transitions
        (Message.value 1) (Run.initialised twoGuardsComposite.model).context with
      | Except.error err => some err
      | Except.ok _ => none) = some multipleOutbound ∧
    (Run.evaluate (Message.value 1) (Run.initialised twoGuardsComposite.model)).error? =
      none ∧
    (Run.evaluate (Message.value 1) (Run.initialised twoGuardsComposite.model)).value? =
      some true ∧
    (Run.dispatched twoGuardsComposite.model (Message.value 1)).context.last =
      [("model.default", 3), ("model.default.s.default", 9)] := by
  decide

/-- C1, amended: `State.selector` returns none when no guard is true, the transition when
exactly one guard is true, and raises "Multiple outbound transitions evaluated true" when two
or more are.  Hence `Vertex.evaluate` of a state raises that error on a message that
satisfies two of its guards, and `State.evaluate` of a state raises it when none of the
child regions of the state made a transition on the message.  The error goes up unchanged:
`Region.evaluate` of a region raises what the evaluation of its current state raises,
`State.evaluate` of a state raises what one of its regions raises once the regions before
it have returned, and so `StateMachine.evaluate` of a clean machine whose context is not
terminated raises the error for the current state of one of its regions. -/
theorem C1_state_selector_raises_unless_a_region_made_a_transition :
    (∀ (transitions : List Transition) (message : Message) (context : Context),
      State.selector transitions message context =
        match transitions.filter (fun t => t.evalGuard message context) with
        | [] => Except.ok none
        | [t] => Except.ok (some t)
        | _ :: _ :: _ => Except.error multipleOutbound) ∧
    (∀ (engine : Engine) (random : Nat → ℚ) (id : Nat) (message : Message) (run : Run)
      (e : Element), run.model.get? id = some e → e.isState = true →
      2 ≤ (e.transitions.filter (fun t => t.evalGuard message run.context)).length →
      Vertex.evaluate engine random id message run = Outcome.throw multipleOutbound run) ∧
    (∀ (engine : Engine) (random : Nat → ℚ) (id : Nat) (message : Message) (run run1 : Run)
      (e e1 : Element), run.model.get? id = some e →
      State.evaluateRegions engine message e.regions false run = Outcome.ok false run1 →
      run1.model.get? id = some e1 → e1.isState = true →
      2 ≤ (e1.transitions.filter (fun t => t.evalGuard message run1.context)).length →
      State.evaluate engine random id message run = Outcome.throw multipleOutbound run1) ∧
    (∀ (engine : Engine) (r s : Nat) (message : Message) (run run1 : Run) (err : String),
      run.context.getCurrent (run.model.toString r) = some s →
      engine.evaluate s message run = Outcome.throw err run1 →
      Region.evaluate engine r message run = Outcome.throw err run1) ∧
    (∀ (engine : Engine) (random : Nat → ℚ) (id : Nat) (message : Message)
      (before after : List Nat) (r : Nat) (processed0 : Bool) (run run0 run1 : Run)
      (e : Element) (err : String), run.model.get? id = some e →
      e.regions = before ++ r :: after →
      State.evaluateRegions engine message before false run = Outcome.ok processed0 run0 →
      engine.evaluate r message run0 = Outcome.throw err run1 →
      State.evaluate engine random id message run = Outcome.throw err run1) ∧
    (∀ (depth : Nat) (random : Nat → ℚ) (sm r s : Nat) (message : Message)
      (autoBootstrap : Bool) (run run0 run1 : Run) (root region e e1 : Element)
      (before after : List Nat) (processed0 : Bool),
      run.model.get? sm = some root → root.clean = true →
      run.context.isTerminated = false → root.regions = before ++ r :: after →
      State.evaluateRegions (engine random (depth + 2)) message before false run =
        Outcome.ok processed0 run0 →
      run0.model.get? r = some region → region.kind = ElementKind.Region →
      run0.context.getCurrent (run0.model.toString r) = some s →
      run0.model.get? s = some e → e.kind = ElementKind.State →
      State.evaluateRegions (engine random depth) message e.regions false run0 =
        Outcome.ok false run1 →
      run1.model.get? s = some e1 → e1.isState = true →
      2 ≤ (e1.transitions.filter (fun t => t.evalGuard message run1.context)).length →
      StateMachine.evaluate (depth + 2) random sm message autoBootstrap run =
        Outcome.throw multipleOutbound run1) := by
  refine ⟨stateSelector_eq, vertexEvaluate_throws, stateEvaluate_throws, ?_,
    stateEvaluate_region_throws, machineEvaluate_throws⟩
  intro engine r s message run run1 err hcur hs
  unfold Region.evaluate
  rw [hcur]
  exact hs

/-- C1, amended, at the model `twoGuards`, whose simple state `s` is current with two guards
true of the message 1, and at the model `twoGuardsComposite` with the message 2, on which the
child region of the composite state `s` makes no transition: the selector, `Vertex.evaluate`
and `StateMachine.evaluate` raise. -/
theorem C1_state_selector_raises_unless_a_region_made_a_transition_witness :
    State.selector ((Run.initialised twoGuards.model).model.elem 3).transitions
        (Message.value 1) (Run.initialised twoGuards.model).context =
      Except.error multipleOutbound ∧
    Vertex.evaluate (engine (fun _ => 0) 5) (fun _ => 0) 3 (Message.value 1)
        (Run.initialised twoGuards.model) =
      Outcome.throw multipleOutbound (Run.initialised twoGuards.model) ∧
    StateMachine.evaluate 32 (fun _ => 0) 0 (Message.value 1) true
        (Run.initialised twoGuards.model) =
      Outcome.throw multipleOutbound (Run.initialised twoGuards.model) ∧
    StateMachine.evaluate 32 (fun _ => 0) 0 (Message.value 2) true
        (Run.initialised twoGuardsComposite.model) =
      Outcome.throw multipleOutbound (Run.initialised twoGuardsComposite.model) := by
  refine ⟨?_, ?_, ?_, ?_⟩
  · rw [C1_state_selector_raises_unless_a_region_made_a_transition.1]
    rfl
  · exact C1_state_selector_raises_unless_a_region_made_a_transition.2.1 _ _ 3 _ _
      ((Run.initialised twoGuards.model).model.elem 3) rfl rfl (by decide)
  · exact C1_state_selector_raises_unless_a_region_made_a_transition.2.2.2.2.2 30 _ 0 2 3 _
      true _ _ _
      ((Run.initialised twoGuards.model).model.elem 0)
      ((Run.initialised twoGuards.model).model.elem 2)
      ((Run.initialised twoGuards.model).model.elem 3)
      ((Run.initialised twoGuards.model).model.elem 3) [] [] false
      rfl rfl rfl rfl rfl rfl rfl (by decide) rfl rfl rfl rfl rfl (by decide)
  · exact C1_state_selector_raises_unless_a_region_made_a_transition.2.2.2.2.2 30 _ 0 2 3 _
      true _ _ _
      ((Run.initialised twoGuardsComposite.model).model.elem 0)
      ((Run.initialised twoGuardsComposite.model).model.elem 2)
      ((Run.initialised twoGuardsComposite.model).model.elem 3)
      ((Run.initialised twoGuardsComposite.model).model.elem 3) [] [] false
      rfl rfl rfl rfl rfl rfl rfl (by decide) rfl rfl rfl rfl rfl (by decide)

/-! ## Terminate -/

/-- C2: on a machine that is clean (bootstrapped), for every message, every nesting depth and
every context whose `isTerminated` flag is true, `StateMachine.evaluate` returns false and
leaves the model, the context and the count of random draws as they were. -/
theorem C2_terminated_context_is_not_processed (depth : Nat) (random : Nat → ℚ) (sm : Nat)
    (message : Message) (autoBootstrap : Bool) (run : Run) (root : Element)
    (hroot : run.model.get? sm = some root) (hclean : root.clean = true)
    (hterm : run.context.isTerminated = true) :
    StateMachine.evaluate depth random sm message autoBootstrap run = Outcome.ok false run := by
  unfold StateMachine.evaluate StateMachine.evaluateWith
  rw [hroot]
  have hb : (autoBootstrap && (root.clean == false)) = false := by
    rw [hclean]; cases autoBootstrap <;> rfl
  simp only [hb, Bool.false_eq_true, if_false, Outcome.bind, hterm, if_true]

/-- C2 at the model `terminateLocal`, after the message 1 has led into its Terminate pseudo
state: the next `evaluate` returns false and changes nothing. -/
theorem C2_terminated_context_is_not_processed_witness :
    (Run.dispatched terminateLocal.model (Message.value 1)).context.isTerminated = true ∧
    StateMachine.evaluate 32 (fun _ => 0) 0 (Message.value 1) true
        (Run.dispatched terminateLocal.model (Message.value 1)) =
      Outcome.ok false (Run.dispatched terminateLocal.model (Message.value 1)) :=
  ⟨by decide,
   C2_terminated_context_is_not_processed 32 _ 0 _ true _
     ((Run.dispatched terminateLocal.model (Message.value 1)).model.elem 0) rfl rfl
     (by decide)⟩

/-- C3: in the model `terminateExternal` the message 1 is processed by the external
transition from `aa` into the Terminate pseudo state `t`, whose `traverse` is the closure of
line 418 for the region of `a`, then the closure of line 211 for `t`, without the closure of
line 299; the flag `isTerminated` is false afterwards.  In `terminateLocal`, where the
transition is local, the flag is true afterwards. -/
theorem C3_external_transition_to_terminate_leaves_flag_unset :
    (Run.evaluate (Message.value 1) (Run.initialised terminateExternal.model)).value? =
      some true ∧
    (((Run.initialised terminateExternal.model).model.elem 7).transitions.map
      (fun t => t.traverse.map Action.code)) = [[(418, 6), (211, 4)]] ∧
    (Run.dispatched terminateExternal.model (Message.value 1)).context.isTerminated = false ∧
    (Run.dispatched terminateLocal.model (Message.value 1)).context.isTerminated = true := by
  decide

/-- C4: on the model of test/static.js with `counter = 0`, `initialise` returns with the
current state of the default region of the machine equal to `fail` (position 6), not `pass`
(position 5), and with `counter = 1`: the effect of the first transition runs before the
guard of the second junction is tested. -/
theorem C4_junction_chain_ends_in_fail :
    (Run.initialise staticStart).final?.map
      (fun run => (run.context.getCurrent (run.model.toString 2), run.context.prop "counter")) =
      some (some 6, 1) := by
  decide

/-- C5: in the model `incomplete`, after `initialise` the region of the composite state `c`
has the current state `s1`, which has an outgoing transition, so that region is not complete;
`isComplete` of `c` is true all the same, and the completion transition of `c` has been
traversed: the current state of the default region of the machine is `d` (position 4). -/
theorem C5_composite_state_complete_with_incomplete_region :
    (Run.initialise (Run.start incomplete.model)).final?.map
      (fun run =>
        (run.context.getCurrent (run.model.toString 6),
         State.isFinal (run.model.elem 7),
         Region.isComplete run.model 6 run.context,
         Vertex.isComplete run.model 3 run.context,
         run.context.getCurrent (run.model.toString 2))) =
      some (some 7, false, some false, true, some 4) := by
  decide

/-- C6 as stated fails in three ways, each on a model that has everything the claim asks
for (the one transition of `c` is a completion transition to its sibling `d`).  In
`cascadeOn` the sibling `d` has a completion transition of its own: `initialise` settles
with the region of `c` in `f` (position 7) and the root region in `e` (position 8), not in
`d`.  In `cascadeForget` an exit behaviour of `c` erases the record of current states:
`initialise` settles with the root region in `d` (position 4) and no current state for the
region of `c`.  In `cascadeCrossing` a transition elsewhere in the model crosses two
regions of a state: `StateMachine.bootstrap` rejects the model and `initialise` raises the
error. -/
theorem C6_cascade_goes_on_past_d :
    (((cascadeOn.model.elem 3).transitions.map (fun t => (t.source, t.target))) =
        [(3, Target.vertex 4)] ∧
      (Run.initialise (Run.start cascadeOn.model)).final?.map
        (fun run =>
          (run.context.getCurrent (run.model.toString 6),
           run.context.getCurrent (run.model.toString 2))) =
        some (some 7, some 8)) ∧
    (((cascadeForget.model.elem 3).transitions.map (fun t => (t.source, t.target))) =
        [(3, Target.vertex 4)] ∧
      (Run.initialise (Run.start cascadeForget.model)).final?.map
        (fun run =>
          (run.context.getCurrent (run.model.toString 6),
           run.context.getCurrent (run.model.toString 2))) =
        some (none, some 4)) ∧
    (((cascadeCrossing.model.elem 3).transitions.map (fun t => (t.source, t.target))) =
        [(3, Target.vertex 4)] ∧
      (Run.initialise (Run.start cascadeCrossing.model)).error? = some crossRegions) := by
  decide

/-! ## External transitions -/

/-- The two paths agree on a common beginning. -/
theorem commonLength_append (pre a b : List Nat) :
    commonLength (pre ++ a) (pre ++ b) = pre.length + commonLength a b := by
  induction pre with
  | nil => simp
  | cons x pre ih => simp [commonLength, ih]; omega

/-- The element after `S` in a path through `S`. -/
theorem get?_after (pre : List Nat) (S r : Nat) (xs : List Nat) :
    (pre ++ S :: r :: xs).get? (pre.length + 1) = some r := by
  induction pre with
  | nil => rfl
  | cons x pre ih => simpa using ih

/-- One step of `ancestors` for an object of the model. -/
theorem ancestors_step (m : Model) (id : Nat) (e : Element) (he : m.get? id = some e) :
    m.ancestors id =
      match e.parent with
      | some p => Model.ancestorsAux m (m.length - 1) p ++ [id]
      | none => [id] := by
  have hlen : m.length ≠ 0 := by
    intro h
    have : m = [] := List.length_eq_zero.mp h
    subst this
    simp at he
  obtain ⟨n, hn⟩ := Nat.exists_eq_succ_of_ne_zero hlen
  unfold Model.ancestors
  rw [hn]
  simp only [Model.ancestorsAux, Model.parent, he, Nat.succ_sub_one]

/-- Two objects with the same parent have paths that differ in the last place only. -/
theorem ancestors_same_parent (m : Model) (a b : Nat) (ea eb : Element)
    (ha : m.get? a = some ea) (hb : m.get? b = some eb) (hp : ea.parent = eb.parent) :
    ∃ X : List Nat, m.ancestors a = X ++ [a] ∧ m.ancestors b = X ++ [b] := by
  rw [ancestors_step m a ea ha, ancestors_step m b eb hb, hp]
  cases eb.parent with
  | none => exact ⟨[], rfl, rfl⟩
  | some p => exact ⟨_, rfl, rfl⟩

/-- A source and a target inside two different regions of one state have different parents. -/
theorem crossing_not_local (m : Model) (source target r1 r2 S : Nat) (pre xs ys : List Nat)
    (se te : Element) (hs : m.get? source = some se) (ht : m.get? target = some te)
    (hsa : m.ancestors source = pre ++ S :: r1 :: xs)
    (hta : m.ancestors target = pre ++ S :: r2 :: ys)
    (hxs : xs ≠ []) (hne : r1 ≠ r2) : te.parent ≠ se.parent := by
  intro hp
  obtain ⟨X, hX1, hX2⟩ := ancestors_same_parent m target source te se ht hs hp
  rw [hsa] at hX2
  rw [hta] at hX1
  have hlen : pre.length + 1 < X.length := by
    have h := congrArg List.length hX2
    have hx : 0 < xs.length := List.length_pos.mpr hxs
    simp at h
    omega
  have h1 : (X ++ [source]).get? (pre.length + 1) = some r1 := by
    rw [← hX2]
    exact get?_after pre S r1 xs
  have h2 : (X ++ [target]).get? (pre.length + 1) = some r2 := by
    rw [← hX1]
    exact get?_after pre S r2 ys
  simp only [List.get?_eq_getElem?] at h1 h2
  rw [List.getElem?_append_left hlen] at h1 h2
  rw [h1] at h2
  exact hne (Option.some.inj h2)

/-- C7: in every model, for every transition whose source lies, at any depth, in the region
`r1` of a state `S` and whose target lies, at any depth, in another region `r2` of `S` (the
paths from the root to source and target agree up to `S` and go on with `r1` and `r2`),
`Transition.bootstrap` raises "Transitions may not cross sibling orthogonal region
boundaries". -/
theorem C7_crossing_sibling_regions_rejected (m : Model) (t : Transition)
    (target S r1 r2 : Nat) (pre xs ys : List Nat) (se te region : Element)
    (htarget : t.target = Target.vertex target)
    (hs : m.get? t.source = some se) (ht : m.get? target = some te)
    (hsa : m.ancestors t.source = pre ++ S :: r1 :: xs)
    (hta : m.ancestors target = pre ++ S :: r2 :: ys)
    (hxs : xs ≠ []) (hne : r1 ≠ r2)
    (hr : m.get? r1 = some region) (hk : region.kind = ElementKind.Region) :
    Transition.bootstrap m t = Except.error crossRegions := by
  have hp := crossing_not_local m t.source target r1 r2 S pre xs ys se te hs ht hsa hta hxs hne
  have hc : commonLength (m.ancestors t.source) (m.ancestors target) = pre.length + 1 := by
    rw [hsa, hta, commonLength_append]
    simp [commonLength, hne]
  have hat : isRegionAt m (m.ancestors t.source) (pre.length + 1) = true := by
    unfold isRegionAt
    rw [hsa, get?_after]
    simp only [Option.bind, hr, Element.isRegion, hk]
  unfold Transition.bootstrap
  rw [htarget]
  simp only [ht, hs, hp, if_false]
  unfold Transition.bootstrapExternal
  simp only [hc, hat, if_true]

/-- C7 at the model `crossing`: the transition from `x` in `r1` to `y` in `r2` is rejected,
and `StateMachine.bootstrap` raises the error. -/
theorem C7_crossing_sibling_regions_rejected_witness :
    Transition.bootstrap crossing.model
        { source := 7, target := Target.vertex 9, guard := Guard.user onOne,
          transitionBehavior := [], traverse := [] } =
      Except.error crossRegions ∧
    (StateMachine.bootstrap 0 false crossing.model).error? = some crossRegions :=
  ⟨C7_crossing_sibling_regions_rejected crossing.model _ 9 3 4 5 [0, 2] [7] [9]
      (crossing.model.elem 7) (crossing.model.elem 9) (crossing.model.elem 4)
      rfl rfl rfl (by decide) (by decide) (by decide) (by decide) rfl rfl,
   by decide⟩

/-- C8: in the model `toAncestor`, whose one guarded transition leads from the state `c` to
the state `s` that contains it, `StateMachine.bootstrap` raises "Transitions may not cross
sibling orthogonal region boundaries": the paths are model, default, s, default, c and
model, default, s, so the loop of line 646 stops at position 3, where the source path holds
the region of `s`. -/
theorem C8_transition_to_ancestor_state_is_rejected :
    toAncestor.model.ancestors 6 = [0, 2, 3, 5, 6] ∧
    toAncestor.model.ancestors 3 = [0, 2, 3] ∧
    ((toAncestor.model.elem 6).transitions.map (fun t => (t.source, t.target))) =
      [(6, Target.vertex 3)] ∧
    (StateMachine.bootstrap 0 false toAncestor.model).error? = some crossRegions := by
  decide

/-- C9: in the model `intoComposite` the external transition from `a` to the composite state
`t` compiles to: `beginEnter` of `b`, `beginEnter` of `t`, the `enter` sequence of the region
of `t` (the closure of line 211 for its initial pseudo state, position 8) twice, and the
closure of line 211 for `t`; the message 1 runs the entry behaviour of `x` twice. -/
theorem C9_target_regions_entered_twice :
    ((Run.initialised intoComposite.model).model.elem 9).enter.map Action.code =
      [(211, 8)] ∧
    (((Run.initialised intoComposite.model).model.elem 3).transitions.map
      (fun t => t.traverse.map Action.code)) =
      [[(426, 4), (426, 7), (211, 8), (211, 8), (211, 7)]] ∧
    (Run.initialised intoComposite.model).context.prop "x" = 0 ∧
    (Run.evaluate (Message.value 1) (Run.initialised intoComposite.model)).value? =
      some true ∧
    (Run.dispatched intoComposite.model (Message.value 1)).context.prop "x" = 2 := by
  decide

/-- C10: in the model `orthogonal` the compiled `leave` of the state `o`, whose regions are
`r1` (position 5) and `r2` (position 6), is the closure of line 418 for `r2` twice, then the
exit behaviour of `o`; leaving `o` on the message 1 runs the exit behaviour of `y`, the
current state of `r2`, twice and that of `x`, the current state of `r1`, not at all. -/
theorem C10_leave_invokes_last_region_only :
    ((Run.initialised orthogonal.model).model.elem 3).regions = [5, 6] ∧
    ((Run.initialised orthogonal.model).model.elem 3).leave.map Action.code =
      [(418, 6), (418, 6), (0, 0)] ∧
    (Run.initialised orthogonal.model).context.getCurrent
      ((Run.initialised orthogonal.model).model.toString 5) = some 8 ∧
    (Run.initialised orthogonal.model).context.getCurrent
      ((Run.initialised orthogonal.model).model.toString 6) = some 10 ∧
    (Run.evaluate (Message.value 1) (Run.initialised orthogonal.model)).value? = some true ∧
    (Run.dispatched orthogonal.model (Message.value 1)).context.prop "x" = 0 ∧
    (Run.dispatched orthogonal.model (Message.value 1)).context.prop "y" = 2 ∧
    (Run.dispatched orthogonal.model (Message.value 1)).context.prop "o" = 1 := by
  decide

/-! ## Selectors of pseudo states -/

/-- Once an else transition has been found, a further one is an error. -/
theorem elseLoop_some (transitions : List Transition) (r : Transition) :
    elseLoop transitions (some r) =
      match transitions.filter Transition.guardIsElse with
      | [] => Except.ok (some r)
      | _ :: _ => Except.error multipleOutbound := by
  induction transitions with
  | nil => simp [elseLoop]
  | cons t rest ih =>
    by_cases h : t.guardIsElse = true
    · simp [elseLoop, h]
    · simp [elseLoop, h, ih]

/-- The result of the else loop in terms of the transitions marked else. -/
theorem elseLoop_eq (transitions : List Transition) :
    elseLoop transitions none =
      match transitions.filter Transition.guardIsElse with
      | [] => Except.ok none
      | [t] => Except.ok (some t)
      | _ :: _ :: _ => Except.error multipleOutbound := by
  induction transitions with
  | nil => simp [elseLoop]
  | cons t rest ih =>
    by_cases h : t.guardIsElse = true
    · simp only [elseLoop, h, if_true]
      rw [elseLoop_some]
      have hc : List.filter Transition.guardIsElse (t :: rest) =
          t :: List.filter Transition.guardIsElse rest := by
        simp [List.filter, h]
      rw [hc]
      cases rest.filter Transition.guardIsElse with
      | nil => rfl
      | cons a as => rfl
    · simp only [elseLoop, h]
      have hc : List.filter Transition.guardIsElse (t :: rest) =
          List.filter Transition.guardIsElse rest := by
        simp [List.filter, h]
      rw [hc]
      simpa using ih

/-- C13: the junction selector returns the transition whose guard is true when there is
exactly one, raises when two or more guards are true, and when no guard is true returns the
one transition marked else, none when no transition is marked else, and raises when more
than one is. -/
theorem C13_junction_selector (transitions : List Transition) (message : Message)
    (context : Context) :
    junction transitions message context =
      match transitions.filter (fun t => t.evalGuard message context) with
      | [] =>
        (match transitions.filter Transition.guardIsElse with
         | [] => Except.ok none
         | [t] => Except.ok (some t)
         | _ :: _ :: _ => Except.error multipleOutbound)
      | [t] => Except.ok (some t)
      | _ :: _ :: _ => Except.error multipleOutbound := by
  unfold junction
  have h := stateSelector_eq transitions message context
  unfold State.selector at h
  rw [h]
  cases transitions.filter (fun t => t.evalGuard message context) with
  | nil => simp only [elseLoop_eq]
  | cons a as =>
    cases as with
    | nil => rfl
    | cons b bs => rfl

/-- C16: the selector of an Initial, a ShallowHistory and a DeepHistory pseudo state returns
the one transition of a list of exactly one, whatever its guard, and raises on every other
list. -/
theorem C16_initial_selector (transitions : List Transition) (message : Message)
    (context : Context) (random : ℚ) :
    (pseudoState PseudoStateKind.Initial transitions message context random =
      match transitions with
      | [t] => Except.ok (some t)
      | _ => Except.error "Initial transition must have a single outbound transition") ∧
    (pseudoState PseudoStateKind.ShallowHistory transitions message context random =
      match transitions with
      | [t] => Except.ok (some t)
      | _ => Except.error "Initial transition must have a single outbound transition") ∧
    (pseudoState PseudoStateKind.DeepHistory transitions message context random =
      match transitions with
      | [t] => Except.ok (some t)
      | _ => Except.error "Initial transition must have a single outbound transition") :=
  ⟨rfl, rfl, rfl⟩

/-! ## The Choice selector -/

/-- The index drawn by `choice` among `n` candidates is a position of the list. -/
theorem mathRound_bounds (n : Nat) (r : ℚ) (hn : 1 ≤ n) (h0 : 0 ≤ r) (h1 : r < 1) :
    0 ≤ mathRound (((n : ℚ) - 1) * r) ∧ mathRound (((n : ℚ) - 1) * r) ≤ (n : ℤ) - 1 := by
  have hn1 : (0 : ℚ) ≤ (n : ℚ) - 1 := by
    have : (1 : ℚ) ≤ (n : ℚ) := by exact_mod_cast hn
    linarith
  have hx0 : 0 ≤ ((n : ℚ) - 1) * r := mul_nonneg hn1 h0
  have hx1 : ((n : ℚ) - 1) * r ≤ (n : ℚ) - 1 := by
    have := mul_le_mul_of_nonneg_left (le_of_lt h1) hn1
    simpa using this
  unfold mathRound
  constructor
  · apply Int.floor_nonneg.mpr
    linarith
  · have : ⌊((n : ℚ) - 1) * r + 1 / 2⌋ < (n : ℤ) := by
      apply Int.floor_lt.mpr
      push_cast
      linarith
    omega

/-- With a guard true and a random value in [0, 1), `choice` returns one of the transitions
whose guard is true. -/
theorem choice_returns_result (transitions : List Transition) (message : Message)
    (context : Context) (r : ℚ)
    (hne : (choiceResults transitions message context).length ≠ 0)
    (h0 : 0 ≤ r) (h1 : r < 1) :
    ∃ t, t ∈ choiceResults transitions message context ∧
      choice transitions message context r = Except.ok (some t) := by
  have hn : 1 ≤ (choiceResults transitions message context).length := Nat.pos_of_ne_zero hne
  obtain ⟨hlo, hhi⟩ := mathRound_bounds _ r hn h0 h1
  unfold choice
  simp only [hne, ne_eq, not_false_eq_true, if_true]
  cases hk : mathRound ((((choiceResults transitions message context).length : ℚ) - 1) * r) with
  | negSucc k => rw [hk] at hlo; simp at hlo
  | ofNat k =>
    rw [hk] at hhi
    have hlt : k < (choiceResults transitions message context).length := by
      simp at hhi; omega
    refine ⟨(choiceResults transitions message context)[k], List.getElem_mem _, ?_⟩
    simp [List.getElem?_eq_getElem hlt]

/-- C32: for `n >= 1` candidates and a random value `0 <= r < 1` the index
`round((n-1)*r)` lies in `[0, n-1]`; so with a guard true the Choice selector returns one
of the transitions whose guard is true, and never none. -/
theorem C32_choice_index_in_bounds :
    (∀ (n : Nat) (r : ℚ), 1 ≤ n → 0 ≤ r → r < 1 →
      0 ≤ mathRound (((n : ℚ) - 1) * r) ∧ mathRound (((n : ℚ) - 1) * r) ≤ (n : ℤ) - 1) ∧
    (∀ (transitions : List Transition) (message : Message) (context : Context) (r : ℚ),
      (choiceResults transitions message context).length ≠ 0 → 0 ≤ r → r < 1 →
      ∃ t, t ∈ choiceResults transitions message context ∧
        pseudoState PseudoStateKind.Choice transitions message context r =
          Except.ok (some t)) :=
  ⟨mathRound_bounds, choice_returns_result⟩

/-- C32 at three candidates whose guards hold of the message and the random value 1/2. -/
theorem C32_choice_index_in_bounds_witness :
    (0 ≤ mathRound ((((3 : Nat) : ℚ) - 1) * (1 / 2)) ∧
      mathRound ((((3 : Nat) : ℚ) - 1) * (1 / 2)) ≤ ((3 : Nat) : ℤ) - 1) ∧
    (∃ t, t ∈ choiceResults threeCandidates (Message.element 0) Context.new ∧
      pseudoState PseudoStateKind.Choice threeCandidates (Message.element 0) Context.new
        (1 / 2) = Except.ok (some t)) :=
  ⟨C32_choice_index_in_bounds.1 3 (1 / 2) (by decide) (by norm_num) (by norm_num),
   C32_choice_index_in_bounds.2 threeCandidates (Message.element 0) Context.new (1 / 2)
     (by decide) (by norm_num) (by norm_num)⟩

/-- A transition whose guard evaluates to true is not an else transition. -/
theorem guardIsElse_of_evalGuard (t : Transition) (message : Message) (context : Context)
    (h : t.evalGuard message context = true) : t.guardIsElse = false := by
  unfold Transition.evalGuard at h
  unfold Transition.guardIsElse
  cases hg : t.guard <;> simp [hg] at h ⊢

/-- C15: when no guard is true the Choice selector returns the one transition marked else,
none when no transition is marked else, and raises when more than one is; when a guard is
true (the random value being in [0, 1)) it returns a transition that is not marked else. -/
theorem C15_choice_fallback :
    (∀ (transitions : List Transition) (message : Message) (context : Context) (r : ℚ),
      (choiceResults transitions message context).length = 0 →
      choice transitions message context r =
        match transitions.filter Transition.guardIsElse with
        | [] => Except.ok none
        | [t] => Except.ok (some t)
        | _ :: _ :: _ => Except.error multipleOutbound) ∧
    (∀ (transitions : List Transition) (message : Message) (context : Context) (r : ℚ),
      (choiceResults transitions message context).length ≠ 0 → 0 ≤ r → r < 1 →
      ∃ t, choice transitions message context r = Except.ok (some t) ∧
        t.evalGuard message context = true ∧ t.guardIsElse = false) := by
  constructor
  · intro transitions message context r h
    unfold choice
    simp only [h, ne_eq, not_true_eq_false, if_false]
    exact elseLoop_eq transitions
  · intro transitions message context r hne h0 h1
    obtain ⟨t, ht, hc⟩ := choice_returns_result transitions message context r hne h0 h1
    have hg : t.evalGuard message context = true := by
      unfold choiceResults at ht
      exact (List.mem_filter.mp ht).2
    exact ⟨t, hc, hg, guardIsElse_of_evalGuard t message context hg⟩

/-- C15 at a guarded transition with an else transition beside it: the message 2 satisfies no
guard and the else transition (to 2) is returned; the message 1 satisfies the guard and the
guarded transition is returned. -/
theorem C15_choice_fallback_witness :
    selectedTarget (choice
      [{ source := 0, target := Target.vertex 1, guard := Guard.user onOne,
         transitionBehavior := [], traverse := [] },
       { source := 0, target := Target.vertex 2, guard := Guard.isElse,
         transitionBehavior := [], traverse := [] }] (Message.value 2) Context.new (1 / 2)) =
      some (Target.vertex 2) ∧
    (∃ t, choice threeCandidates (Message.element 0) Context.new (1 / 2) =
        Except.ok (some t) ∧
      t.evalGuard (Message.element 0) Context.new = true ∧ t.guardIsElse = false) := by
  constructor
  · rw [C15_choice_fallback.1 _ _ _ _ (by decide)]
    rfl
  · exact C15_choice_fallback.2 threeCandidates (Message.element 0) Context.new (1 / 2)
      (by decide) (by norm_num) (by norm_num)

/-- C14: with three candidates whose guards are true, the index `round(2 r)` is 0 exactly
for `r < 1/4`, 1 exactly for `1/4 <= r < 3/4` and 2 exactly for `3/4 <= r` (for `r` in
[0, 1)): the middle candidate is returned on an interval of length 1/2 and the outer two on
intervals of length 1/4 each, not on three intervals of length 1/3; at `r = 3/10`, where
thirds would give the first candidate, `choice` returns the second (the one to vertex 2). -/
theorem C14_choice_of_three_is_not_uniform (r : ℚ) :
    (mathRound ((((3 : Nat) : ℚ) - 1) * r) = 1 ↔ 1 / 4 ≤ r ∧ r < 3 / 4) ∧
    (0 ≤ r ∧ r < 1 ∧ mathRound ((((3 : Nat) : ℚ) - 1) * r) = 0 ↔ 0 ≤ r ∧ r < 1 / 4) ∧
    (0 ≤ r ∧ r < 1 ∧ mathRound ((((3 : Nat) : ℚ) - 1) * r) = 2 ↔ 3 / 4 ≤ r ∧ r < 1) ∧
    selectedTarget (choice threeCandidates (Message.element 0) Context.new (3 / 10)) =
      some (Target.vertex 2) := by
  have hconcrete : selectedTarget
      (choice threeCandidates (Message.element 0) Context.new (3 / 10)) =
        some (Target.vertex 2) := by
    have h : mathRound ((((3 : Nat) : ℚ) - 1) * (3 / 10)) = 1 := by
      unfold mathRound
      norm_num [Int.floor_eq_iff]
    have hr : choiceResults threeCandidates (Message.element 0) Context.new =
        threeCandidates := rfl
    have hl : threeCandidates.length = 3 := rfl
    unfold choice
    simp only [hr, hl, h]
    rfl
  unfold mathRound
  simp only [Int.floor_eq_iff]
  push_cast
  refine ⟨⟨?_, ?_⟩, ⟨?_, ?_⟩, ⟨?_, ?_⟩, hconcrete⟩
  · rintro ⟨h1, h2⟩
    constructor <;> linarith
  · rintro ⟨h1, h2⟩
    constructor <;> linarith
  · rintro ⟨h0, h1, h2, h3⟩
    constructor <;> linarith
  · rintro ⟨h0, h1⟩
    refine ⟨h0, ?_, ?_, ?_⟩ <;> linarith
  · rintro ⟨h0, h1, h2, h3⟩
    constructor <;> linarith
  · rintro ⟨h0, h1⟩
    refine ⟨?_, h1, ?_, ?_⟩ <;> linarith

/-! ## Local and internal transitions -/

/-- C11: in every model, for every transition whose target is a vertex with the same parent
as its source, `Transition.bootstrap` compiles `traverse` to the `leave` of the source, then
the effect behaviours in the order they were added, then the `enter` of the target. -/
theorem C11_local_transition_traverse (m : Model) (t : Transition) (target : Nat)
    (se te : Element) (htarget : t.target = Target.vertex target)
    (hs : m.get? t.source = some se) (ht : m.get? target = some te)
    (hp : te.parent = se.parent) :
    Transition.bootstrap m t = Except.ok (se.leave ++ t.transitionBehavior ++ te.enter) := by
  unfold Transition.bootstrap
  rw [htarget]
  simp only [ht, hs, hp, if_true]

/-- C11 at the model `terminateLocal`: the transition from `a` to `t`, both in the default
region of the machine, compiles to the `leave` of `a` (empty), no effect, and the `enter`
of `t`; `StateMachine.bootstrap` stores that sequence. -/
theorem C11_local_transition_traverse_witness :
    Transition.bootstrap (Run.initialised terminateLocal.model).model
        { source := 3, target := Target.vertex 4, guard := Guard.user onOne,
          transitionBehavior := [], traverse := [] } =
      Except.ok (((Run.initialised terminateLocal.model).model.elem 3).leave ++ [] ++
        ((Run.initialised terminateLocal.model).model.elem 4).enter) ∧
    (((Run.initialised terminateLocal.model).model.elem 3).transitions.map
      (fun t => t.traverse.map Action.code)) = [[(211, 4), (299, 0)]] :=
  ⟨C11_local_transition_traverse _ _ 4 _ _ rfl rfl rfl rfl, by decide⟩

/-- C12: in the model `internalOmitted`, whose state `s` has a transition created with the
target omitted, `StateMachine.bootstrap` raises a TypeError, and so does `initialise`; in
`internalNull`, where the target is `null`, the transition compiles to its one effect, and
the message 1 runs the effect once and leaves `s` the current state. -/
theorem C12_omitted_target_breaks_bootstrap :
    ((internalOmitted.model.elem 3).transitions.map (fun t => t.target)) =
      [Target.undefined] ∧
    (StateMachine.bootstrap 0 false internalOmitted.model).error? = some typeError ∧
    (Run.initialise (Run.start internalOmitted.model)).error? = some typeError ∧
    (((Run.initialised internalNull.model).model.elem 3).transitions.map
      (fun t => t.traverse.map Action.code)) = [[(0, 0)]] ∧
    (Run.evaluate (Message.value 1) (Run.initialised internalNull.model)).value? =
      some true ∧
    (Run.dispatched internalNull.model (Message.value 1)).context.prop "n" = 1 ∧
    (Run.dispatched internalNull.model (Message.value 1)).context.last =
      (Run.initialised internalNull.model).context.last := by
  decide

/-! ## Initial pseudo states without a single transition -/

/-- C17 as stated fails on the model `initialWithoutTransition`, whose Initial pseudo state
has no outgoing transition: `StateMachine.bootstrap` returns without raising; the error
comes from `initialise`. -/
theorem C17_bootstrap_accepts_initial_without_transition :
    ((initialWithoutTransition.model.elem 1).kind,
      (initialWithoutTransition.model.elem 1).transitions.length) =
      (ElementKind.PseudoState PseudoStateKind.Initial, 0) ∧
    (StateMachine.bootstrap 0 false initialWithoutTransition.model).value? = some () ∧
    (StateMachine.bootstrap 0 false initialWithoutTransition.model).error? = none ∧
    (Run.initialise (Run.start initialWithoutTransition.model)).error? =
      some "Initial transition must have a single outbound transition" := by
  decide

/-- C17 amended: in every model, evaluating an Initial, ShallowHistory or DeepHistory pseudo
state whose number of outgoing transitions is not 1 raises "Initial transition must have a
single outbound transition", whatever the message and the context. -/
theorem C17_initial_without_single_transition_raises_when_evaluated (engine : Engine)
    (random : Nat → ℚ) (id : Nat) (message : Message) (run : Run) (e : Element)
    (kind : PseudoStateKind) (he : run.model.get? id = some e)
    (hk : e.kind = ElementKind.PseudoState kind) (hi : kind.isInitial = true)
    (hn : e.transitions.length ≠ 1) :
    evaluate engine random id message run =
      Outcome.throw "Initial transition must have a single outbound transition" run := by
  have hsel : ∀ r, pseudoState kind e.transitions message run.context r =
      Except.error "Initial transition must have a single outbound transition" := by
    intro r
    have h3 : initial e.transitions =
        Except.error "Initial transition must have a single outbound transition" := by
      unfold initial
      cases hts : e.transitions with
      | nil => rfl
      | cons a as =>
        cases as with
        | nil => rw [hts] at hn; simp at hn
        | cons b bs => rfl
    cases kind <;> simp [PseudoStateKind.isInitial] at hi <;> simp [pseudoState, h3]
  have hr : e.randomCalls e.transitions message run.context = 0 := by
    unfold Element.randomCalls
    cases kind <;> simp [PseudoStateKind.isInitial] at hi <;> simp [hk]
  unfold evaluate
  rw [he]
  simp only [hk]
  unfold Vertex.evaluate
  rw [he]
  simp only [Element.selector, hk, hsel, hr]
  rfl

/-- C17 amended, at the model `initialWithoutTransition` after bootstrap: evaluating its
Initial pseudo state raises. -/
theorem C17_initial_without_single_transition_raises_when_evaluated_witness :
    evaluate (engine (fun _ => 0) 3) (fun _ => 0) 1 (Message.element 1)
        (Run.start ((StateMachine.bootstrap 0 false
          initialWithoutTransition.model).final?.getD [])) =
      Outcome.throw "Initial transition must have a single outbound transition"
        (Run.start ((StateMachine.bootstrap 0 false
          initialWithoutTransition.model).final?.getD [])) :=
  C17_initial_without_single_transition_raises_when_evaluated _ _ 1 _ _
    (Model.elem ((StateMachine.bootstrap 0 false
      initialWithoutTransition.model).final?.getD []) 1)
    PseudoStateKind.Initial rfl rfl rfl (by decide)

/-! ## Final states -/

/-- C21: in every model, `to` called on a FinalState raises "A FinalState cannot be the
source of a transition." for every target and leaves the model as it was, so the list of
transitions of the final state and the `clean` flag of the machine keep their values. -/
theorem C21_final_state_to_raises (m : Model) (source : Nat) (target : Target) (e : Element)
    (he : m.get? source = some e) (hk : e.kind = ElementKind.FinalState) :
    Vertex.to source target m =
      Outcome.throw "A FinalState cannot be the source of a transition." m := by
  unfold Vertex.to
  rw [he]
  simp only [hk]

/-- C21 at the final state `f` of the model `cascade`: `f.to(d)` raises, the model is
unchanged, and `f` is final. -/
theorem C21_final_state_to_raises_witness :
    Vertex.to 7 (Target.vertex 4) (cascade ElementKind.State).model =
      Outcome.throw "A FinalState cannot be the source of a transition."
        (cascade ElementKind.State).model ∧
    State.isFinal ((cascade ElementKind.State).model.elem 7) = true :=
  ⟨C21_final_state_to_raises _ 7 _ ((cascade ElementKind.State).model.elem 7) rfl rfl,
   by decide⟩

/-! ## The invariant of `enter` -/

/-- C23: after bootstrap of the model `terminateLocal`, the `enter` of its Terminate pseudo
state `t` is the closure of line 211 followed by the closure of line 299, while
`beginEnter ++ endEnter` is the closure of line 211 alone. -/
theorem C23_terminate_enter_is_not_begin_end :
    ((StateMachine.bootstrap 0 false terminateLocal.model).final?.map (fun m =>
      ((m.elem 4).kind, (m.elem 4).enter.map Action.code,
       ((m.elem 4).beginEnter ++ (m.elem 4).endEnter).map Action.code))) =
      some (ElementKind.PseudoState PseudoStateKind.Terminate,
        [(211, 4), (299, 0)], [(211, 4)]) := by
  decide

/-! ## The context -/

/-- C24 as stated fails on the model `twinRegions`, whose state `o` has two regions of the
same name (vertex names being unique within each region): both regions have the qualified
name `model.default.o.r`, and `setCurrent` for the first changes `getCurrent` of the second. -/
theorem C24_two_regions_share_a_key :
    twinRegions.model.toString 4 = twinRegions.model.toString 5 ∧
    Context.new.getCurrent (twinRegions.model.toString 5) = none ∧
    (Context.new.setCurrent (twinRegions.model.toString 4) 7).getCurrent
      (twinRegions.model.toString 5) = some 7 := by
  decide

/-- After rewriting the entries of a key that is present, the first entry of the key holds
the new state. -/
theorem find?_rewritten (key : String) (s : Nat) (l : List (String × Nat))
    (h : l.any (fun p => p.1 == key) = true) :
    (l.map (fun p => if p.1 == key then (key, s) else p)).find? (fun p => p.1 == key) =
      some (key, s) := by
  induction l with
  | nil => simp at h
  | cons p rest ih =>
    cases hp : (p.1 == key)
    · have hr : rest.any (fun p => p.1 == key) = true := by
        simpa [List.any_cons, hp] using h
      simp only [List.map_cons, hp, Bool.false_eq_true, if_false, List.find?_cons]
      exact ih hr
    · simp only [List.map_cons, hp, if_true, List.find?_cons, beq_self_eq_true]

/-- After appending an entry for a key that is absent, the first entry of the key is the new
one. -/
theorem find?_appended (key : String) (s : Nat) (l : List (String × Nat))
    (h : l.any (fun p => p.1 == key) = false) :
    (l ++ [(key, s)]).find? (fun p => p.1 == key) = some (key, s) := by
  induction l with
  | nil => simp [List.find?_cons]
  | cons p rest ih =>
    simp only [List.any_cons, Bool.or_eq_false_iff] at h
    simp only [List.cons_append, List.find?_cons, h.1]
    exact ih h.2

/-- Rewriting the entries of one key does not change what is found for another key. -/
theorem find?_rewritten_other (k1 k2 : String) (s : Nat) (l : List (String × Nat))
    (hne : k1 ≠ k2) :
    ((l.map (fun p => if p.1 == k1 then (k1, s) else p)).find? (fun p => p.1 == k2)).map
        (fun p => p.2) =
      (l.find? (fun p => p.1 == k2)).map (fun p => p.2) := by
  have hb : (k1 == k2) = false := by simpa using hne
  induction l with
  | nil => rfl
  | cons p rest ih =>
    cases hp : (p.1 == k1)
    · simp only [List.map_cons, hp, Bool.false_eq_true, if_false, List.find?_cons]
      cases hq : (p.1 == k2)
      · exact ih
      · rfl
    · have hp1 : p.1 = k1 := by simpa using hp
      have hp2 : (p.1 == k2) = false := by rw [hp1]; exact hb
      simp only [List.map_cons, hp, if_true, List.find?_cons, hb, hp2]
      exact ih

/-- Appending an entry for one key does not change what is found for another key. -/
theorem find?_appended_other (k1 k2 : String) (s : Nat) (l : List (String × Nat))
    (hne : k1 ≠ k2) :
    (l ++ [(k1, s)]).find? (fun p => p.1 == k2) = l.find? (fun p => p.1 == k2) := by
  have hb : (k1 == k2) = false := by simpa using hne
  induction l with
  | nil => simp [List.find?_cons, hb]
  | cons p rest ih =>
    simp only [List.cons_append, List.find?_cons]
    cases hq : (p.1 == k2)
    · exact ih
    · rfl

/-- Looking up the key just written. -/
theorem getCurrent_setCurrent_same (c : Context) (key : String) (s : Nat) :
    (c.setCurrent key s).getCurrent key = some s := by
  unfold Context.setCurrent Context.getCurrent
  cases h : c.last.any (fun p => p.1 == key)
  · simp only [Bool.false_eq_true, if_false, find?_appended key s c.last h]
    rfl
  · simp only [if_true, find?_rewritten key s c.last h]
    rfl

/-- Looking up another key than the one just written. -/
theorem getCurrent_setCurrent_other (c : Context) (k1 k2 : String) (s : Nat)
    (hne : k1 ≠ k2) : (c.setCurrent k1 s).getCurrent k2 = c.getCurrent k2 := by
  unfold Context.setCurrent Context.getCurrent
  cases h : c.last.any (fun p => p.1 == k1)
  · simp only [Bool.false_eq_true, if_false, find?_appended_other k1 k2 s c.last hne]
  · simp only [if_true]
    exact find?_rewritten_other k1 k2 s c.last hne

/-- C24 amended: the context is a map keyed by the qualified name of the region (the names
on its path joined by "."): for every model and every two regions `r1` and `r2` whose
qualified names differ, after `setCurrent(r1, s)` `getCurrent(r1)` returns `s` and
`getCurrent(r2)` returns what it returned before. -/
theorem C24_context_keyed_by_qualified_name (m : Model) (c : Context) (r1 r2 s : Nat)
    (hne : m.toString r1 ≠ m.toString r2) :
    (c.setCurrent (m.toString r1) s).getCurrent (m.toString r1) = some s ∧
    (c.setCurrent (m.toString r1) s).getCurrent (m.toString r2) =
      c.getCurrent (m.toString r2) :=
  ⟨getCurrent_setCurrent_same c _ s, getCurrent_setCurrent_other c _ _ s hne⟩

/-- C24 amended, at the two regions of the model `orthogonal`, named `r1` and `r2`. -/
theorem C24_context_keyed_by_qualified_name_witness :
    orthogonal.model.toString 5 ≠ orthogonal.model.toString 6 ∧
    ((Run.initialised orthogonal.model).context.setCurrent
        (orthogonal.model.toString 5) 8).getCurrent (orthogonal.model.toString 5) =
      some 8 ∧
    ((Run.initialised orthogonal.model).context.setCurrent
        (orthogonal.model.toString 5) 8).getCurrent (orthogonal.model.toString 6) =
      (Run.initialised orthogonal.model).context.getCurrent
        (orthogonal.model.toString 6) :=
  ⟨by decide,
   C24_context_keyed_by_qualified_name orthogonal.model _ 5 6 8 (by decide)⟩

/-! ## `State.evaluate` -/

/-- The loop of `State.evaluate` evaluates every region, in order, and returns the
disjunction of the answers. -/
theorem evaluateRegions_eq (engine : Engine) (message : Message) (regions : List Nat)
    (processed : Bool) (run : Run) :
    State.evaluateRegions engine message regions processed run =
      (evaluateAllRegions engine message regions run).bind (fun results run1 =>
        Outcome.ok (processed || results.any (fun b => b)) run1) := by
  induction regions generalizing processed run with
  | nil => simp [State.evaluateRegions, evaluateAllRegions, Outcome.bind]
  | cons r rest ih =>
    simp only [State.evaluateRegions, evaluateAllRegions]
    cases h1 : engine.evaluate r message run with
    | timeout => rfl
    | throw err s => rfl
    | ok result run1 =>
      simp only [Outcome.bind]
      rw [ih]
      cases h2 : evaluateAllRegions engine message rest run1 with
      | timeout => rfl
      | throw err s => rfl
      | ok results run2 =>
        simp only [Outcome.bind, List.any_cons]
        cases result <;> cases processed <;> simp

/-- `Vertex.evaluate` answers true exactly when the selector selected a transition. -/
theorem vertexEvaluate_true_iff (engine : Engine) (random : Nat → ℚ) (id : Nat)
    (message : Message) (run run1 : Run) (e : Element) (b : Bool)
    (he : run.model.get? id = some e)
    (h : Vertex.evaluate engine random id message run = Outcome.ok b run1) :
    (b = true ↔ ∃ t, e.selector e.transitions message run.context
      (random run.randomCalls) = Except.ok (some t)) := by
  unfold Vertex.evaluate at h
  rw [he] at h
  simp only at h
  cases hsel : e.selector e.transitions message run.context (random run.randomCalls) with
  | error err => rw [hsel] at h; simp at h
  | ok result =>
    rw [hsel] at h
    cases result with
    | none =>
      simp only at h
      injection h with hb _
      simp [← hb]
    | some t =>
      simp only at h
      cases hi : engine.invoke t.traverse message false
          { run with randomCalls :=
              run.randomCalls + e.randomCalls e.transitions message run.context } with
      | timeout => rw [hi] at h; simp [Outcome.bind] at h
      | throw err s => rw [hi] at h; simp [Outcome.bind] at h
      | ok u run2 =>
        rw [hi] at h
        simp only [Outcome.bind] at h
        injection h with hb _
        simp [← hb]

/-- C22: `State.evaluate` evaluates every child region in declaration order, each on the run
left by the one before, whatever the earlier answers; when some region answered true its own
selector is not consulted and the result is true (after the completion check of line 457);
when none did, the result is that of `Vertex.evaluate` on the state itself, which is true
exactly when its selector selected a transition. -/
theorem C22_state_evaluate (engine : Engine) (random : Nat → ℚ) (id : Nat)
    (message : Message) (run : Run) (e : Element) (he : run.model.get? id = some e) :
    State.evaluate engine random id message run =
      (evaluateAllRegions engine message e.regions run).bind (fun results run1 =>
        if results.any (fun b => b) = true then
          (if message ≠ Message.element id then
            (Vertex.evaluateCompletions engine id run1).bind (fun _ run3 =>
              Outcome.ok true run3)
           else Outcome.ok true run1)
        else
          (Vertex.evaluate engine random id message run1).bind (fun processed run2 =>
            if processed = true ∧ message ≠ Message.element id then
              (Vertex.evaluateCompletions engine id run2).bind (fun _ run3 =>
                Outcome.ok processed run3)
            else Outcome.ok processed run2)) ∧
    (∀ (run1 run2 : Run) (e1 : Element) (b : Bool), run1.model.get? id = some e1 →
      Vertex.evaluate engine random id message run1 = Outcome.ok b run2 →
      (b = true ↔ ∃ t, e1.selector e1.transitions message run1.context
        (random run1.randomCalls) = Except.ok (some t))) := by
  constructor
  · unfold State.evaluate
    rw [he]
    simp only
    rw [evaluateRegions_eq]
    cases h : evaluateAllRegions engine message e.regions run with
    | timeout => rfl
    | throw err s => rfl
    | ok results run1 =>
      simp only [Outcome.bind, Bool.false_or]
      generalize results.any (fun b => b) = anyTrue
      cases anyTrue
      · simp
      · by_cases hm : message = Message.element id
        · simp [hm]
        · simp [hm]
  · intro run1 run2 e1 b he1 h
    exact vertexEvaluate_true_iff engine random id message run1 run2 e1 b he1 h

/-- C22 at the state `o` of the model `orthogonal`, whose two regions both answer false to
the message 1, so that the transition of `o` itself is selected. -/
theorem C22_state_evaluate_witness :
    ((evaluateAllRegions (engine (fun _ => 0) 8) (Message.value 1) [5, 6]
      (Run.initialised orthogonal.model)).value?) = some [false, false] ∧
    (State.evaluate (engine (fun _ => 0) 8) (fun _ => 0) 3 (Message.value 1)
      (Run.initialised orthogonal.model)).value? = some true := by
  have h := (C22_state_evaluate (engine (fun _ => 0) 8) (fun _ => 0) 3 (Message.value 1)
    (Run.initialised orthogonal.model) ((Run.initialised orthogonal.model).model.elem 3)
    rfl).1
  exact ⟨by decide, by rw [h]; decide⟩

/-! ## Ancestry -/

/-- The path has one element more than the object has parent links above it. -/
theorem ancestorsAux_length (m : Model) (fuel id : Nat) :
    (Model.ancestorsAux m fuel id).length = Model.depthAux m fuel id + 1 := by
  induction fuel generalizing id with
  | zero => rfl
  | succ fuel ih =>
    simp only [Model.ancestorsAux, Model.depthAux]
    cases m.parent id with
    | none => rfl
    | some p => simp [ih]

/-- The path ends with the object itself. -/
theorem ancestorsAux_getLast (m : Model) (fuel id : Nat) :
    (Model.ancestorsAux m fuel id).getLast? = some id := by
  cases fuel with
  | zero => rfl
  | succ fuel =>
    simp only [Model.ancestorsAux]
    cases m.parent id with
    | none => rfl
    | some p => simp

/-- Every element of the path after the first has the element before it as parent. -/
theorem ancestorsAux_chain (m : Model) (fuel id : Nat) :
    List.Chain' (fun a b => m.parent b = some a) (Model.ancestorsAux m fuel id) := by
  induction fuel generalizing id with
  | zero => simp [Model.ancestorsAux]
  | succ fuel ih =>
    simp only [Model.ancestorsAux]
    cases hp : m.parent id with
    | none => simp
    | some p =>
      simp only
      rw [List.chain'_append]
      refine ⟨ih p, by simp, ?_⟩
      intro x hx y hy
      rw [ancestorsAux_getLast] at hx
      simp at hx hy
      subst hx
      subst hy
      exact hp

/-- The path starts with the root machine when the machine has no parent. -/
theorem ancestorsAux_head (m : Model) (fuel id r : Nat)
    (hroot : Model.rootAux m (fuel + 1) id = some r) (hr : m.parent r = none) :
    (Model.ancestorsAux m fuel id).head? = some r := by
  induction fuel generalizing id with
  | zero =>
    simp only [Model.rootAux] at hroot
    cases he : m.get? id with
    | none => rw [he] at hroot; simp at hroot
    | some e =>
      rw [he] at hroot
      simp only at hroot
      cases hk : e.kind <;> rw [hk] at hroot <;> simp only at hroot <;>
        first
        | (injection hroot with h; subst h; rfl)
        | (cases hpar : e.parent <;> rw [hpar] at hroot <;> simp [Model.rootAux] at hroot)
  | succ fuel ih =>
    rw [Model.rootAux] at hroot
    cases he : m.get? id with
    | none => rw [he] at hroot; simp at hroot
    | some e =>
      rw [he] at hroot
      simp only at hroot
      have hstep : ∀ p, e.parent = some p → Model.rootAux m (fuel + 1) p = some r →
          (Model.ancestorsAux m (fuel + 1) id).head? = some r := by
        intro p hpar hrec
        have hp : m.parent id = some p := by
          unfold Model.parent
          rw [he]
          exact hpar
        simp only [Model.ancestorsAux, hp]
        have := ih p hrec
        cases hl : Model.ancestorsAux m fuel p with
        | nil => rw [hl] at this; simp at this
        | cons a as => rw [hl] at this; simpa using this
      have hself : id = r → (Model.ancestorsAux m (fuel + 1) id).head? = some r := by
        intro h
        subst h
        simp [Model.ancestorsAux, hr]
      cases hk : e.kind <;> rw [hk] at hroot <;> simp only at hroot <;>
        first
        | (injection hroot with h; exact hself h)
        | (cases hpar : e.parent with
           | none => rw [hpar] at hroot; simp at hroot
           | some p => rw [hpar] at hroot; exact hstep p hpar hroot)

/-- C27: for every object of every model, `ancestors()` has length depth + 1, ends with the
object itself, lists after its first element objects whose parent is the element before
them, is the object alone when the object has no parent, and starts with the root
StateMachine (the machine having no parent). -/
theorem C27_ancestors_is_the_path_from_the_root (m : Model) (id : Nat) :
    (m.ancestors id).length = m.depth id + 1 ∧
    (m.ancestors id).getLast? = some id ∧
    List.Chain' (fun a b => m.parent b = some a) (m.ancestors id) ∧
    (m.parent id = none → m.ancestors id = [id]) ∧
    (∀ r, m.root id = some r → m.parent r = none → (m.ancestors id).head? = some r) := by
  refine ⟨ancestorsAux_length m _ id, ancestorsAux_getLast m _ id,
    ancestorsAux_chain m _ id, ?_, ?_⟩
  · intro h
    unfold Model.ancestors
    cases m.length with
    | zero => rfl
    | succ n => simp [Model.ancestorsAux, h]
  · intro r hroot hr
    exact ancestorsAux_head m m.length id r hroot hr

/-- C27 at the state `x` (position 10) of the model `intoComposite`, at depth 6, and at its
machine. -/
theorem C27_ancestors_is_the_path_from_the_root_witness :
    intoComposite.model.ancestors 10 = [0, 2, 4, 6, 7, 9, 10] ∧
    intoComposite.model.depth 10 = 6 ∧
    intoComposite.model.root 10 = some 0 ∧
    (intoComposite.model.ancestors 10).head? = some 0 ∧
    intoComposite.model.ancestors 0 = [0] :=
  ⟨by decide, by decide, by decide,
   (C27_ancestors_is_the_path_from_the_root intoComposite.model 10).2.2.2.2 0
     (by decide) (by decide),
   (C27_ancestors_is_the_path_from_the_root intoComposite.model 0).2.2.2.1 (by decide)⟩

/-! ## The lowest common ancestor -/

/-- The scan does not depend on the order of its arguments. -/
theorem commonLength_comm (a b : List Nat) : commonLength a b = commonLength b a := by
  induction a generalizing b with
  | nil => cases b <;> simp [commonLength]
  | cons x xs ih =>
    cases b with
    | nil => simp [commonLength]
    | cons y ys =>
      simp only [commonLength]
      by_cases h : x = y
      · subst h; simp [ih ys]
      · have h2 : ¬ y = x := fun h3 => h h3.symm
        simp [h, h2]

/-- The scan of a path against itself passes the whole path. -/
theorem commonLength_self (a : List Nat) : commonLength a a = a.length := by
  induction a with
  | nil => rfl
  | cons x xs ih => simp [commonLength, ih]

/-- The scan stops at once exactly when a path is empty or the roots differ. -/
theorem commonLength_eq_zero (a b : List Nat) :
    commonLength a b = 0 ↔ a = [] ∨ b = [] ∨ a.head? ≠ b.head? := by
  cases a with
  | nil => simp [commonLength]
  | cons x xs =>
    cases b with
    | nil => simp [commonLength]
    | cons y ys =>
      simp only [commonLength]
      by_cases h : x = y
      · subst h; simp
      · simp [h]

/-- C28 (on the function modelled from the spec): `lowestCommonAncestorIndex` is -1 exactly
when the two paths have different roots, is symmetric, equals length - 1 on identical
inputs, and equals d - 1 on two distinct children of one parent at depth d. -/
theorem C28_lowest_common_ancestor_index :
    (∀ a b : List Nat, a ≠ [] → b ≠ [] →
      (lowestCommonAncestorIndex a b = -1 ↔ a.head? ≠ b.head?)) ∧
    (∀ a b : List Nat, lowestCommonAncestorIndex a b = lowestCommonAncestorIndex b a) ∧
    (∀ a : List Nat, lowestCommonAncestorIndex a a = (a.length : Int) - 1) ∧
    (∀ (path : List Nat) (x y : Nat), x ≠ y →
      lowestCommonAncestorIndex (path ++ [x]) (path ++ [y]) = (path.length : Int) - 1) := by
  refine ⟨?_, ?_, ?_, ?_⟩
  · intro a b ha hb
    unfold lowestCommonAncestorIndex
    have h := commonLength_eq_zero a b
    simp only [ha, hb, false_or] at h
    rw [← h]
    omega
  · intro a b
    unfold lowestCommonAncestorIndex
    rw [commonLength_comm]
  · intro a
    unfold lowestCommonAncestorIndex
    rw [commonLength_self]
  · intro path x y hxy
    unfold lowestCommonAncestorIndex
    rw [commonLength_append]
    simp [commonLength, hxy]

/-- C28 on the tree of src/test/tree.js: the values the test asserts for root, left, right,
rightLeft, rightRight and other. -/
theorem C28_lowest_common_ancestor_index_witness :
    (lowestCommonAncestorIndex [0, 2, 3] [5] = -1 ↔ [0, 2, 3].head? ≠ [5].head?) ∧
    lowestCommonAncestorIndex ([0, 2] ++ [3]) ([0, 2] ++ [4]) = (([0, 2] : List Nat).length : Int) - 1 ∧
    (List.range 6).map (fun i => (List.range 6).map (fun j =>
      lowestCommonAncestorIndex (treeAncestry i) (treeAncestry j))) =
      [[0, 0, 0, 0, 0, -1], [0, 1, 0, 0, 0, -1], [0, 0, 1, 1, 1, -1],
       [0, 0, 1, 2, 1, -1], [0, 0, 1, 1, 2, -1], [-1, -1, -1, -1, -1, 0]] :=
  ⟨C28_lowest_common_ancestor_index.1 [0, 2, 3] [5] (by decide) (by decide),
   C28_lowest_common_ancestor_index.2.2.2 [0, 2] 3 4 (by decide),
   by decide⟩

/-! ## What bootstrap leaves alone -/

/-- Looking up an object after an update. -/
theorem get?_update (m : Model) (id i : Nat) (f : Element → Element) :
    (m.update id f).get? i = if i = id then (m.get? i).map f else m.get? i := by
  unfold Model.update
  cases h : m.get? id with
  | none =>
    by_cases hi : i = id
    · subst hi; simp only [if_true, h]; rfl
    · simp [hi]
  | some e =>
    by_cases hi : i = id
    · subst hi
      simp only [if_true, List.get?_eq_getElem?] at h ⊢
      rw [List.getElem?_set_self', h]
      rfl
    · simp only [hi, if_false, List.get?_eq_getElem?]
      rw [List.getElem?_set_ne (Ne.symm hi)]

/-- An update keeps the number of objects. -/
theorem length_update (m : Model) (id : Nat) (f : Element → Element) :
    (m.update id f).length = m.length := by
  unfold Model.update
  cases m.get? id <;> simp

/-- Looking up an object of the frame. -/
theorem get?_frame (m : Model) (i : Nat) :
    m.frame.get? i = (m.get? i).map Element.frame := by
  simp [Model.frame]

/-- An update by a function that keeps the frame of every object keeps the frame. -/
theorem frame_update (m : Model) (id : Nat) (f : Element → Element)
    (hf : ∀ e, (f e).frame = e.frame) : (m.update id f).frame = m.frame := by
  apply List.ext_get?
  intro i
  rw [get?_frame, get?_frame, get?_update]
  by_cases hi : i = id
  · simp only [hi, if_true]
    cases m.get? id with
    | none => rfl
    | some e => simp [hf]
  · simp [hi]

theorem frame_reset (e : Element) : (Element.reset e).frame = e.frame := rfl

theorem frame_pseudoBootstrap (id : Nat) (kind : PseudoStateKind) (e : Element) :
    (PseudoState.bootstrap id kind e).frame = e.frame := by
  cases kind <;> rfl

theorem frame_regionTail (m : Model) (id : Nat) (dha : Bool) (e : Element) :
    (Region.bootstrapTail m id dha e).frame = e.frame := by
  unfold Region.bootstrapTail
  simp only
  split
  · rfl
  · split <;> rfl

theorem frame_stateTail (id : Nat) (e : Element) :
    (State.bootstrapTail id e).frame = e.frame := rfl

/-- Sequencing keeps a property that both parts keep. -/
theorem all_bind {σ α β : Type} (P : σ → Prop) (x : Outcome σ α) (f : α → σ → Outcome σ β)
    (hx : x.All P) (hf : ∀ a s, P s → (f a s).All P) : (x.bind f).All P := by
  cases x with
  | timeout => trivial
  | throw e s => exact hx
  | ok a s => exact hf a s hx

/-- A loop keeps a property that every round keeps. -/
theorem all_foldl {σ ι : Type} (P : σ → Prop) (g : ι → σ → Outcome σ Unit) (l : List ι)
    (init : Outcome σ Unit) (hinit : init.All P)
    (hg : ∀ v s, P s → (g v s).All P) :
    (l.foldl (fun acc v => acc.bind (fun _ s => g v s)) init).All P := by
  induction l generalizing init with
  | nil => exact hinit
  | cons v rest ih =>
    simp only [List.foldl_cons]
    apply ih
    exact all_bind P init _ hinit (fun _ s hs => hg v s hs)

/-- The first pass of bootstrap changes nothing but the action lists. -/
theorem bootstrap_frame (F : Model) (fuel id : Nat) (dha : Bool) (m : Model)
    (hm : m.frame = F) : (bootstrap fuel id dha m).All (fun m1 => m1.frame = F) := by
  induction fuel generalizing id dha m with
  | zero => trivial
  | succ fuel ih =>
    unfold bootstrap
    cases he : m.get? id with
    | none => exact hm
    | some e =>
      simp only
      cases hk : e.kind with
      | Region =>
        simp only
        apply all_bind
        · apply all_foldl (fun m1 => m1.frame = F)
            (fun v m1 => bootstrap fuel v _ (m1.update v Element.reset))
          · exact hm
          · intro v s hs
            apply ih
            rw [frame_update _ _ _ frame_reset]
            exact hs
        · intro _ s hs
          show (s.update id _).frame = F
          rw [frame_update _ _ _ (frame_regionTail s id dha)]
          exact hs
      | PseudoState kind =>
        show (m.update id _).frame = F
        rw [frame_update _ _ _ (frame_pseudoBootstrap id kind)]
        exact hm
      | State =>
        simp only
        apply all_bind
        · apply all_foldl (fun m1 => m1.frame = F)
            (fun r m1 => (bootstrap fuel r dha (m1.update r Element.reset)).bind _)
          · exact hm
          · intro r s hs
            apply all_bind
            · apply ih
              rw [frame_update _ _ _ frame_reset]
              exact hs
            · intro _ s2 hs2
              show (s2.update id _).frame = F
              refine Eq.trans (frame_update s2 id _ ?_) hs2
              intro x
              rfl
        · intro _ s hs
          show (s.update id _).frame = F
          exact (frame_update s id _ (frame_stateTail id)).trans hs
      | FinalState =>
        simp only
        apply all_bind
        · apply all_foldl (fun m1 => m1.frame = F)
            (fun r m1 => (bootstrap fuel r dha (m1.update r Element.reset)).bind _)
          · exact hm
          · intro r s hs
            apply all_bind
            · apply ih
              rw [frame_update _ _ _ frame_reset]
              exact hs
            · intro _ s2 hs2
              show (s2.update id _).frame = F
              refine Eq.trans (frame_update s2 id _ ?_) hs2
              intro x
              rfl
        · intro _ s hs
          show (s.update id _).frame = F
          exact (frame_update s id _ (frame_stateTail id)).trans hs
      | StateMachine =>
        simp only
        apply all_bind
        · apply all_foldl (fun m1 => m1.frame = F)
            (fun r m1 => (bootstrap fuel r dha (m1.update r Element.reset)).bind _)
          · exact hm
          · intro r s hs
            apply all_bind
            · apply ih
              rw [frame_update _ _ _ frame_reset]
              exact hs
            · intro _ s2 hs2
              show (s2.update id _).frame = F
              refine Eq.trans (frame_update s2 id _ ?_) hs2
              intro x
              rfl
        · intro _ s hs
          show (s.update id _).frame = F
          exact (frame_update s id _ (frame_stateTail id)).trans hs

/-- An update that keeps the frame of the object it changes keeps the frame. -/
theorem frame_update_at (m : Model) (id : Nat) (f : Element → Element)
    (hf : ∀ e, m.get? id = some e → (f e).frame = e.frame) :
    (m.update id f).frame = m.frame := by
  apply List.ext_get?
  intro i
  rw [get?_frame, get?_frame, get?_update]
  by_cases hi : i = id
  · simp only [hi, if_true]
    cases h : m.get? id with
    | none => rfl
    | some e => simp [hf e h]
  · simp [hi]

/-- Storing a `traverse` in the transition at a position keeps the frames. -/
theorem frame_set_traverse (ts : List Transition) (i : Nat) (t : Transition)
    (rest : List Transition) (traverse : List Action)
    (h : (ts.drop i).map Transition.frame = (t :: rest).map Transition.frame) :
    (ts.set i { t with traverse := traverse }).map Transition.frame =
        ts.map Transition.frame ∧
      ((ts.set i { t with traverse := traverse }).drop (i + 1)).map Transition.frame =
        rest.map Transition.frame := by
  induction ts generalizing i with
  | nil => simp at h
  | cons a as ih =>
    cases i with
    | zero =>
      simp only [List.drop_zero, List.map_cons, List.cons.injEq] at h
      simp only [List.set_cons_zero, List.map_cons, List.drop_succ_cons, List.drop_zero]
      refine ⟨?_, h.2⟩
      rw [h.1]
      rfl
    | succ i =>
      simp only [List.drop_succ_cons] at h
      have := ih i h
      simp only [List.set_cons_succ, List.map_cons, List.drop_succ_cons]
      exact ⟨by rw [this.1], this.2⟩

/-- The loop over the transitions of a vertex changes nothing but `traverse`. -/
theorem transitionsFrom_frame (F : Model) (id : Nat) (ts : List Transition) (i : Nat)
    (m : Model) (hm : m.frame = F)
    (hal : ∀ e, m.get? id = some e →
      (e.transitions.drop i).map Transition.frame = ts.map Transition.frame) :
    (Vertex.bootstrapTransitionsFrom id ts i m).All (fun m1 => m1.frame = F) := by
  induction ts generalizing i m with
  | nil => exact hm
  | cons t rest ih =>
    unfold Vertex.bootstrapTransitionsFrom
    cases Transition.bootstrap m t with
    | error err => exact hm
    | ok traverse =>
      simp only
      apply ih
      · refine Eq.trans (frame_update_at m id _ ?_) hm
        intro e he
        have h := (frame_set_traverse e.transitions i t rest traverse (hal e he)).1
        show Element.frame _ = Element.frame e
        unfold Element.frame
        simp only [h]
      · intro e2 he2
        rw [get?_update] at he2
        simp only [if_true] at he2
        cases he : m.get? id with
        | none => rw [he] at he2; simp at he2
        | some e =>
          rw [he] at he2
          simp only [Option.map_some', Option.some.injEq] at he2
          rw [← he2]
          exact (frame_set_traverse e.transitions i t rest traverse (hal e he)).2

/-- `Vertex.bootstrapTransitions` changes nothing but `traverse`. -/
theorem vertexTransitions_frame (F : Model) (id : Nat) (m : Model) (hm : m.frame = F) :
    (Vertex.bootstrapTransitions id m).All (fun m1 => m1.frame = F) := by
  unfold Vertex.bootstrapTransitions
  cases he : m.get? id with
  | none => exact hm
  | some e =>
    apply transitionsFrom_frame F id e.transitions 0 m hm
    intro e2 he2
    rw [he] at he2
    injection he2 with h
    rw [← h]
    rfl

/-- The second pass of bootstrap changes nothing but `traverse`. -/
theorem bootstrapTransitions_frame (F : Model) (fuel id : Nat) (m : Model)
    (hm : m.frame = F) : (bootstrapTransitions fuel id m).All (fun m1 => m1.frame = F) := by
  induction fuel generalizing id m with
  | zero => trivial
  | succ fuel ih =>
    unfold bootstrapTransitions
    cases he : m.get? id with
    | none => exact hm
    | some e =>
      simp only
      cases hk : e.kind with
      | Region =>
        simp only
        exact all_foldl (fun m1 : Model => m1.frame = F) (fun v m1 => bootstrapTransitions fuel v m1)
          _ (Outcome.ok () m) hm (fun v s hs => ih v s hs)
      | PseudoState kind => exact vertexTransitions_frame F id m hm
      | State =>
        simp only
        apply all_bind
        · exact all_foldl (fun m1 : Model => m1.frame = F)
            (fun v m1 => bootstrapTransitions fuel v m1) _ (Outcome.ok () m) hm
            (fun v s hs => ih v s hs)
        · intro _ s hs
          exact vertexTransitions_frame F id s hs
      | FinalState =>
        simp only
        apply all_bind
        · exact all_foldl (fun m1 : Model => m1.frame = F)
            (fun v m1 => bootstrapTransitions fuel v m1) _ (Outcome.ok () m) hm
            (fun v s hs => ih v s hs)
        · intro _ s hs
          exact vertexTransitions_frame F id s hs
      | StateMachine =>
        simp only
        apply all_bind
        · exact all_foldl (fun m1 : Model => m1.frame = F)
            (fun v m1 => bootstrapTransitions fuel v m1) _ (Outcome.ok () m) hm
            (fun v s hs => ih v s hs)
        · intro _ s hs
          exact vertexTransitions_frame F id s hs

/-- `StateMachine.bootstrap` changes nothing but the action lists, `traverse`, and the
`clean` flag of the machine, which it sets. -/
theorem machineBootstrap_frame (sm : Nat) (dha : Bool) (m : Model) :
    (StateMachine.bootstrap sm dha m).All (fun m1 =>
      m1.frame = (m.update sm (fun e => { Element.reset e with clean := true })).frame) := by
  unfold StateMachine.bootstrap
  simp only
  apply all_bind
  · exact bootstrap_frame _ _ sm dha _ rfl
  · intro _ s hs
    exact bootstrapTransitions_frame _ _ sm s hs

/-- C19, as stated, fails: on the model `crossing`, whose transition from `x` to `y` crosses
the regions of `o`, `StateMachine.bootstrap` raises the error and leaves the `clean` flag of
the machine, false before the call, true; `initialise` on that model then does not compile
again: it runs the sequences compiled so far and fails with a TypeError at the first
transition that has no `traverse`. -/
theorem C19_failed_bootstrap_leaves_clean_true :
    (crossing.model.elem 0).clean = false ∧
    (StateMachine.bootstrap 0 false crossing.model).error? = some crossRegions ∧
    ((StateMachine.bootstrap 0 false crossing.model).state?.map
      (fun m => (m.elem 0).clean)) = some true ∧
    ((StateMachine.bootstrap 0 false crossing.model).state?.map
      (fun m => (Run.initialise (Run.start m)).error?)) = some (some typeError) := by
  decide

/-- C19, amended: `StateMachine.bootstrap` sets `clean` before the two passes (line 521) and
nothing in the passes writes it, so for every model and every machine of it the `clean`
flag of the machine is true in the model `m1` the call leaves, when it has returned and
also when it has raised an error. -/
theorem C19_clean_is_true_after_bootstrap (sm : Nat) (dha : Bool) (m : Model) (e : Element)
    (m1 : Model) (he : m.get? sm = some e)
    (hrun : (StateMachine.bootstrap sm dha m).state? = some m1) :
    (m1.get? sm).map Element.clean = some true := by
  have h := machineBootstrap_frame sm dha m
  have key : ∀ m1 : Model,
      m1.frame = (m.update sm (fun e => { Element.reset e with clean := true })).frame →
      (m1.get? sm).map Element.clean = some true := by
    intro m1 h1
    have h2 := congrArg (fun x : Model => x.get? sm) h1
    simp only [get?_frame, get?_update, if_true, he, Option.map_some'] at h2
    cases h3 : m1.get? sm with
    | none => rw [h3] at h2; simp at h2
    | some e1 =>
      rw [h3] at h2
      simp only [Option.map_some', Option.some.injEq] at h2
      have h4 := congrArg Element.clean h2
      simpa [Element.frame, Element.reset] using h4
  cases hb : StateMachine.bootstrap sm dha m with
  | timeout => rw [hb] at hrun; cases hrun
  | ok a s =>
    rw [hb] at h hrun
    injection hrun with hrun
    rw [← hrun]
    exact key s h
  | throw err s =>
    rw [hb] at h hrun
    injection hrun with hrun
    rw [← hrun]
    exact key s h

/-- C19, amended, at the model `crossing`: the call raises the error and `clean` is true in
the model it leaves. -/
theorem C19_clean_is_true_after_bootstrap_witness :
    (StateMachine.bootstrap 0 false crossing.model).error? = some crossRegions ∧
    ∃ m1, (StateMachine.bootstrap 0 false crossing.model).state? = some m1 ∧
      (m1.get? 0).map Element.clean = some true := by
  have h1 : (StateMachine.bootstrap 0 false crossing.model).error? = some crossRegions := by
    decide
  have h2 : crossing.model.get? 0 = some (crossing.model.elem 0) := rfl
  have h3 : ((StateMachine.bootstrap 0 false crossing.model).state?).isSome = true := by
    decide
  obtain ⟨m1, hm1⟩ := Option.isSome_iff_exists.mp h3
  exact ⟨h1, m1, hm1,
    C19_clean_is_true_after_bootstrap 0 false crossing.model (crossing.model.elem 0) m1 h2 hm1⟩

/-- A returned `bind` has a returned first part. -/
theorem bind_ok {σ α β : Type} (x : Outcome σ α) (f : α → σ → Outcome σ β) (b : β) (s1 : σ)
    (h : x.bind f = Outcome.ok b s1) : ∃ a s, x = Outcome.ok a s ∧ f a s = Outcome.ok b s1 := by
  cases x with
  | timeout => simp [Outcome.bind] at h
  | throw err s => simp [Outcome.bind] at h
  | ok a s => exact ⟨a, s, rfl, h⟩

/-- The `enter` sequence that the end of `Region.bootstrap` leaves: the closure of line 125
when a region above has deep history or the region starts in a history pseudo state (or in
nothing), the `enter` sequence of the initial pseudo state otherwise. -/
theorem regionTail_enter (m : Model) (id : Nat) (dha : Bool) (e : Element) :
    (Region.bootstrapTail m id dha e).enter =
      e.beginEnter ++ (e.endEnter ++
        match e.initial.bind (fun i => m.get? i) with
        | none => [Action.regionEnter id]
        | some i => if dha || i.isHistory then [Action.regionEnter id] else i.enter) := by
  unfold Region.bootstrapTail Element.bootstrap
  cases h : e.initial.bind (fun i => m.get? i) with
  | none => simp only [h]
  | some i =>
    by_cases hc : (dha || i.isHistory) = true
    · simp only [h, if_pos hc]
    · simp only [h, if_neg hc]

/-- The `beginEnter` and `enter` sequences that the end of `State.bootstrap` leaves. -/
theorem stateTail_enter (id : Nat) (e : Element) :
    (State.bootstrapTail id e).beginEnter =
      e.beginEnter ++ e.entryBehavior ++ [Action.setCurrent id] ∧
    (State.bootstrapTail id e).enter =
      (State.bootstrapTail id e).beginEnter ++ (State.bootstrapTail id e).endEnter := by
  unfold State.bootstrapTail Vertex.bootstrap Element.bootstrap
  simp

/-- An object within the model is the one `elem` returns. -/
theorem get?_elem (m : Model) (i : Nat) (h : i < m.length) : m.get? i = some (m.elem i) := by
  unfold Model.elem
  rw [List.get?_eq_get h]
  rfl

/-- A projection that an update keeps. -/
theorem map_update {β : Type} (g : Element → β) (m : Model) (i x : Nat)
    (f : Element → Element) (hf : ∀ e, g (f e) = g e) :
    ((m.update i f).get? x).map g = (m.get? x).map g := by
  rw [get?_update]
  by_cases h : x = i
  · simp only [h, if_true]
    cases m.get? i with
    | none => rfl
    | some e => simp [hf]
  · simp [h]

/-- Looking up the changed object. -/
theorem get?_update_self (m : Model) (i : Nat) (f : Element → Element) :
    (m.update i f).get? i = (m.get? i).map f := by
  rw [get?_update, if_pos rfl]

/-- Looking up another object than the changed one. -/
theorem get?_update_other (m : Model) (i x : Nat) (f : Element → Element) (h : x ≠ i) :
    (m.update i f).get? x = m.get? x := by
  rw [get?_update, if_neg h]

/-- `State.defaultRegion` in terms of `lastDefault`. -/
theorem defaultRegion_eq (state : Nat) (m : Model) (e : Element) (he : m.get? state = some e) :
    State.defaultRegion state m =
      match lastDefault m e.regions with
      | some r => Outcome.ok r m
      | none => Region.new Region.defaultName state m := by
  unfold State.defaultRegion
  rw [he]
  rfl

/-- `x.root().clean = false`, when it returns, is an update of one object. -/
theorem setDirty_eq (m m1 : Model) (id : Nat) (h : setDirty id m = Outcome.ok () m1) :
    ∃ root, m1 = m.update root (fun e => { e with clean := false }) := by
  unfold setDirty at h
  split at h
  · simp only [Outcome.ok.injEq, true_and] at h
    exact ⟨_, h.symm⟩
  · simp at h

/-- The constructor `Region`, when it returns, appends the region, adds it to the regions of
the state and marks the root. -/
theorem regionNew_eq (m m1 : Model) (name : String) (state r : Nat)
    (h : Region.new name state m = Outcome.ok r m1) :
    r = m.length ∧ ∃ root,
      m1 = ((m ++ [({ kind := ElementKind.Region, name := name, state := some state } :
          Element)]).update state
        (fun e => { e with regions := e.regions ++ [m.length] })).update root
        (fun e => { e with clean := false }) := by
  unfold Region.new at h
  simp only at h
  cases hg : (m ++ [({ kind := ElementKind.Region, name := name, state := some state } :
      Element)]).get? state with
  | none => rw [hg] at h; simp at h
  | some e =>
    rw [hg] at h
    obtain ⟨_, s, hs, hf⟩ := bind_ok _ _ _ _ h
    simp only [Outcome.ok.injEq] at hf
    obtain ⟨root, hroot⟩ := setDirty_eq _ s state hs
    refine ⟨hf.1.symm, root, ?_⟩
    rw [← hf.2, hroot]

/-- Appending objects keeps the objects there are. -/
theorem get?_append_lt (m l : Model) (x : Nat) (h : x < m.length) :
    (m ++ l).get? x = m.get? x := by
  simp only [List.get?_eq_getElem?]
  exact List.getElem?_append_left h

/-- The first pass of bootstrap, started at an object of a set that holds the children of
its members, changes objects of the set only. -/
theorem bootstrap_local (F : Model) (S : Nat → Prop)
    (hclosed : ∀ x e, S x → F.get? x = some e → ∀ c ∈ e.children, S c) (m0 : Model)
    (fuel id : Nat) (dha : Bool) (m : Model) (hm : m.frame = F) (hid : S id)
    (hout : ∀ x, ¬ S x → m.get? x = m0.get? x) :
    (bootstrap fuel id dha m).All
      (fun m1 => m1.frame = F ∧ ∀ x, ¬ S x → m1.get? x = m0.get? x) := by
  have hupd : ∀ (s : Model) (x : Nat) (f : Element → Element), S x →
      (∀ y, ¬ S y → s.get? y = m0.get? y) →
      ∀ y, ¬ S y → (s.update x f).get? y = m0.get? y := by
    intro s x f hx hs y hy
    rw [get?_update_other s x y f (fun h => hy (h ▸ hx))]
    exact hs y hy
  induction fuel generalizing id dha m with
  | zero => trivial
  | succ fuel ih =>
    have hchildren : ∀ e, m.get? id = some e → ∀ c ∈ e.children, S c := by
      intro e he c hc
      have hF : F.get? id = some e.frame := by rw [← hm, get?_frame, he]; rfl
      exact hclosed id e.frame hid hF c hc
    unfold bootstrap
    cases he : m.get? id with
    | none => exact ⟨hm, hout⟩
    | some e =>
      simp only
      have hch := hchildren e he
      cases hk : e.kind with
      | Region =>
        simp only
        have hv : ∀ v ∈ e.vertices, S v := by
          intro v hv
          apply hch
          simp only [Element.children, hk]
          exact hv
        apply all_bind
        · have hfold : ∀ (l : List Nat) (init : Outcome Model Unit), (∀ v ∈ l, S v) →
              init.All (fun m1 => m1.frame = F ∧ ∀ x, ¬ S x → m1.get? x = m0.get? x) →
              (l.foldl (fun acc v => acc.bind (fun _ m1 =>
                bootstrap fuel v (dha || (match e.initial.bind (fun i => m.get? i) with
                  | some i => i.isDeepHistory
                  | none => false)) (m1.update v Element.reset))) init).All
                (fun m1 => m1.frame = F ∧ ∀ x, ¬ S x → m1.get? x = m0.get? x) := by
            intro l
            induction l with
            | nil => intro init _ hinit; exact hinit
            | cons v rest ihl =>
              intro init hl hinit
              simp only [List.foldl_cons]
              apply ihl _ (fun w hw => hl w (List.mem_cons_of_mem _ hw))
              apply all_bind _ _ _ hinit
              intro _ s hs
              apply ih
              · rw [frame_update _ _ _ frame_reset]
                exact hs.1
              · exact hl v (List.mem_cons_self _ _)
              · exact hupd s v _ (hl v (List.mem_cons_self _ _)) hs.2
          exact hfold e.vertices _ hv ⟨hm, hout⟩
        · intro _ s hs
          refine ⟨?_, hupd s id _ hid hs.2⟩
          show (s.update id _).frame = F
          rw [frame_update _ _ _ (frame_regionTail s id dha)]
          exact hs.1
      | PseudoState kind =>
        refine ⟨?_, hupd m id _ hid hout⟩
        show (m.update id _).frame = F
        rw [frame_update _ _ _ (frame_pseudoBootstrap id kind)]
        exact hm
      | State =>
        simp only
        have hr : ∀ r ∈ e.regions, S r := by
          intro r hr
          apply hch
          simp only [Element.children, hk]
          exact hr
        apply all_bind
        · have hfold : ∀ (l : List Nat) (init : Outcome Model Unit), (∀ r ∈ l, S r) →
              init.All (fun m1 => m1.frame = F ∧ ∀ x, ¬ S x → m1.get? x = m0.get? x) →
              (l.foldl (fun acc r => acc.bind (fun _ m1 =>
                (bootstrap fuel r dha (m1.update r Element.reset)).bind (fun _ m2 =>
                  Outcome.ok () (m2.update id (fun s =>
                    { s with
                      leave := s.leave ++ [Action.invokeLeave (e.regions.getLast?.getD r)],
                      endEnter := s.endEnter ++
                        (match m2.get? r with
                         | some re => re.enter
                         | none => []) }))))) init).All
                (fun m1 => m1.frame = F ∧ ∀ x, ¬ S x → m1.get? x = m0.get? x) := by
            intro l
            induction l with
            | nil => intro init _ hinit; exact hinit
            | cons r rest ihl =>
              intro init hl hinit
              simp only [List.foldl_cons]
              apply ihl _ (fun w hw => hl w (List.mem_cons_of_mem _ hw))
              apply all_bind _ _ _ hinit
              intro _ s hs
              apply all_bind
              · apply ih
                · rw [frame_update _ _ _ frame_reset]
                  exact hs.1
                · exact hl r (List.mem_cons_self _ _)
                · exact hupd s r _ (hl r (List.mem_cons_self _ _)) hs.2
              · intro _ s2 hs2
                refine ⟨?_, hupd s2 id _ hid hs2.2⟩
                show (s2.update id _).frame = F
                refine Eq.trans (frame_update s2 id _ ?_) hs2.1
                intro x
                rfl
          exact hfold e.regions _ hr ⟨hm, hout⟩
        · intro _ s hs
          refine ⟨?_, hupd s id _ hid hs.2⟩
          show (s.update id _).frame = F
          exact (frame_update s id _ (frame_stateTail id)).trans hs.1
      | FinalState =>
        simp only
        have hr : ∀ r ∈ e.regions, S r := by
          intro r hr
          apply hch
          simp only [Element.children, hk]
          exact hr
        apply all_bind
        · have hfold : ∀ (l : List Nat) (init : Outcome Model Unit), (∀ r ∈ l, S r) →
              init.All (fun m1 => m1.frame = F ∧ ∀ x, ¬ S x → m1.get? x = m0.get? x) →
              (l.foldl (fun acc r => acc.bind (fun _ m1 =>
                (bootstrap fuel r dha (m1.update r Element.reset)).bind (fun _ m2 =>
                  Outcome.ok () (m2.update id (fun s =>
                    { s with
                      leave := s.leave ++ [Action.invokeLeave (e.regions.getLast?.getD r)],
                      endEnter := s.endEnter ++
                        (match m2.get? r with
                         | some re => re.enter
                         | none => []) }))))) init).All
                (fun m1 => m1.frame = F ∧ ∀ x, ¬ S x → m1.get? x = m0.get? x) := by
            intro l
            induction l with
            | nil => intro init _ hinit; exact hinit
            | cons r rest ihl =>
              intro init hl hinit
              simp only [List.foldl_cons]
              apply ihl _ (fun w hw => hl w (List.mem_cons_of_mem _ hw))
              apply all_bind _ _ _ hinit
              intro _ s hs
              apply all_bind
              · apply ih
                · rw [frame_update _ _ _ frame_reset]
                  exact hs.1
                · exact hl r (List.mem_cons_self _ _)
                · exact hupd s r _ (hl r (List.mem_cons_self _ _)) hs.2
              · intro _ s2 hs2
                refine ⟨?_, hupd s2 id _ hid hs2.2⟩
                show (s2.update id _).frame = F
                refine Eq.trans (frame_update s2 id _ ?_) hs2.1
                intro x
                rfl
          exact hfold e.regions _ hr ⟨hm, hout⟩
        · intro _ s hs
          refine ⟨?_, hupd s id _ hid hs.2⟩
          show (s.update id _).frame = F
          exact (frame_update s id _ (frame_stateTail id)).trans hs.1
      | StateMachine =>
        simp only
        have hr : ∀ r ∈ e.regions, S r := by
          intro r hr
          apply hch
          simp only [Element.children, hk]
          exact hr
        apply all_bind
        · have hfold : ∀ (l : List Nat) (init : Outcome Model Unit), (∀ r ∈ l, S r) →
              init.All (fun m1 => m1.frame = F ∧ ∀ x, ¬ S x → m1.get? x = m0.get? x) →
              (l.foldl (fun acc r => acc.bind (fun _ m1 =>
                (bootstrap fuel r dha (m1.update r Element.reset)).bind (fun _ m2 =>
                  Outcome.ok () (m2.update id (fun s =>
                    { s with
                      leave := s.leave ++ [Action.invokeLeave (e.regions.getLast?.getD r)],
                      endEnter := s.endEnter ++
                        (match m2.get? r with
                         | some re => re.enter
                         | none => []) }))))) init).All
                (fun m1 => m1.frame = F ∧ ∀ x, ¬ S x → m1.get? x = m0.get? x) := by
            intro l
            induction l with
            | nil => intro init _ hinit; exact hinit
            | cons r rest ihl =>
              intro init hl hinit
              simp only [List.foldl_cons]
              apply ihl _ (fun w hw => hl w (List.mem_cons_of_mem _ hw))
              apply all_bind _ _ _ hinit
              intro _ s hs
              apply all_bind
              · apply ih
                · rw [frame_update _ _ _ frame_reset]
                  exact hs.1
                · exact hl r (List.mem_cons_self _ _)
                · exact hupd s r _ (hl r (List.mem_cons_self _ _)) hs.2
              · intro _ s2 hs2
                refine ⟨?_, hupd s2 id _ hid hs2.2⟩
                show (s2.update id _).frame = F
                refine Eq.trans (frame_update s2 id _ ?_) hs2.1
                intro x
                rfl
          exact hfold e.regions _ hr ⟨hm, hout⟩
        · intro _ s hs
          refine ⟨?_, hupd s id _ hid hs.2⟩
          show (s.update id _).frame = F
          exact (frame_update s id _ (frame_stateTail id)).trans hs.1

/-- A loop that returns started from a return. -/
theorem foldl_ok_init {ι : Type} (g : ι → Model → Outcome Model Unit) (l : List ι)
    (init : Outcome Model Unit) (s1 : Model)
    (h : l.foldl (fun acc v => acc.bind (fun _ s => g v s)) init = Outcome.ok () s1) :
    ∃ s, init = Outcome.ok () s := by
  induction l generalizing init with
  | nil => exact ⟨s1, h⟩
  | cons v rest ih =>
    simp only [List.foldl_cons] at h
    obtain ⟨s, hs⟩ := ih _ h
    obtain ⟨_, s2, hs2, _⟩ := bind_ok _ _ _ _ hs
    exact ⟨s2, hs2⟩

/-- A loop that returns keeps an invariant that every round keeps. -/
theorem foldl_invariant {ι : Type} (g : ι → Model → Outcome Model Unit) (Inv : Model → Prop)
    (l : List ι) (hinv : ∀ v ∈ l, ∀ s s1, Inv s → g v s = Outcome.ok () s1 → Inv s1)
    (s0 s1 : Model) (h0 : Inv s0)
    (hrun : l.foldl (fun acc v => acc.bind (fun _ s => g v s)) (Outcome.ok () s0) =
      Outcome.ok () s1) :
    Inv s1 := by
  induction l generalizing s0 with
  | nil =>
    simp only [List.foldl_nil, Outcome.ok.injEq, true_and] at hrun
    rw [← hrun]
    exact h0
  | cons v rest ih =>
    simp only [List.foldl_cons] at hrun
    obtain ⟨s, hs⟩ := foldl_ok_init g rest _ _ hrun
    rw [hs] at hrun
    have hg : g v s0 = Outcome.ok () s := hs
    exact ih (fun w hw => hinv w (List.mem_cons_of_mem _ hw)) s
      (hinv v (List.mem_cons_self _ _) s0 s h0 hg) hrun

/-- A loop that returns has run every round: the property `Q`, which the round of `x`
brings about and the other rounds keep, holds at the end. -/
theorem foldl_establish {ι : Type} (g : ι → Model → Outcome Model Unit) (Inv Q : Model → Prop)
    (x : ι) (l : List ι) (hx : x ∈ l)
    (hinv : ∀ v ∈ l, ∀ s s1, Inv s → g v s = Outcome.ok () s1 → Inv s1)
    (hest : ∀ s s1, Inv s → g x s = Outcome.ok () s1 → Q s1)
    (hkeep : ∀ v ∈ l, ∀ s s1, Inv s → Q s → g v s = Outcome.ok () s1 → Q s1)
    (s0 s1 : Model) (h0 : Inv s0)
    (hrun : l.foldl (fun acc v => acc.bind (fun _ s => g v s)) (Outcome.ok () s0) =
      Outcome.ok () s1) :
    Q s1 := by
  induction l generalizing s0 with
  | nil => cases hx
  | cons v rest ih =>
    simp only [List.foldl_cons] at hrun
    obtain ⟨s, hs⟩ := foldl_ok_init g rest _ _ hrun
    rw [hs] at hrun
    have hg : g v s0 = Outcome.ok () s := hs
    have hinvs := hinv v (List.mem_cons_self _ _) s0 s h0 hg
    by_cases hv : x = v
    · subst hv
      have hq := hest s0 s h0 hg
      exact (foldl_invariant g (fun t => Inv t ∧ Q t) rest
        (fun w hw t t1 ht hgw =>
          ⟨hinv w (List.mem_cons_of_mem _ hw) t t1 ht.1 hgw,
           hkeep w (List.mem_cons_of_mem _ hw) t t1 ht.1 ht.2 hgw⟩)
        s s1 ⟨hinvs, hq⟩ hrun).2
    · have hxr : x ∈ rest := by
        rcases List.mem_cons.mp hx with h | h
        · exact absurd h hv
        · exact h
      exact ih hxr (fun w hw => hinv w (List.mem_cons_of_mem _ hw))
        (fun w hw => hkeep w (List.mem_cons_of_mem _ hw)) s hinvs hrun

/-- Looking up an object of the shape. -/
theorem get?_shape (m : Model) (i : Nat) :
    m.shape.get? i = (m.get? i).map Element.shape := by
  unfold Model.shape
  simp [List.get?_eq_getElem?]

/-- Models with the same frame have the same shape. -/
theorem shape_of_frame (s t : Model) (h : s.frame = t.frame) : s.shape = t.shape := by
  apply List.ext_get?
  intro i
  have hi := congrArg (fun x : Model => x.get? i) h
  simp only [get?_frame] at hi
  rw [get?_shape, get?_shape]
  cases hs : s.get? i with
  | none =>
    rw [hs] at hi
    cases ht : t.get? i with
    | none => rfl
    | some e => rw [ht] at hi; simp at hi
  | some e =>
    rw [hs] at hi
    cases ht : t.get? i with
    | none => rw [ht] at hi; simp at hi
    | some e2 =>
      rw [ht] at hi
      simp only [Option.map_some', Option.some.injEq] at hi ⊢
      unfold Element.shape
      rw [hi]

/-- An update that keeps the shape of every object keeps the shape. -/
theorem shape_update (m : Model) (id : Nat) (f : Element → Element)
    (hf : ∀ e, (f e).shape = e.shape) : (m.update id f).shape = m.shape := by
  apply List.ext_get?
  intro i
  rw [get?_shape, get?_shape, get?_update]
  by_cases hi : i = id
  · simp only [hi, if_true]
    cases m.get? id with
    | none => rfl
    | some e => simp [hf]
  · simp [hi]

/-- Models with the same shape have objects of the same shape. -/
theorem shape_get? (s t : Model) (h : s.shape = t.shape) (i : Nat) :
    (s.get? i).map Element.shape = (t.get? i).map Element.shape := by
  rw [← get?_shape, ← get?_shape, h]

/-- Models with the same shape have objects of the same shape, also out of range. -/
theorem shape_elem (s t : Model) (h : s.shape = t.shape) (i : Nat) :
    (s.elem i).shape = (t.elem i).shape := by
  have hi := shape_get? s t h i
  unfold Model.elem
  cases hs : s.get? i with
  | none =>
    rw [hs] at hi
    cases ht : t.get? i with
    | none => rfl
    | some e => rw [ht] at hi; simp at hi
  | some e =>
    rw [hs] at hi
    cases ht : t.get? i with
    | none => rw [ht] at hi; simp at hi
    | some e2 =>
      rw [ht] at hi
      simpa using hi

/-- Models with the same shape have the same length. -/
theorem shape_length (s t : Model) (h : s.shape = t.shape) : s.length = t.length := by
  have := congrArg List.length h
  simpa [Model.shape] using this

/-- Models with the same shape have the same parents. -/
theorem shape_parent (s t : Model) (h : s.shape = t.shape) (i : Nat) :
    s.parent i = t.parent i := by
  have hi := shape_get? s t h i
  unfold Model.parent
  cases hs : s.get? i with
  | none =>
    rw [hs] at hi
    cases ht : t.get? i with
    | none => rfl
    | some e => rw [ht] at hi; simp at hi
  | some e =>
    rw [hs] at hi
    cases ht : t.get? i with
    | none => rw [ht] at hi; simp at hi
    | some e2 =>
      rw [ht] at hi
      simp only [Option.map_some', Option.some.injEq] at hi
      have h1 : e.shape.parent = e2.shape.parent := by rw [hi]
      exact h1

/-- Models with the same shape are well-formed together. -/
theorem wellFormed_of_shape (s t : Model) (h : s.shape = t.shape) (ht : t.wellFormed) :
    s.wellFormed := by
  intro x e he c hc
  have hi := shape_get? s t h x
  rw [he] at hi
  cases htx : t.get? x with
  | none => rw [htx] at hi; simp at hi
  | some e2 =>
    rw [htx] at hi
    simp only [Option.map_some', Option.some.injEq] at hi
    have hch : e.children = e2.children := by
      have h1 : e.shape.children = e2.shape.children := by rw [hi]
      exact h1
    rw [shape_parent s t h c]
    exact ht x e2 htx c (hch ▸ hc)

/-- A property of the transitions of an object that their frames decide goes over to an
object of the same shape. -/
theorem shape_transitions_all (a b : Element) (h : a.shape = b.shape)
    (P : Transition → Prop) (hP : ∀ t, P t.frame → P t)
    (hb : ∀ t ∈ b.transitions, P t.frame) : ∀ t ∈ a.transitions, P t := by
  intro t ht
  have htr : a.transitions.map Transition.frame = b.transitions.map Transition.frame := by
    have h1 : a.shape.transitions = b.shape.transitions := by rw [h]
    exact h1
  have hmem : t.frame ∈ b.transitions.map Transition.frame := by
    rw [← htr]
    exact List.mem_map_of_mem _ ht
  obtain ⟨t2, ht2, heq⟩ := List.mem_map.mp hmem
  apply hP
  rw [← heq]
  exact hb t2 ht2

/-- The sources and targets of the transitions of objects of the same shape. -/
theorem shape_transitions_ends (a b : Element) (h : a.shape = b.shape) :
    a.transitions.map (fun t => (t.source, t.target)) =
      b.transitions.map (fun t => (t.source, t.target)) := by
  have htr : a.transitions.map Transition.frame = b.transitions.map Transition.frame := by
    have h1 : a.shape.transitions = b.shape.transitions := by rw [h]
    exact h1
  have h2 := congrArg (List.map (fun t : Transition => (t.source, t.target))) htr
  simpa [List.map_map, Function.comp, Transition.frame] using h2

/-- Objects of the same shape have transitions or not together. -/
theorem shape_transitions_nil (a b : Element) (h : a.shape = b.shape)
    (hb : b.transitions = []) : a.transitions = [] := by
  have htr : a.transitions.map Transition.frame = b.transitions.map Transition.frame := by
    have h1 : a.shape.transitions = b.shape.transitions := by rw [h]
    exact h1
  rw [hb] at htr
  simpa using htr

/-- The premises of the cascade are premises on the shape of the model. -/
theorem cascade_of_shape (s t : Model) (sm R I C RC IC F D : Nat) (h : s.shape = t.shape)
    (ht : Cascade t sm R I C RC IC F D) : Cascade s sm R I C RC IC F D := by
  have hel := shape_elem s t h
  have kind : ∀ x, (s.elem x).kind = (t.elem x).kind := fun x => by
    have h1 : (s.elem x).shape.kind = (t.elem x).shape.kind := by rw [hel x]
    exact h1
  have region : ∀ x, (s.elem x).region = (t.elem x).region := fun x => by
    have h1 : (s.elem x).shape.region = (t.elem x).shape.region := by rw [hel x]
    exact h1
  have regions : ∀ x, (s.elem x).regions = (t.elem x).regions := fun x => by
    have h1 : (s.elem x).shape.regions = (t.elem x).shape.regions := by rw [hel x]
    exact h1
  have state : ∀ x, (s.elem x).state = (t.elem x).state := fun x => by
    have h1 : (s.elem x).shape.state = (t.elem x).shape.state := by rw [hel x]
    exact h1
  have initial : ∀ x, (s.elem x).initial = (t.elem x).initial := fun x => by
    have h1 : (s.elem x).shape.initial = (t.elem x).shape.initial := by rw [hel x]
    exact h1
  have vertices : ∀ x, (s.elem x).vertices = (t.elem x).vertices := fun x => by
    have h1 : (s.elem x).shape.vertices = (t.elem x).shape.vertices := by rw [hel x]
    exact h1
  have entry : ∀ x, (s.elem x).entryBehavior = (t.elem x).entryBehavior := fun x => by
    have h1 : (s.elem x).shape.entryBehavior = (t.elem x).shape.entryBehavior := by rw [hel x]
    exact h1
  have exit : ∀ x, (s.elem x).exitBehavior = (t.elem x).exitBehavior := fun x => by
    have h1 : (s.elem x).shape.exitBehavior = (t.elem x).shape.exitBehavior := by rw [hel x]
    exact h1
  have isState : ∀ x, (s.elem x).isState = (t.elem x).isState := fun x => by
    unfold Element.isState
    rw [kind x]
  refine
    { inModel := ?_, wellFormed := wellFormed_of_shape s t h ht.wellFormed, machine := ?_,
      rootRegion := ?_, rootInitial := ?_, composite := ?_, childRegion := ?_,
      childInitial := ?_, final := ?_, sibling := ?_, behaviours := ?_, keepCurrent := ?_ }
  · rw [shape_length s t h]
    exact ht.inModel
  · rw [kind, region, regions]
    exact ⟨ht.machine.1, ht.machine.2.1, ht.machine.2.2.1,
      shape_transitions_nil _ _ (hel sm) ht.machine.2.2.2⟩
  · rw [kind, state, initial, vertices]
    exact ht.rootRegion
  · rw [kind, region, shape_transitions_ends _ _ (hel I)]
    exact ht.rootInitial
  · rw [kind, region, regions, shape_transitions_ends _ _ (hel C)]
    exact ⟨ht.composite.1, ht.composite.2.1, ht.composite.2.2.1, ht.composite.2.2.2.1,
      shape_transitions_all _ _ (hel C) (fun t => t.guard = Guard.completion)
        (fun _ h => h) ht.composite.2.2.2.2⟩
  · rw [kind, state, initial, vertices]
    exact ht.childRegion
  · rw [kind, region, shape_transitions_ends _ _ (hel IC)]
    exact ht.childInitial
  · rw [kind, region, regions]
    exact ⟨ht.final.1, ht.final.2.1, ht.final.2.2.1,
      shape_transitions_nil _ _ (hel F) ht.final.2.2.2⟩
  · rw [isState, region]
    exact ht.sibling
  · rw [entry, entry, entry]
    exact ⟨ht.behaviours.1, ht.behaviours.2.1, ht.behaviours.2.2.1,
      shape_transitions_all _ _ (hel I) (fun t => UserActions t.transitionBehavior)
        (fun _ h => h) ht.behaviours.2.2.2.1,
      shape_transitions_all _ _ (hel IC) (fun t => UserActions t.transitionBehavior)
        (fun _ h => h) ht.behaviours.2.2.2.2⟩
  · rw [exit, exit, entry]
    exact ⟨ht.keepCurrent.1, ht.keepCurrent.2.1, ht.keepCurrent.2.2.1,
      shape_transitions_all _ _ (hel C) (fun t => KeepCurrent t.transitionBehavior)
        (fun _ h => h) ht.keepCurrent.2.2.2⟩

/-- An object without parent lies inside itself only. -/
theorem under_root (s : Model) (v x : Nat) (hp : s.parent x = none) (h : s.Under v x) :
    v = x := by
  cases h with
  | self => rfl
  | step _ p hpar _ => rw [hp] at hpar; cases hpar

/-- An object lies inside itself and what its parent lies inside. -/
theorem under_parent (s : Model) (v x p : Nat) (hp : s.parent x = some p)
    (h : s.Under v x) : v = x ∨ s.Under v p := by
  cases h with
  | self => exact Or.inl rfl
  | step _ q hpar hq =>
    rw [hp] at hpar
    cases hpar
    exact Or.inr hq

/-- In a well-formed model what lies inside `v` holds the children of its members. -/
theorem under_closed (s : Model) (hwf : s.wellFormed) (v : Nat) :
    ∀ x e, s.Under v x → s.frame.get? x = some e → ∀ c ∈ e.children, s.Under v c := by
  intro x e hx he c hc
  rw [get?_frame] at he
  cases hs : s.get? x with
  | none => rw [hs] at he; simp at he
  | some e0 =>
    rw [hs] at he
    simp only [Option.map_some', Option.some.injEq] at he
    have hch : e0.children = e.children := by rw [← he]; rfl
    exact Model.Under.step c x (hwf x e0 hs c (hch ▸ hc)) hx

/-- In a well-formed model the first pass of bootstrap of `id`, when it returns, has kept the
frame and every object that does not lie inside `id`. -/
theorem bootstrap_ok_local (s s1 : Model) (hwf : s.wellFormed) (fuel id : Nat) (dha : Bool)
    (h : bootstrap fuel id dha s = Outcome.ok () s1) :
    s1.frame = s.frame ∧ ∀ x, ¬ s.Under id x → s1.get? x = s.get? x := by
  have hl := bootstrap_local s.frame (s.Under id) (under_closed s hwf id) s fuel id dha s rfl
    Model.Under.self (fun _ _ => rfl)
  rw [h] at hl
  exact hl

/-- The same after the reset of `id` that the caller makes first. -/
theorem bootstrap_reset_local (s s1 : Model) (hwf : s.wellFormed) (fuel id : Nat) (dha : Bool)
    (h : bootstrap fuel id dha (s.update id Element.reset) = Outcome.ok () s1) :
    s1.frame = s.frame ∧ ∀ x, ¬ s.Under id x → s1.get? x = s.get? x := by
  have hfr : (s.update id Element.reset).frame = s.frame := frame_update _ _ _ frame_reset
  have hl := bootstrap_local s.frame (s.Under id) (under_closed s hwf id) s fuel id dha
    (s.update id Element.reset) hfr Model.Under.self
    (fun x hx => get?_update_other s id x _ (fun hxi => hx (hxi ▸ Model.Under.self)))
  rw [h] at hl
  exact hl

/-- Objects of different kinds are different objects. -/
theorem ne_of_kind (s : Model) (x y : Nat) (h : (s.elem x).kind ≠ (s.elem y).kind) : x ≠ y :=
  fun e => h (e ▸ rfl)

/-- Objects with different parents are different objects. -/
theorem ne_of_parent (s : Model) (x y : Nat) (h : s.parent x ≠ s.parent y) : x ≠ y :=
  fun e => h (e ▸ rfl)

/-- The parent of an object of the model. -/
theorem parent_elem (s : Model) (x : Nat) (hx : x < s.length) :
    s.parent x = (s.elem x).parent := by
  unfold Model.parent
  rw [get?_elem s x hx]

/-- The objects of the cascade are objects of the model. -/
theorem cascade_get? (s : Model) (sm R I C RC IC F D : Nat)
    (hc : Cascade s sm R I C RC IC F D) :
    s.get? sm = some (s.elem sm) ∧ s.get? R = some (s.elem R) ∧ s.get? I = some (s.elem I) ∧
    s.get? C = some (s.elem C) ∧ s.get? RC = some (s.elem RC) ∧
    s.get? IC = some (s.elem IC) ∧ s.get? F = some (s.elem F) ∧ s.get? D = some (s.elem D) := by
  have h := hc.inModel
  refine ⟨get?_elem s sm (h sm (by simp)), get?_elem s R (h R (by simp)),
    get?_elem s I (h I (by simp)), get?_elem s C (h C (by simp)),
    get?_elem s RC (h RC (by simp)), get?_elem s IC (h IC (by simp)),
    get?_elem s F (h F (by simp)), get?_elem s D (h D (by simp))⟩

/-- The parent of a state is its region. -/
theorem parent_of_isState (e : Element) (h : e.isState = true) : e.parent = e.region := by
  unfold Element.isState at h
  unfold Element.parent
  cases hk : e.kind <;> simp [hk] at h ⊢

/-- The parents of the objects of the cascade. -/
theorem cascade_parents (s : Model) (sm R I C RC IC F D : Nat)
    (hc : Cascade s sm R I C RC IC F D) :
    s.parent sm = none ∧ s.parent R = some sm ∧ s.parent I = some R ∧ s.parent C = some R ∧
    s.parent RC = some C ∧ s.parent IC = some RC ∧ s.parent F = some RC ∧
    s.parent D = some R := by
  have h := hc.inModel
  refine ⟨?_, ?_, ?_, ?_, ?_, ?_, ?_, ?_⟩
  · rw [parent_elem s sm (h sm (by simp))]
    simp only [Element.parent, hc.machine.1, hc.machine.2.1]
  · rw [parent_elem s R (h R (by simp))]
    simp only [Element.parent, hc.rootRegion.1, hc.rootRegion.2.1]
  · rw [parent_elem s I (h I (by simp))]
    simp only [Element.parent, hc.rootInitial.1, hc.rootInitial.2.1]
  · rw [parent_elem s C (h C (by simp))]
    simp only [Element.parent, hc.composite.1, hc.composite.2.1]
  · rw [parent_elem s RC (h RC (by simp))]
    simp only [Element.parent, hc.childRegion.1, hc.childRegion.2.1]
  · rw [parent_elem s IC (h IC (by simp))]
    simp only [Element.parent, hc.childInitial.1, hc.childInitial.2.1]
  · rw [parent_elem s F (h F (by simp))]
    simp only [Element.parent, hc.final.1, hc.final.2.1]
  · rw [parent_elem s D (h D (by simp)), parent_of_isState _ hc.sibling.1]
    exact hc.sibling.2.1

/-- The machine, its region, the composite state and its region are four objects. -/
theorem cascade_spine (s : Model) (sm R I C RC IC F D : Nat)
    (hc : Cascade s sm R I C RC IC F D) :
    sm ≠ R ∧ sm ≠ C ∧ sm ≠ RC ∧ R ≠ C ∧ R ≠ RC ∧ C ≠ RC := by
  have k1 := hc.machine.1
  have k2 := hc.rootRegion.1
  have k3 := hc.composite.1
  have k4 := hc.childRegion.1
  have hp := cascade_parents s sm R I C RC IC F D hc
  have h1 : sm ≠ C := ne_of_kind s _ _ (by rw [k1, k3]; decide)
  refine ⟨ne_of_kind s _ _ (by rw [k1, k2]; decide), h1,
    ne_of_kind s _ _ (by rw [k1, k4]; decide), ne_of_kind s _ _ (by rw [k2, k3]; decide),
    ?_, ne_of_kind s _ _ (by rw [k3, k4]; decide)⟩
  apply ne_of_parent s
  rw [hp.2.1, hp.2.2.2.2.1]
  intro h
  exact h1 (Option.some.inj h)

/-- What lies around the objects of the cascade. -/
theorem cascade_under (s : Model) (sm R I C RC IC F D : Nat)
    (hc : Cascade s sm R I C RC IC F D) (v : Nat) :
    (s.Under v sm → v = sm) ∧
    (s.Under v R → v = R ∨ v = sm) ∧
    (s.Under v I → v = I ∨ v = R ∨ v = sm) ∧
    (s.Under v C → v = C ∨ v = R ∨ v = sm) ∧
    (s.Under v D → v = D ∨ v = R ∨ v = sm) ∧
    (s.Under v RC → v = RC ∨ v = C ∨ v = R ∨ v = sm) ∧
    (s.Under v IC → v = IC ∨ v = RC ∨ v = C ∨ v = R ∨ v = sm) ∧
    (s.Under v F → v = F ∨ v = RC ∨ v = C ∨ v = R ∨ v = sm) := by
  obtain ⟨p1, p2, p3, p4, p5, p6, p7, p8⟩ := cascade_parents s sm R I C RC IC F D hc
  have u1 : s.Under v sm → v = sm := under_root s v sm p1
  have u2 : s.Under v R → v = R ∨ v = sm := fun h =>
    (under_parent s v R sm p2 h).imp id u1
  have u4 : s.Under v C → v = C ∨ v = R ∨ v = sm := fun h =>
    (under_parent s v C R p4 h).imp id u2
  have u5 : s.Under v RC → v = RC ∨ v = C ∨ v = R ∨ v = sm := fun h =>
    (under_parent s v RC C p5 h).imp id u4
  exact ⟨u1, u2, fun h => (under_parent s v I R p3 h).imp id u2, u4,
    fun h => (under_parent s v D R p8 h).imp id u2, u5,
    fun h => (under_parent s v IC RC p6 h).imp id u5,
    fun h => (under_parent s v F RC p7 h).imp id u5⟩

/-- The changed object of an update. -/
theorem elem_update_self (s : Model) (id : Nat) (f : Element → Element) (h : id < s.length) :
    (s.update id f).elem id = f (s.elem id) := by
  unfold Model.elem
  rw [get?_update_self, List.get?_eq_get h]
  rfl

/-- Another object than the changed one. -/
theorem elem_update_other (s : Model) (id x : Nat) (f : Element → Element) (h : x ≠ id) :
    (s.update id f).elem x = s.elem x := by
  unfold Model.elem
  rw [get?_update_other s id x f h]

/-- Objects that are looked up alike are alike. -/
theorem elem_of_get? (s t : Model) (x : Nat) (h : s.get? x = t.get? x) : s.elem x = t.elem x := by
  unfold Model.elem
  rw [h]

/-- A call of the first pass that returns had fuel. -/
theorem bootstrap_fuel (fuel id : Nat) (dha : Bool) (s s1 : Model)
    (h : bootstrap fuel id dha s = Outcome.ok () s1) : ∃ n, fuel = n + 1 := by
  cases fuel with
  | zero => simp [bootstrap] at h
  | succ n => exact ⟨n, rfl⟩

/-- The first pass at a pseudo state. -/
theorem bootstrap_pseudo (n id : Nat) (dha : Bool) (s s1 : Model) (kind : PseudoStateKind)
    (hlt : id < s.length) (hk : (s.elem id).kind = ElementKind.PseudoState kind)
    (h : bootstrap (n + 1) id dha s = Outcome.ok () s1) :
    s1 = s.update id (PseudoState.bootstrap id kind) := by
  rw [bootstrap, get?_elem s id hlt] at h
  simp only [hk, Outcome.ok.injEq, true_and] at h
  exact h.symm

/-- The first pass at an Initial pseudo state that the caller has reset: the `leave`
sequence is empty and the `enter` sequence holds the completion closure. -/
theorem stage_initial (fuel id : Nat) (dha : Bool) (s s1 : Model) (hlt : id < s.length)
    (hk : (s.elem id).kind = ElementKind.PseudoState PseudoStateKind.Initial)
    (h : bootstrap fuel id dha (s.update id Element.reset) = Outcome.ok () s1) :
    (s1.elem id).leave = [] ∧ (s1.elem id).enter = [Action.completions id] := by
  obtain ⟨n, hn⟩ := bootstrap_fuel _ _ _ _ _ h
  subst hn
  have hlt1 : id < (s.update id Element.reset).length := by rw [length_update]; exact hlt
  have hk1 : ((s.update id Element.reset).elem id).kind =
      ElementKind.PseudoState PseudoStateKind.Initial := by
    rw [elem_update_self s id _ hlt]
    exact hk
  rw [bootstrap_pseudo n id dha _ s1 _ hlt1 hk1 h, elem_update_self _ id _ hlt1,
    elem_update_self s id _ hlt]
  exact ⟨rfl, rfl⟩

/-- The first pass at a state without regions. -/
theorem bootstrap_leaf (n id : Nat) (dha : Bool) (s s1 : Model) (hlt : id < s.length)
    (hs : (s.elem id).isState = true) (hr : (s.elem id).regions = [])
    (h : bootstrap (n + 1) id dha s = Outcome.ok () s1) :
    s1 = s.update id (State.bootstrapTail id) := by
  rw [bootstrap, get?_elem s id hlt] at h
  unfold Element.isState at hs
  cases hk : (s.elem id).kind <;> rw [hk] at hs <;>
    simp only [hk, hr, List.foldl_nil, Outcome.bind, Outcome.ok.injEq, true_and,
      Bool.false_eq_true] at h hs
  all_goals exact h.symm

/-- The `leave` sequence that the end of `Region.bootstrap` leaves. -/
theorem regionTail_leave (m : Model) (id : Nat) (dha : Bool) (e : Element) :
    (Region.bootstrapTail m id dha e).leave = e.leave ++ [Action.regionLeave id] := by
  unfold Region.bootstrapTail Element.bootstrap
  cases h : e.initial.bind (fun i => m.get? i) with
  | none => simp only [h]
  | some i =>
    by_cases hc : (dha || i.isHistory) = true
    · simp only [h, if_pos hc]
    · simp only [h, if_neg hc]

/-- In a well-formed model a vertex of a region has the region as its parent. -/
theorem wf_vertex_parent (t : Model) (hwf : t.wellFormed) (r v : Nat) (hr : r < t.length)
    (hk : (t.elem r).kind = ElementKind.Region) (hv : v ∈ (t.elem r).vertices) :
    t.parent v = some r := by
  apply hwf r (t.elem r) (get?_elem t r hr) v
  unfold Element.children
  rw [hk]
  exact hv

/-- In a well-formed model a region of a state has the state as its parent. -/
theorem wf_region_parent (t : Model) (hwf : t.wellFormed) (d r : Nat) (hd : d < t.length)
    (hs : (t.elem d).isState = true) (hr : r ∈ (t.elem d).regions) :
    t.parent r = some d := by
  apply hwf d (t.elem d) (get?_elem t d hd) r
  unfold Element.children
  unfold Element.isState at hs
  cases hk : (t.elem d).kind <;> rw [hk] at hs <;> simp at hs <;> exact hr

/-- A vertex of the region of `C` is above neither that region nor, unless it is one of
them, its Initial pseudo state or its final state. -/
theorem cascade_child_RC (s : Model) (sm R I C RC IC F D : Nat)
    (hc : Cascade s sm R I C RC IC F D) (v : Nat) (hp : s.parent v = some RC) :
    ¬ s.Under v RC ∧ (v ≠ IC → ¬ s.Under v IC) ∧ (v ≠ F → ¬ s.Under v F) := by
  obtain ⟨hpM, hpR, _, hpC, hpRC, _, _, _⟩ := cascade_parents s sm R I C RC IC F D hc
  obtain ⟨h1, h2, h3, h4, h5, h6⟩ := cascade_spine s sm R I C RC IC F D hc
  obtain ⟨_, _, _, _, _, uRC, uIC, uF⟩ := cascade_under s sm R I C RC IC F D hc v
  have e1 : v ≠ RC := by
    intro e; rw [e, hpRC] at hp; exact h6 (Option.some.inj hp)
  have e2 : v ≠ C := by
    intro e; rw [e, hpC] at hp; exact h5 (Option.some.inj hp)
  have e3 : v ≠ R := by
    intro e; rw [e, hpR] at hp; exact h3 (Option.some.inj hp)
  have e4 : v ≠ sm := by
    intro e; rw [e, hpM] at hp; exact Option.noConfusion hp
  refine ⟨?_, ?_, ?_⟩
  · intro u
    rcases uRC u with h | h | h | h
    exacts [e1 h, e2 h, e3 h, e4 h]
  · intro e0 u
    rcases uIC u with h | h | h | h | h
    exacts [e0 h, e1 h, e2 h, e3 h, e4 h]
  · intro e0 u
    rcases uF u with h | h | h | h | h
    exacts [e0 h, e1 h, e2 h, e3 h, e4 h]

/-- A vertex of the root region is above neither the machine nor the region nor, unless it
is one of them, the objects of the cascade. -/
theorem cascade_child_R (s : Model) (sm R I C RC IC F D : Nat)
    (hc : Cascade s sm R I C RC IC F D) (v : Nat) (hp : s.parent v = some R) :
    ¬ s.Under v sm ∧ ¬ s.Under v R ∧ (v ≠ I → ¬ s.Under v I) ∧ (v ≠ D → ¬ s.Under v D) ∧
    (v ≠ C → ¬ s.Under v C ∧ ¬ s.Under v RC ∧ ¬ s.Under v IC ∧ ¬ s.Under v F) := by
  obtain ⟨hpM, hpR, _, hpC, hpRC, hpIC, hpF, _⟩ := cascade_parents s sm R I C RC IC F D hc
  obtain ⟨h1, h2, h3, h4, h5, h6⟩ := cascade_spine s sm R I C RC IC F D hc
  obtain ⟨uM, uR, uI, uC, uD, uRC, uIC, uF⟩ := cascade_under s sm R I C RC IC F D hc v
  have e3 : v ≠ R := by
    intro e; rw [e, hpR] at hp; exact h1 (Option.some.inj hp)
  have e4 : v ≠ sm := by
    intro e; rw [e, hpM] at hp; exact Option.noConfusion hp
  have e5 : v ≠ RC := by
    intro e; rw [e, hpRC] at hp; exact h4 (Option.some.inj hp).symm
  have e6 : v ≠ IC := by
    intro e; rw [e, hpIC] at hp; exact h5 (Option.some.inj hp).symm
  have e7 : v ≠ F := by
    intro e; rw [e, hpF] at hp; exact h5 (Option.some.inj hp).symm
  refine ⟨?_, ?_, ?_, ?_, ?_⟩
  · intro u
    exact e4 (uM u)
  · intro u
    rcases uR u with h | h
    exacts [e3 h, e4 h]
  · intro e0 u
    rcases uI u with h | h | h
    exacts [e0 h, e3 h, e4 h]
  · intro e0 u
    rcases uD u with h | h | h
    exacts [e0 h, e3 h, e4 h]
  · intro e0
    refine ⟨?_, ?_, ?_, ?_⟩
    · intro u
      rcases uC u with h | h | h
      exacts [e0 h, e3 h, e4 h]
    · intro u
      rcases uRC u with h | h | h | h
      exacts [e5 h, e0 h, e3 h, e4 h]
    · intro u
      rcases uIC u with h | h | h | h | h
      exacts [e6 h, e5 h, e0 h, e3 h, e4 h]
    · intro u
      rcases uF u with h | h | h | h | h
      exacts [e7 h, e5 h, e0 h, e3 h, e4 h]

/-- The first pass at a region: the loop over its vertices, then the end of
`Region.bootstrap`. -/
theorem bootstrap_region (n id : Nat) (dha : Bool) (s s1 : Model) (hlt : id < s.length)
    (hk : (s.elem id).kind = ElementKind.Region)
    (h : bootstrap (n + 1) id dha s = Outcome.ok () s1) :
    ∃ deep sV,
      deep = (match (s.elem id).initial.bind (fun i => s.get? i) with
        | some i => i.isDeepHistory
        | none => false) ∧
      (s.elem id).vertices.foldl
        (fun acc v => acc.bind (fun _ t =>
          (fun v t => bootstrap n v (dha || deep) (t.update v Element.reset)) v t))
        (Outcome.ok () s) = Outcome.ok () sV ∧
      s1 = sV.update id (Region.bootstrapTail sV id dha) := by
  rw [bootstrap, get?_elem s id hlt] at h
  simp only [hk] at h
  obtain ⟨_, sV, hfold, htail⟩ := bind_ok _ _ _ _ h
  refine ⟨_, sV, rfl, hfold, ?_⟩
  simp only [Outcome.ok.injEq, true_and] at htail
  exact htail.symm

/-- The first pass at a state: the loop over its regions, then the end of
`State.bootstrap`. -/
theorem bootstrap_state (n id : Nat) (dha : Bool) (s s1 : Model) (hlt : id < s.length)
    (hs : (s.elem id).isState = true)
    (h : bootstrap (n + 1) id dha s = Outcome.ok () s1) :
    ∃ sV,
      (s.elem id).regions.foldl
        (fun acc r => acc.bind (fun _ t =>
          (fun r t => (bootstrap n r dha (t.update r Element.reset)).bind (fun _ m2 =>
            Outcome.ok () (m2.update id (fun e =>
              { e with
                leave := e.leave ++
                  [Action.invokeLeave ((s.elem id).regions.getLast?.getD r)],
                endEnter := e.endEnter ++
                  (match m2.get? r with
                   | some re => re.enter
                   | none => []) })))) r t))
        (Outcome.ok () s) = Outcome.ok () sV ∧
      s1 = sV.update id (State.bootstrapTail id) := by
  rw [bootstrap, get?_elem s id hlt] at h
  unfold Element.isState at hs
  cases hk : (s.elem id).kind <;> rw [hk] at hs <;>
    simp only [hk, Bool.false_eq_true] at h hs
  all_goals
    obtain ⟨_, sV, hfold, htail⟩ := bind_ok _ _ _ _ h
    refine ⟨sV, hfold, ?_⟩
    simp only [Outcome.ok.injEq, true_and] at htail
    exact htail.symm

/-- The first pass at a state without regions that the caller has reset, in terms of the
result alone. -/
theorem stage_leaf_enters (fuel id : Nat) (dha : Bool) (s s1 : Model) (hlt : id < s.length)
    (hs : (s.elem id).isState = true) (hr : (s.elem id).regions = [])
    (h : bootstrap fuel id dha (s.update id Element.reset) = Outcome.ok () s1) :
    EntersLeaf s1 id := by
  obtain ⟨n, hn⟩ := bootstrap_fuel _ _ _ _ _ h
  subst hn
  have hlt1 : id < (s.update id Element.reset).length := by rw [length_update]; exact hlt
  have he : (s.update id Element.reset).elem id = Element.reset (s.elem id) :=
    elem_update_self s id _ hlt
  unfold EntersLeaf
  rw [bootstrap_leaf n id dha _ s1 hlt1 (by rw [he]; exact hs) (by rw [he]; exact hr) h,
    elem_update_self _ id _ hlt1, he]
  constructor
  · simp [State.bootstrapTail, Vertex.bootstrap, Element.bootstrap, Element.reset]
  · simp [State.bootstrapTail, Vertex.bootstrap, Element.bootstrap, Element.reset]

/-- The first pass at the region of `C`, for the model of the cascade. -/
theorem stage_child_region (s s1 : Model) (sm R I C RC IC F D fuel : Nat)
    (hc : Cascade s sm R I C RC IC F D)
    (h : bootstrap fuel RC false (s.update RC Element.reset) = Outcome.ok () s1) :
    EntersRegion s1 RC IC ∧ EntersInitial s1 IC ∧ EntersLeaf s1 F := by
  obtain ⟨n, hn⟩ := bootstrap_fuel _ _ _ _ _ h
  subst hn
  have hltRC : RC < s.length := hc.inModel RC (by simp)
  have hc0 : Cascade (s.update RC Element.reset) sm R I C RC IC F D :=
    cascade_of_shape _ _ _ _ _ _ _ _ _ _ (shape_update s RC _ (fun _ => rfl)) hc
  have hreset : (s.update RC Element.reset).elem RC = Element.reset (s.elem RC) :=
    elem_update_self s RC _ hltRC
  generalize s.update RC Element.reset = s0 at h hc0 hreset
  obtain ⟨_, _, _, _, gRC, gIC, gF, _⟩ := cascade_get? s0 _ _ _ _ _ _ _ _ hc0
  obtain ⟨deep, sV, hdeep, hfold, htail⟩ :=
    bootstrap_region n RC false s0 s1 (hc0.inModel RC (by simp)) hc0.childRegion.1 h
  have hd : deep = false := by
    rw [hdeep, hc0.childRegion.2.2.1]
    simp only [Option.bind, gIC]
    unfold Element.isDeepHistory
    rw [hc0.childInitial.1]
  subst hd
  -- what the loop keeps
  have hinv : ∀ v ∈ (s0.elem RC).vertices, ∀ t t1 : Model,
      (Cascade t sm R I C RC IC F D ∧ t.get? RC = s0.get? RC) →
      (fun v t => bootstrap n v (false || false) (t.update v Element.reset)) v t =
        Outcome.ok () t1 →
      (Cascade t1 sm R I C RC IC F D ∧ t1.get? RC = s0.get? RC) ∧
      (v ≠ IC → t1.get? IC = t.get? IC) ∧ (v ≠ F → t1.get? F = t.get? F) := by
    intro v hv t t1 ht hg
    obtain ⟨hfr, hloc⟩ := bootstrap_reset_local t t1 ht.1.wellFormed n v _ hg
    have hv1 : v ∈ (t.elem RC).vertices := by
      rw [elem_of_get? t s0 RC ht.2]; exact hv
    have hp : t.parent v = some RC :=
      wf_vertex_parent t ht.1.wellFormed RC v (ht.1.inModel RC (by simp)) ht.1.childRegion.1 hv1
    obtain ⟨n1, n2, n3⟩ := cascade_child_RC t _ _ _ _ _ _ _ _ ht.1 v hp
    refine ⟨⟨cascade_of_shape _ _ _ _ _ _ _ _ _ _ (shape_of_frame _ _ hfr) ht.1, ?_⟩, ?_, ?_⟩
    · rw [hloc RC n1]; exact ht.2
    · intro e; exact hloc IC (n2 e)
    · intro e; exact hloc F (n3 e)
  have hV := foldl_invariant
    (fun v t => bootstrap n v (false || false) (t.update v Element.reset))
    (fun t => Cascade t sm R I C RC IC F D ∧ t.get? RC = s0.get? RC)
    (s0.elem RC).vertices (fun v hv t t1 ht hg => (hinv v hv t t1 ht hg).1)
    s0 sV ⟨hc0, rfl⟩ hfold
  have hIC := foldl_establish
    (fun v t => bootstrap n v (false || false) (t.update v Element.reset))
    (fun t => Cascade t sm R I C RC IC F D ∧ t.get? RC = s0.get? RC)
    (fun t => EntersInitial t IC) IC
    (s0.elem RC).vertices hc0.childRegion.2.2.2.1
    (fun v hv t t1 ht hg => (hinv v hv t t1 ht hg).1)
    (fun t t1 ht hg => stage_initial _ IC _ t t1 (ht.1.inModel IC (by simp))
      ht.1.childInitial.1 hg)
    (fun v hv t t1 ht hq hg => by
      by_cases e : v = IC
      · subst e
        exact stage_initial _ v _ t t1 (ht.1.inModel v (by simp)) ht.1.childInitial.1 hg
      · have hq1 : EntersInitial t IC := hq
        show EntersInitial t1 IC
        unfold EntersInitial at hq1 ⊢
        rw [elem_of_get? t1 t IC ((hinv v hv t t1 ht hg).2.1 e)]
        exact hq1)
    s0 sV ⟨hc0, rfl⟩ hfold
  have hF := foldl_establish
    (fun v t => bootstrap n v (false || false) (t.update v Element.reset))
    (fun t => Cascade t sm R I C RC IC F D ∧ t.get? RC = s0.get? RC)
    (fun t => EntersLeaf t F) F
    (s0.elem RC).vertices hc0.childRegion.2.2.2.2
    (fun v hv t t1 ht hg => (hinv v hv t t1 ht hg).1)
    (fun t t1 ht hg => stage_leaf_enters _ F _ t t1 (ht.1.inModel F (by simp))
      (by unfold Element.isState; rw [ht.1.final.1]) ht.1.final.2.2.1 hg)
    (fun v hv t t1 ht hq hg => by
      by_cases e : v = F
      · subst e
        exact stage_leaf_enters _ v _ t t1 (ht.1.inModel v (by simp))
          (by unfold Element.isState; rw [ht.1.final.1]) ht.1.final.2.2.1 hg
      · have hq1 : EntersLeaf t F := hq
        show EntersLeaf t1 F
        unfold EntersLeaf at hq1 ⊢
        rw [elem_of_get? t1 t F ((hinv v hv t t1 ht hg).2.2 e)]
        exact hq1)
    s0 sV ⟨hc0, rfl⟩ hfold
  -- the end of Region.bootstrap
  have hltV : RC < sV.length := hV.1.inModel RC (by simp)
  have hRCV : sV.elem RC = Element.reset (s.elem RC) := by
    rw [elem_of_get? sV s0 RC hV.2]; exact hreset
  have hneIC : IC ≠ RC := ne_of_kind sV IC RC (by
    rw [hV.1.childInitial.1, hV.1.childRegion.1]; intro hh; cases hh)
  have hneF : F ≠ RC := ne_of_kind sV F RC (by
    rw [hV.1.final.1, hV.1.childRegion.1]; intro hh; cases hh)
  subst htail
  refine ⟨?_, ?_, ?_⟩
  · unfold EntersRegion
    rw [elem_update_self sV RC _ hltV, regionTail_leave, regionTail_enter, hRCV]
    obtain ⟨_, _, _, _, _, gICV, _, _⟩ := cascade_get? sV _ _ _ _ _ _ _ _ hV.1
    have hini : (Element.reset (s.elem RC)).initial = some IC := hc.childRegion.2.2.1
    have hhist : (sV.elem IC).isHistory = false := by
      unfold Element.isHistory; rw [hV.1.childInitial.1]
    simp only [hini, Option.bind, gICV, hhist, Bool.or_false]
    exact ⟨rfl, by simp [Element.reset, hIC.2]⟩
  · unfold EntersInitial
    rw [elem_update_other sV RC IC _ hneIC]
    exact hIC
  · unfold EntersLeaf
    rw [elem_update_other sV RC F _ hneF]
    exact hF

/-- The sequences of the cascade are those of the four objects. -/
theorem entersCascade_congr (t t1 : Model) (c r i f : Nat) (hc : t1.elem c = t.elem c)
    (hr : t1.elem r = t.elem r) (hi : t1.elem i = t.elem i) (hf : t1.elem f = t.elem f)
    (h : EntersCascade t c r i f) : EntersCascade t1 c r i f := by
  unfold EntersCascade EntersComposite EntersRegion EntersInitial EntersLeaf at h ⊢
  rw [hc, hr, hi, hf]
  exact h

/-- The first pass at the composite state `C`, for the model of the cascade. -/
theorem stage_composite (s s1 : Model) (sm R I C RC IC F D fuel : Nat)
    (hc : Cascade s sm R I C RC IC F D)
    (h : bootstrap fuel C false (s.update C Element.reset) = Outcome.ok () s1) :
    EntersCascade s1 C RC IC F := by
  obtain ⟨n, hn⟩ := bootstrap_fuel _ _ _ _ _ h
  subst hn
  have hltC : C < s.length := hc.inModel C (by simp)
  have hc0 : Cascade (s.update C Element.reset) sm R I C RC IC F D :=
    cascade_of_shape _ _ _ _ _ _ _ _ _ _ (shape_update s C _ (fun _ => rfl)) hc
  have hreset : (s.update C Element.reset).elem C = Element.reset (s.elem C) :=
    elem_update_self s C _ hltC
  generalize s.update C Element.reset = s0 at h hc0 hreset
  have hst : (s0.elem C).isState = true := by
    unfold Element.isState; rw [hc0.composite.1]
  obtain ⟨sV, hfold, htail⟩ := bootstrap_state n C false s0 s1 (hc0.inModel C (by simp)) hst h
  rw [hc0.composite.2.2.1] at hfold
  obtain ⟨_, m2, hb, hupd⟩ := bind_ok _ _ _ _ hfold
  simp only [Outcome.ok.injEq, true_and] at hupd
  obtain ⟨hRC, hIC, hF⟩ := stage_child_region s0 m2 sm R I C RC IC F D n hc0 hb
  obtain ⟨hfr, hloc⟩ := bootstrap_reset_local s0 m2 hc0.wellFormed n RC false hb
  have hc2 : Cascade m2 sm R I C RC IC F D :=
    cascade_of_shape _ _ _ _ _ _ _ _ _ _ (shape_of_frame _ _ hfr) hc0
  obtain ⟨h1, h2, h3, h4, h5, h6⟩ := cascade_spine s0 sm R I C RC IC F D hc0
  obtain ⟨_, _, _, uC, _, _, _, _⟩ := cascade_under s0 sm R I C RC IC F D hc0 RC
  have hnu : ¬ s0.Under RC C := by
    intro u
    rcases uC u with e | e | e
    exacts [h6 e.symm, h5 e.symm, h3 e.symm]
  have hC2 : m2.elem C = Element.reset (s.elem C) := by
    rw [elem_of_get? m2 s0 C (hloc C hnu)]; exact hreset
  obtain ⟨_, _, _, _, gRC2, _, _, _⟩ := cascade_get? m2 _ _ _ _ _ _ _ _ hc2
  have hneRC : RC ≠ C := fun e => h6 e.symm
  have hneIC : IC ≠ C := ne_of_kind m2 IC C (by
    rw [hc2.childInitial.1, hc2.composite.1]; intro hh; cases hh)
  have hneF : F ≠ C := ne_of_kind m2 F C (by
    rw [hc2.final.1, hc2.composite.1]; intro hh; cases hh)
  have hltC2 : C < m2.length := hc2.inModel C (by simp)
  subst htail
  subst hupd
  unfold EntersCascade
  refine ⟨?_, ?_, ?_, ?_⟩
  · unfold EntersComposite
    rw [elem_update_self _ C _ (by rw [length_update]; exact hltC2),
      elem_update_self _ C _ hltC2, hC2, gRC2]
    simp [State.bootstrapTail, Vertex.bootstrap, Element.bootstrap, Element.reset, hRC.2]
  · unfold EntersRegion
    rw [elem_update_other _ C RC _ hneRC, elem_update_other _ C RC _ hneRC]
    exact hRC
  · unfold EntersInitial
    rw [elem_update_other _ C IC _ hneIC, elem_update_other _ C IC _ hneIC]
    exact hIC
  · unfold EntersLeaf
    rw [elem_update_other _ C F _ hneF, elem_update_other _ C F _ hneF]
    exact hF

/-- Objects of one shape have the same regions and behaviours. -/
theorem shape_fields (a b : Element) (h : a.shape = b.shape) :
    a.regions = b.regions ∧ a.vertices = b.vertices ∧ a.entryBehavior = b.entryBehavior ∧
    a.exitBehavior = b.exitBehavior := by
  have h1 : a.shape.regions = b.shape.regions := by rw [h]
  have h2 : a.shape.vertices = b.shape.vertices := by rw [h]
  have h3 : a.shape.entryBehavior = b.shape.entryBehavior := by rw [h]
  have h4 : a.shape.exitBehavior = b.shape.exitBehavior := by rw [h]
  exact ⟨h1, h2, h3, h4⟩

/-- A region of the sibling `D` is not above `D`. -/
theorem cascade_child_D (s : Model) (sm R I C RC IC F D : Nat)
    (hc : Cascade s sm R I C RC IC F D) (v : Nat) (hp : s.parent v = some D) :
    ¬ s.Under v D := by
  obtain ⟨hpM, hpR, _, _, _, _, _, hpD⟩ := cascade_parents s sm R I C RC IC F D hc
  obtain ⟨_, _, _, _, uD, _, _, _⟩ := cascade_under s sm R I C RC IC F D hc v
  have hk : (s.elem R).kind ≠ (s.elem D).kind := by
    intro e
    have hs := hc.sibling.1
    unfold Element.isState at hs
    rw [← e, hc.rootRegion.1] at hs
    simp at hs
  intro u
  rcases uD u with e | e | e
  · rw [e, hpD] at hp
    exact ne_of_kind s R D hk (Option.some.inj hp)
  · rw [e, hpR] at hp
    have : sm = D := Option.some.inj hp
    rw [this, hpD] at hpM
    exact Option.noConfusion hpM
  · rw [e, hpM] at hp
    exact Option.noConfusion hp

/-- The first pass at the sibling `D`, whatever there is below it. -/
theorem stage_sibling (s s1 : Model) (sm R I C RC IC F D fuel : Nat)
    (hc : Cascade s sm R I C RC IC F D)
    (h : bootstrap fuel D false (s.update D Element.reset) = Outcome.ok () s1) :
    EntersState s1 D := by
  obtain ⟨n, hn⟩ := bootstrap_fuel _ _ _ _ _ h
  subst hn
  have hltD : D < s.length := hc.inModel D (by simp)
  have hc0 : Cascade (s.update D Element.reset) sm R I C RC IC F D :=
    cascade_of_shape _ _ _ _ _ _ _ _ _ _ (shape_update s D _ (fun _ => rfl)) hc
  have hreset : (s.update D Element.reset).elem D = Element.reset (s.elem D) :=
    elem_update_self s D _ hltD
  generalize s.update D Element.reset = s0 at h hc0 hreset
  obtain ⟨sV, hfold, htail⟩ :=
    bootstrap_state n D false s0 s1 (hc0.inModel D (by simp)) hc0.sibling.1 h
  have hV : (fun t : Model => Cascade t sm R I C RC IC F D ∧ t.shape = s0.shape ∧
      (t.elem D).beginEnter = []) sV := by
    refine foldl_invariant _ (fun t : Model => Cascade t sm R I C RC IC F D ∧
      t.shape = s0.shape ∧ (t.elem D).beginEnter = []) (s0.elem D).regions ?_ s0 sV
      ⟨hc0, rfl, ?_⟩ hfold
    · intro r hr t t1 ht hg
      obtain ⟨_, m2, hb, hupd⟩ := bind_ok _ _ _ _ hg
      simp only [Outcome.ok.injEq, true_and] at hupd
      obtain ⟨hfr, hloc⟩ := bootstrap_reset_local t m2 ht.1.wellFormed n r false hb
      have hr1 : r ∈ (t.elem D).regions := by
        rw [(shape_fields _ _ (shape_elem t s0 ht.2.1 D)).1]; exact hr
      have hp : t.parent r = some D :=
        wf_region_parent t ht.1.wellFormed D r (ht.1.inModel D (by simp)) ht.1.sibling.1 hr1
      have hnu := cascade_child_D t _ _ _ _ _ _ _ _ ht.1 r hp
      have hsh2 : m2.shape = s0.shape := by
        rw [shape_of_frame _ _ hfr]; exact ht.2.1
      have hc2 : Cascade m2 sm R I C RC IC F D :=
        cascade_of_shape _ _ _ _ _ _ _ _ _ _ (shape_of_frame _ _ hfr) ht.1
      subst hupd
      have hsh1 : ∀ f : Element → Element, (∀ e, (f e).shape = e.shape) →
          (m2.update D f).shape = s0.shape := by
        intro f hf
        rw [shape_update m2 D f hf]; exact hsh2
      refine ⟨cascade_of_shape _ _ _ _ _ _ _ _ _ _ (shape_update m2 D _ (fun _ => rfl)) hc2,
        hsh1 _ (fun _ => rfl), ?_⟩
      rw [elem_update_self m2 D _ (hc2.inModel D (by simp)), elem_of_get? m2 t D (hloc D hnu)]
      exact ht.2.2
    · rw [hreset]; rfl
  subst htail
  unfold EntersState
  rw [elem_update_self sV D _ (hV.1.inModel D (by simp))]
  obtain ⟨hb, he⟩ := stateTail_enter D (sV.elem D)
  refine ⟨?_, ?_⟩
  · rw [he, hb, hV.2.2]
    simp [State.bootstrapTail, Vertex.bootstrap, Element.bootstrap]
  · intro hregs
    have hregs0 : (s0.elem D).regions = [] := by
      rw [← (shape_fields _ _ (shape_elem sV s0 hV.2.1 D)).1]
      exact hregs
    rw [hregs0] at hfold
    simp only [List.foldl_nil, Outcome.ok.injEq, true_and] at hfold
    rw [← hfold, hreset]
    simp [State.bootstrapTail, Vertex.bootstrap, Element.bootstrap, Element.reset]

/-- The first pass at the root region, for the model of the cascade. -/
theorem stage_root_region (s s1 : Model) (sm R I C RC IC F D fuel : Nat)
    (hc : Cascade s sm R I C RC IC F D)
    (h : bootstrap fuel R false (s.update R Element.reset) = Outcome.ok () s1) :
    (s1.elem R).enter = [Action.completions I] ∧ EntersInitial s1 I ∧
    EntersCascade s1 C RC IC F ∧ EntersState s1 D := by
  obtain ⟨n, hn⟩ := bootstrap_fuel _ _ _ _ _ h
  subst hn
  have hltR : R < s.length := hc.inModel R (by simp)
  have hc0 : Cascade (s.update R Element.reset) sm R I C RC IC F D :=
    cascade_of_shape _ _ _ _ _ _ _ _ _ _ (shape_update s R _ (fun _ => rfl)) hc
  have hreset : (s.update R Element.reset).elem R = Element.reset (s.elem R) :=
    elem_update_self s R _ hltR
  generalize s.update R Element.reset = s0 at h hc0 hreset
  obtain ⟨_, _, gI, _, _, _, _, _⟩ := cascade_get? s0 _ _ _ _ _ _ _ _ hc0
  obtain ⟨deep, sV, hdeep, hfold, htail⟩ :=
    bootstrap_region n R false s0 s1 (hc0.inModel R (by simp)) hc0.rootRegion.1 h
  have hd : deep = false := by
    rw [hdeep, hc0.rootRegion.2.2.1]
    simp only [Option.bind, gI]
    unfold Element.isDeepHistory
    rw [hc0.rootInitial.1]
  subst hd
  have hinv : ∀ v ∈ (s0.elem R).vertices, ∀ t t1 : Model,
      (Cascade t sm R I C RC IC F D ∧ t.get? R = s0.get? R) →
      (fun v t => bootstrap n v (false || false) (t.update v Element.reset)) v t =
        Outcome.ok () t1 →
      (Cascade t1 sm R I C RC IC F D ∧ t1.get? R = s0.get? R) ∧
      (v ≠ I → t1.elem I = t.elem I) ∧ (v ≠ D → t1.elem D = t.elem D) ∧
      (v ≠ C → t1.elem C = t.elem C ∧ t1.elem RC = t.elem RC ∧ t1.elem IC = t.elem IC ∧
        t1.elem F = t.elem F) := by
    intro v hv t t1 ht hg
    obtain ⟨hfr, hloc⟩ := bootstrap_reset_local t t1 ht.1.wellFormed n v _ hg
    have hv1 : v ∈ (t.elem R).vertices := by
      rw [elem_of_get? t s0 R ht.2]; exact hv
    have hp : t.parent v = some R :=
      wf_vertex_parent t ht.1.wellFormed R v (ht.1.inModel R (by simp)) ht.1.rootRegion.1 hv1
    obtain ⟨_, n2, n3, n4, n5⟩ := cascade_child_R t _ _ _ _ _ _ _ _ ht.1 v hp
    refine ⟨⟨cascade_of_shape _ _ _ _ _ _ _ _ _ _ (shape_of_frame _ _ hfr) ht.1, ?_⟩,
      ?_, ?_, ?_⟩
    · rw [hloc R n2]; exact ht.2
    · intro e; exact elem_of_get? _ _ _ (hloc I (n3 e))
    · intro e; exact elem_of_get? _ _ _ (hloc D (n4 e))
    · intro e
      obtain ⟨a, b, c, d⟩ := n5 e
      exact ⟨elem_of_get? _ _ _ (hloc C a), elem_of_get? _ _ _ (hloc RC b),
        elem_of_get? _ _ _ (hloc IC c), elem_of_get? _ _ _ (hloc F d)⟩
  have hV := foldl_invariant
    (fun v t => bootstrap n v (false || false) (t.update v Element.reset))
    (fun t => Cascade t sm R I C RC IC F D ∧ t.get? R = s0.get? R)
    (s0.elem R).vertices (fun v hv t t1 ht hg => (hinv v hv t t1 ht hg).1)
    s0 sV ⟨hc0, rfl⟩ hfold
  have hI := foldl_establish
    (fun v t => bootstrap n v (false || false) (t.update v Element.reset))
    (fun t => Cascade t sm R I C RC IC F D ∧ t.get? R = s0.get? R)
    (fun t => EntersInitial t I) I
    (s0.elem R).vertices hc0.rootRegion.2.2.2.1
    (fun v hv t t1 ht hg => (hinv v hv t t1 ht hg).1)
    (fun t t1 ht hg => stage_initial _ I _ t t1 (ht.1.inModel I (by simp))
      ht.1.rootInitial.1 hg)
    (fun v hv t t1 ht hq hg => by
      by_cases e : v = I
      · subst e
        exact stage_initial _ v _ t t1 (ht.1.inModel v (by simp)) ht.1.rootInitial.1 hg
      · have hq1 : EntersInitial t I := hq
        show EntersInitial t1 I
        unfold EntersInitial at hq1 ⊢
        rw [(hinv v hv t t1 ht hg).2.1 e]
        exact hq1)
    s0 sV ⟨hc0, rfl⟩ hfold
  have hC := foldl_establish
    (fun v t => bootstrap n v (false || false) (t.update v Element.reset))
    (fun t => Cascade t sm R I C RC IC F D ∧ t.get? R = s0.get? R)
    (fun t => EntersCascade t C RC IC F) C
    (s0.elem R).vertices hc0.rootRegion.2.2.2.2.1
    (fun v hv t t1 ht hg => (hinv v hv t t1 ht hg).1)
    (fun t t1 ht hg => stage_composite t t1 sm R I C RC IC F D _ ht.1 hg)
    (fun v hv t t1 ht hq hg => by
      by_cases e : v = C
      · subst e
        exact stage_composite t t1 sm R I v RC IC F D _ ht.1 hg
      · obtain ⟨a, b, c, d⟩ := (hinv v hv t t1 ht hg).2.2.2 e
        exact entersCascade_congr t t1 C RC IC F a b c d hq)
    s0 sV ⟨hc0, rfl⟩ hfold
  have hD := foldl_establish
    (fun v t => bootstrap n v (false || false) (t.update v Element.reset))
    (fun t => Cascade t sm R I C RC IC F D ∧ t.get? R = s0.get? R)
    (fun t => EntersState t D) D
    (s0.elem R).vertices hc0.rootRegion.2.2.2.2.2
    (fun v hv t t1 ht hg => (hinv v hv t t1 ht hg).1)
    (fun t t1 ht hg => stage_sibling t t1 sm R I C RC IC F D _ ht.1 hg)
    (fun v hv t t1 ht hq hg => by
      by_cases e : v = D
      · subst e
        exact stage_sibling t t1 sm R I C RC IC F v _ ht.1 hg
      · have hq1 : EntersState t D := hq
        show EntersState t1 D
        unfold EntersState at hq1 ⊢
        rw [(hinv v hv t t1 ht hg).2.2.1 e]
        exact hq1)
    s0 sV ⟨hc0, rfl⟩ hfold
  -- the end of Region.bootstrap
  have hcV := hV.1
  have hltV : R < sV.length := hcV.inModel R (by simp)
  have hRV : sV.elem R = Element.reset (s.elem R) := by
    rw [elem_of_get? sV s0 R hV.2]; exact hreset
  obtain ⟨h1, h2, h3, h4, h5, h6⟩ := cascade_spine sV sm R I C RC IC F D hcV
  have kR := hcV.rootRegion.1
  have hneI : I ≠ R := ne_of_kind sV I R (by
    rw [hcV.rootInitial.1, kR]; intro hh; cases hh)
  have hneIC : IC ≠ R := ne_of_kind sV IC R (by
    rw [hcV.childInitial.1, kR]; intro hh; cases hh)
  have hneF : F ≠ R := ne_of_kind sV F R (by
    rw [hcV.final.1, kR]; intro hh; cases hh)
  have hneD : D ≠ R := ne_of_kind sV D R (by
    intro e
    have hs := hcV.sibling.1
    unfold Element.isState at hs
    rw [e, kR] at hs
    simp at hs)
  subst htail
  refine ⟨?_, ?_, ?_, ?_⟩
  · rw [elem_update_self sV R _ hltV, regionTail_enter, hRV]
    obtain ⟨_, _, gIV, _, _, _, _, _⟩ := cascade_get? sV _ _ _ _ _ _ _ _ hcV
    have hini : (Element.reset (s.elem R)).initial = some I := hc.rootRegion.2.2.1
    have hhist : (sV.elem I).isHistory = false := by
      unfold Element.isHistory; rw [hcV.rootInitial.1]
    simp only [hini, Option.bind, gIV, hhist, Bool.or_false]
    simp [Element.reset, hI.2]
  · unfold EntersInitial
    rw [elem_update_other sV R I _ hneI]
    exact hI
  · exact entersCascade_congr sV _ C RC IC F
      (elem_update_other sV R C _ (fun e => h4 e.symm))
      (elem_update_other sV R RC _ (fun e => h5 e.symm))
      (elem_update_other sV R IC _ hneIC) (elem_update_other sV R F _ hneF) hC
  · unfold EntersState
    rw [elem_update_other sV R D _ hneD]
    exact hD

/-- The first pass of `StateMachine.bootstrap`, for the model of the cascade. -/
theorem stage_machine (s s1 : Model) (sm R I C RC IC F D fuel : Nat)
    (hc : Cascade s sm R I C RC IC F D)
    (h : bootstrap fuel sm false
      (s.update sm (fun e => { Element.reset e with clean := true })) = Outcome.ok () s1) :
    Cascade s1 sm R I C RC IC F D ∧ (s1.elem sm).clean = true ∧
    (s1.elem sm).enter = (s1.elem sm).entryBehavior ++
      [Action.setCurrent sm, Action.completions I, Action.completions sm] ∧
    EntersInitial s1 I ∧ EntersCascade s1 C RC IC F ∧ EntersState s1 D := by
  obtain ⟨n, hn⟩ := bootstrap_fuel _ _ _ _ _ h
  subst hn
  have hltM : sm < s.length := hc.inModel sm (by simp)
  have hc0 : Cascade (s.update sm (fun e => { Element.reset e with clean := true }))
      sm R I C RC IC F D :=
    cascade_of_shape _ _ _ _ _ _ _ _ _ _ (shape_update s sm _ (fun _ => rfl)) hc
  have hreset : (s.update sm (fun e => { Element.reset e with clean := true })).elem sm =
      { Element.reset (s.elem sm) with clean := true } :=
    elem_update_self s sm _ hltM
  generalize s.update sm (fun e => { Element.reset e with clean := true }) = s0
    at h hc0 hreset
  have hst : (s0.elem sm).isState = true := by
    unfold Element.isState; rw [hc0.machine.1]
  obtain ⟨hfr1, _⟩ := bootstrap_ok_local s0 s1 hc0.wellFormed (n + 1) sm false h
  have hc1 : Cascade s1 sm R I C RC IC F D :=
    cascade_of_shape _ _ _ _ _ _ _ _ _ _ (shape_of_frame _ _ hfr1) hc0
  obtain ⟨sV, hfold, htail⟩ := bootstrap_state n sm false s0 s1 (hc0.inModel sm (by simp)) hst h
  rw [hc0.machine.2.2.1] at hfold
  obtain ⟨_, m2, hb, hupd⟩ := bind_ok _ _ _ _ hfold
  simp only [Outcome.ok.injEq, true_and] at hupd
  obtain ⟨hR, hI, hC, hD⟩ := stage_root_region s0 m2 sm R I C RC IC F D n hc0 hb
  obtain ⟨hfr, hloc⟩ := bootstrap_reset_local s0 m2 hc0.wellFormed n R false hb
  have hc2 : Cascade m2 sm R I C RC IC F D :=
    cascade_of_shape _ _ _ _ _ _ _ _ _ _ (shape_of_frame _ _ hfr) hc0
  obtain ⟨h1, h2, h3, h4, h5, h6⟩ := cascade_spine s0 sm R I C RC IC F D hc0
  obtain ⟨uM, _, _, _, _, _, _, _⟩ := cascade_under s0 sm R I C RC IC F D hc0 R
  have hnu : ¬ s0.Under R sm := fun u => h1 (uM u).symm
  have hM2 : m2.elem sm = { Element.reset (s.elem sm) with clean := true } := by
    rw [elem_of_get? m2 s0 sm (hloc sm hnu)]; exact hreset
  obtain ⟨_, gR2, _, _, _, _, _, _⟩ := cascade_get? m2 _ _ _ _ _ _ _ _ hc2
  have kM := hc2.machine.1
  have hneI : I ≠ sm := ne_of_kind m2 I sm (by
    rw [hc2.rootInitial.1, kM]; intro hh; cases hh)
  have hneIC : IC ≠ sm := ne_of_kind m2 IC sm (by
    rw [hc2.childInitial.1, kM]; intro hh; cases hh)
  have hneF : F ≠ sm := ne_of_kind m2 F sm (by
    rw [hc2.final.1, kM]; intro hh; cases hh)
  have hneD : D ≠ sm := ne_of_parent m2 D sm (by
    obtain ⟨pM, _, _, _, _, _, _, pD⟩ := cascade_parents m2 sm R I C RC IC F D hc2
    rw [pM, pD]; intro hh; cases hh)
  have hltM2 : sm < m2.length := hc2.inModel sm (by simp)
  subst htail
  subst hupd
  refine ⟨hc1, ?_, ?_, ?_, ?_, ?_⟩
  · rw [elem_update_self _ sm _ (by rw [length_update]; exact hltM2),
      elem_update_self _ sm _ hltM2, hM2]
    rfl
  · rw [elem_update_self _ sm _ (by rw [length_update]; exact hltM2),
      elem_update_self _ sm _ hltM2, hM2, gR2]
    simp [State.bootstrapTail, Vertex.bootstrap, Element.bootstrap, Element.reset, hR]
  · unfold EntersInitial
    rw [elem_update_other _ sm I _ hneI, elem_update_other _ sm I _ hneI]
    exact hI
  · refine entersCascade_congr m2 _ C RC IC F ?_ ?_ ?_ ?_ hC
    · rw [elem_update_other _ sm C _ (fun e => h2 e.symm),
        elem_update_other _ sm C _ (fun e => h2 e.symm)]
    · rw [elem_update_other _ sm RC _ (fun e => h3 e.symm),
        elem_update_other _ sm RC _ (fun e => h3 e.symm)]
    · rw [elem_update_other _ sm IC _ hneIC, elem_update_other _ sm IC _ hneIC]
    · rw [elem_update_other _ sm F _ hneF, elem_update_other _ sm F _ hneF]
  · unfold EntersState
    rw [elem_update_other _ sm D _ hneD, elem_update_other _ sm D _ hneD]
    exact hD

/-- The loop over the transitions of a vertex changes the transitions of that vertex and
nothing else. -/
theorem transitionsFrom_keeps (id : Nat) (ts : List Transition) (i : Nat) (t t1 : Model)
    (h : Vertex.bootstrapTransitionsFrom id ts i t = Outcome.ok () t1) :
    (∀ z, z ≠ id → t1.get? z = t.get? z) ∧
    (t1.get? id).map Element.compiled = (t.get? id).map Element.compiled := by
  induction ts generalizing i t with
  | nil =>
    simp only [Vertex.bootstrapTransitionsFrom, Outcome.ok.injEq, true_and] at h
    subst h
    exact ⟨fun _ _ => rfl, rfl⟩
  | cons a rest ih =>
    unfold Vertex.bootstrapTransitionsFrom at h
    cases hb : Transition.bootstrap t a with
    | error err => rw [hb] at h; simp at h
    | ok tr =>
      rw [hb] at h
      obtain ⟨h1, h2⟩ := ih _ _ h
      refine ⟨?_, ?_⟩
      · intro z hz
        rw [h1 z hz, get?_update_other _ _ _ _ hz]
      · rw [h2, get?_update_self]
        cases t.get? id with
        | none => rfl
        | some e => rfl

/-- A visit of the second pass at a vertex changes the transitions of that vertex and
nothing else. -/
theorem visit_keeps (v : Nat) (t t1 : Model)
    (h : Vertex.bootstrapTransitions v t = Outcome.ok () t1) :
    (∀ z, z ≠ v → t1.elem z = t.elem z) ∧
    (∀ z, (t1.elem z).compiled = (t.elem z).compiled) := by
  unfold Vertex.bootstrapTransitions at h
  cases he : t.get? v with
  | none => rw [he] at h; simp at h
  | some e =>
    rw [he] at h
    obtain ⟨h1, h2⟩ := transitionsFrom_keeps v e.transitions 0 t t1 h
    refine ⟨fun z hz => elem_of_get? _ _ _ (h1 z hz), ?_⟩
    intro z
    by_cases hz : z = v
    · subst hz
      unfold Model.elem
      cases h3 : t1.get? z with
      | none => rw [h3, he] at h2; simp at h2
      | some e1 =>
        rw [h3, he] at h2
        simp only [Option.map_some', Option.some.injEq] at h2
        simp only [he, Option.getD_some]
        exact h2
    · rw [elem_of_get? _ _ _ (h1 z hz)]

/-- A visit of the second pass at a vertex with one transition, to a vertex of the same
region. -/
theorem visit_single (x y : Nat) (t t1 : Model) (tx : Transition) (hx : x < t.length)
    (hy : y < t.length) (hts : (t.elem x).transitions = [tx]) (hsrc : tx.source = x)
    (htgt : tx.target = Target.vertex y) (hpar : (t.elem y).parent = (t.elem x).parent)
    (h : Vertex.bootstrapTransitions x t = Outcome.ok () t1) :
    (t1.elem x).transitions = [{ tx with traverse :=
      (t.elem x).leave ++ tx.transitionBehavior ++ (t.elem y).enter }] := by
  unfold Vertex.bootstrapTransitions at h
  rw [get?_elem t x hx] at h
  simp only [hts] at h
  have hb : Transition.bootstrap t tx =
      Except.ok ((t.elem x).leave ++ tx.transitionBehavior ++ (t.elem y).enter) := by
    unfold Transition.bootstrap
    rw [htgt]
    simp only [hsrc, get?_elem t x hx, get?_elem t y hy, hpar, if_true]
  simp only [Vertex.bootstrapTransitionsFrom, hb, Outcome.ok.injEq, true_and] at h
  subst h
  rw [elem_update_self t x _ hx, hts]
  rfl

/-- A list of transitions with one pair of ends is one transition. -/
theorem ends_single (ts : List Transition) (x : Nat) (tg : Target)
    (h : ts.map (fun t => (t.source, t.target)) = [(x, tg)]) :
    ∃ tx, ts = [tx] ∧ tx.source = x ∧ tx.target = tg := by
  cases ts with
  | nil => simp at h
  | cons a rest =>
    cases rest with
    | nil =>
      simp only [List.map_cons, List.map_nil, List.cons.injEq, Prod.mk.injEq, and_true] at h
      exact ⟨a, rfl, h.1, h.2⟩
    | cons b rest2 => simp at h

/-- A visit of the second pass compiles the transition from `x` to `y`, or keeps it. -/
theorem visit_traverses (x y v : Nat) (t t1 : Model) (hx : x < t.length) (hy : y < t.length)
    (hends : (t.elem x).transitions.map (fun t => (t.source, t.target)) =
      [(x, Target.vertex y)])
    (hpar : (t.elem y).parent = (t.elem x).parent)
    (h : Vertex.bootstrapTransitions v t = Outcome.ok () t1)
    (hq : v = x ∨ Traverses t x y) : Traverses t1 x y := by
  obtain ⟨hother, hcomp⟩ := visit_keeps v t t1 h
  have hl : (t1.elem x).leave = (t.elem x).leave := by
    have := congrArg Element.leave (hcomp x)
    exact this
  have he : (t1.elem y).enter = (t.elem y).enter := by
    have := congrArg Element.enter (hcomp y)
    exact this
  unfold Traverses
  rw [hl, he]
  by_cases hv : v = x
  · subst hv
    obtain ⟨tx, hts, hsrc, htgt⟩ := ends_single _ _ _ hends
    rw [visit_single v y t t1 tx hx hy hts hsrc htgt hpar h]
    intro t2 ht2
    simp only [List.mem_singleton] at ht2
    subst ht2
    rfl
  · rcases hq with hq | hq
    · exact absurd hq hv
    · rw [hother x (fun e => hv e.symm)]
      exact hq

/-- A call of the second pass that returns had fuel. -/
theorem transitions_fuel (fuel id : Nat) (s s1 : Model)
    (h : bootstrapTransitions fuel id s = Outcome.ok () s1) : ∃ n, fuel = n + 1 := by
  cases fuel with
  | zero => simp [bootstrapTransitions] at h
  | succ n => exact ⟨n, rfl⟩

/-- The second pass at a region: the loop over its vertices. -/
theorem transitions_region (n id : Nat) (s s1 : Model) (hlt : id < s.length)
    (hk : (s.elem id).kind = ElementKind.Region)
    (h : bootstrapTransitions (n + 1) id s = Outcome.ok () s1) :
    (s.elem id).vertices.foldl
      (fun acc v => acc.bind (fun _ t => (fun v t => bootstrapTransitions n v t) v t))
      (Outcome.ok () s) = Outcome.ok () s1 := by
  rw [bootstrapTransitions, get?_elem s id hlt] at h
  simp only [hk] at h
  exact h

/-- The second pass at a pseudo state. -/
theorem transitions_pseudo (n id : Nat) (s s1 : Model) (kind : PseudoStateKind)
    (hlt : id < s.length) (hk : (s.elem id).kind = ElementKind.PseudoState kind)
    (h : bootstrapTransitions (n + 1) id s = Outcome.ok () s1) :
    Vertex.bootstrapTransitions id s = Outcome.ok () s1 := by
  rw [bootstrapTransitions, get?_elem s id hlt] at h
  simp only [hk] at h
  exact h

/-- The second pass at a state: the loop over its regions, then its own transitions. -/
theorem transitions_state (n id : Nat) (s s1 : Model) (hlt : id < s.length)
    (hs : (s.elem id).isState = true)
    (h : bootstrapTransitions (n + 1) id s = Outcome.ok () s1) :
    ∃ sV,
      (s.elem id).regions.foldl
        (fun acc r => acc.bind (fun _ t => (fun r t => bootstrapTransitions n r t) r t))
        (Outcome.ok () s) = Outcome.ok () sV ∧
      Vertex.bootstrapTransitions id sV = Outcome.ok () s1 := by
  rw [bootstrapTransitions, get?_elem s id hlt] at h
  unfold Element.isState at hs
  cases hk : (s.elem id).kind <;> rw [hk] at hs <;>
    simp only [hk, Bool.false_eq_true] at h hs
  all_goals
    obtain ⟨_, sV, hfold, htail⟩ := bind_ok _ _ _ _ h
    exact ⟨sV, hfold, htail⟩

/-- What every visit keeps, the second pass keeps. -/
theorem transitions_invariant (P : Model → Prop)
    (hP : ∀ v t t1, P t → Vertex.bootstrapTransitions v t = Outcome.ok () t1 → P t1)
    (fuel id : Nat) (t t1 : Model) (h : bootstrapTransitions fuel id t = Outcome.ok () t1)
    (ht : P t) : P t1 := by
  induction fuel generalizing id t t1 with
  | zero => simp [bootstrapTransitions] at h
  | succ n ih =>
    rw [bootstrapTransitions] at h
    cases he : t.get? id with
    | none => rw [he] at h; simp at h
    | some e =>
      rw [he] at h
      cases hk : e.kind with
      | Region =>
        simp only [hk] at h
        exact foldl_invariant (fun v t => bootstrapTransitions n v t) P e.vertices
          (fun v _ s s1 hs hg => ih v s s1 hg hs) t t1 ht h
      | PseudoState kind =>
        simp only [hk] at h
        exact hP id t t1 ht h
      | State =>
        simp only [hk] at h
        obtain ⟨_, sV, hfold, htail⟩ := bind_ok _ _ _ _ h
        exact hP id sV t1 (foldl_invariant (fun v t => bootstrapTransitions n v t) P e.regions
          (fun v _ s s1 hs hg => ih v s s1 hg hs) t sV ht hfold) htail
      | FinalState =>
        simp only [hk] at h
        obtain ⟨_, sV, hfold, htail⟩ := bind_ok _ _ _ _ h
        exact hP id sV t1 (foldl_invariant (fun v t => bootstrapTransitions n v t) P e.regions
          (fun v _ s s1 hs hg => ih v s s1 hg hs) t sV ht hfold) htail
      | StateMachine =>
        simp only [hk] at h
        obtain ⟨_, sV, hfold, htail⟩ := bind_ok _ _ _ _ h
        exact hP id sV t1 (foldl_invariant (fun v t => bootstrapTransitions n v t) P e.regions
          (fun v _ s s1 hs hg => ih v s s1 hg hs) t sV ht hfold) htail

/-- A visit of the second pass changes nothing but `traverse` sequences. -/
theorem visit_retraversed (s : Model) (v : Nat) (t t1 : Model) (hb : s.Retraversed t)
    (h : Vertex.bootstrapTransitions v t = Outcome.ok () t1) : s.Retraversed t1 := by
  have hfr := vertexTransitions_frame t.frame v t rfl
  rw [h] at hfr
  refine ⟨Eq.trans hfr hb.1, ?_⟩
  intro z
  rw [(visit_keeps v t t1 h).2 z]
  exact hb.2 z

/-- The second pass changes nothing but `traverse` sequences. -/
theorem walk_retraversed (s : Model) (fuel id : Nat) (t t1 : Model)
    (h : bootstrapTransitions fuel id t = Outcome.ok () t1) (hb : s.Retraversed t) :
    s.Retraversed t1 :=
  transitions_invariant (fun t => s.Retraversed t)
    (fun v t t1 ht hv => visit_retraversed s v t t1 ht hv) fuel id t t1 h hb

/-- The model of the cascade is still one after the second pass. -/
theorem cascade_retraversed (s t : Model) (sm R I C RC IC F D : Nat)
    (hc : Cascade s sm R I C RC IC F D) (hb : s.Retraversed t) :
    Cascade t sm R I C RC IC F D :=
  cascade_of_shape _ _ _ _ _ _ _ _ _ _ (shape_of_frame _ _ hb.1) hc

/-- The three transitions of the cascade join vertices of one region. -/
theorem cascade_pairs (t : Model) (sm R I C RC IC F D : Nat)
    (hc : Cascade t sm R I C RC IC F D) :
    (t.elem C).parent = (t.elem I).parent ∧ (t.elem F).parent = (t.elem IC).parent ∧
    (t.elem D).parent = (t.elem C).parent := by
  obtain ⟨_, _, pI, pC, _, pIC, pF, pD⟩ := cascade_parents t sm R I C RC IC F D hc
  rw [parent_elem t I (hc.inModel I (by simp))] at pI
  rw [parent_elem t C (hc.inModel C (by simp))] at pC
  rw [parent_elem t IC (hc.inModel IC (by simp))] at pIC
  rw [parent_elem t F (hc.inModel F (by simp))] at pF
  rw [parent_elem t D (hc.inModel D (by simp))] at pD
  rw [pI, pC, pIC, pF, pD]
  exact ⟨rfl, rfl, rfl⟩

/-- A visit of the second pass compiles the transitions of the cascade, or keeps them. -/
theorem visit_cascade (s : Model) (sm R I C RC IC F D : Nat)
    (hc : Cascade s sm R I C RC IC F D) (v : Nat) (t t1 : Model) (hb : s.Retraversed t)
    (h : Vertex.bootstrapTransitions v t = Outcome.ok () t1) :
    (v = I ∨ Traverses t I C → Traverses t1 I C) ∧
    (v = IC ∨ Traverses t IC F → Traverses t1 IC F) ∧
    (v = C ∨ Traverses t C D → Traverses t1 C D) := by
  have hct := cascade_retraversed s t sm R I C RC IC F D hc hb
  obtain ⟨p1, p2, p3⟩ := cascade_pairs t sm R I C RC IC F D hct
  exact ⟨visit_traverses I C v t t1 (hct.inModel I (by simp)) (hct.inModel C (by simp))
      hct.rootInitial.2.2 p1 h,
    visit_traverses IC F v t t1 (hct.inModel IC (by simp)) (hct.inModel F (by simp))
      hct.childInitial.2.2 p2 h,
    visit_traverses C D v t t1 (hct.inModel C (by simp)) (hct.inModel D (by simp))
      hct.composite.2.2.2.1 p3 h⟩

/-- The second pass keeps the compiled transitions of the cascade. -/
theorem walk_cascade (s : Model) (sm R I C RC IC F D : Nat)
    (hc : Cascade s sm R I C RC IC F D) (fuel id : Nat) (t t1 : Model)
    (h : bootstrapTransitions fuel id t = Outcome.ok () t1) (hb : s.Retraversed t) :
    (Traverses t I C → Traverses t1 I C) ∧ (Traverses t IC F → Traverses t1 IC F) ∧
    (Traverses t C D → Traverses t1 C D) := by
  refine ⟨?_, ?_, ?_⟩
  · intro hq
    exact (transitions_invariant (fun t => s.Retraversed t ∧ Traverses t I C)
      (fun v t t1 ht hv => ⟨visit_retraversed s v t t1 ht.1 hv,
        (visit_cascade s sm R I C RC IC F D hc v t t1 ht.1 hv).1 (Or.inr ht.2)⟩)
      fuel id t t1 h ⟨hb, hq⟩).2
  · intro hq
    exact (transitions_invariant (fun t => s.Retraversed t ∧ Traverses t IC F)
      (fun v t t1 ht hv => ⟨visit_retraversed s v t t1 ht.1 hv,
        (visit_cascade s sm R I C RC IC F D hc v t t1 ht.1 hv).2.1 (Or.inr ht.2)⟩)
      fuel id t t1 h ⟨hb, hq⟩).2
  · intro hq
    exact (transitions_invariant (fun t => s.Retraversed t ∧ Traverses t C D)
      (fun v t t1 ht hv => ⟨visit_retraversed s v t t1 ht.1 hv,
        (visit_cascade s sm R I C RC IC F D hc v t t1 ht.1 hv).2.2 (Or.inr ht.2)⟩)
      fuel id t t1 h ⟨hb, hq⟩).2

/-- The second pass at the region of `C` compiles the transition of its Initial pseudo
state. -/
theorem transitions_child_region (s : Model) (sm R I C RC IC F D : Nat)
    (hc : Cascade s sm R I C RC IC F D) (fuel : Nat) (t t1 : Model)
    (h : bootstrapTransitions fuel RC t = Outcome.ok () t1) (hb : s.Retraversed t) :
    Traverses t1 IC F := by
  obtain ⟨n, hn⟩ := transitions_fuel _ _ _ _ h
  subst hn
  have hct := cascade_retraversed s t sm R I C RC IC F D hc hb
  have hfold := transitions_region n RC t t1 (hct.inModel RC (by simp)) hct.childRegion.1 h
  exact foldl_establish (fun v t => bootstrapTransitions n v t)
    (fun t => s.Retraversed t) (fun t => Traverses t IC F) IC (t.elem RC).vertices
    hct.childRegion.2.2.2.1
    (fun v _ t t1 ht hg => walk_retraversed s n v t t1 hg ht)
    (fun t t1 ht hg => by
      obtain ⟨k, hk⟩ := transitions_fuel _ _ _ _ hg
      subst hk
      have hc2 := cascade_retraversed s t sm R I C RC IC F D hc ht
      exact (visit_cascade s sm R I C RC IC F D hc IC t t1 ht
        (transitions_pseudo k IC t t1 _ (hc2.inModel IC (by simp)) hc2.childInitial.1 hg)).2.1
        (Or.inl rfl))
    (fun v _ t t1 ht hq hg =>
      (walk_cascade s sm R I C RC IC F D hc n v t t1 hg ht).2.1 hq)
    t t1 hb hfold

/-- The second pass at `C` compiles the transitions at and below `C`. -/
theorem transitions_composite (s : Model) (sm R I C RC IC F D : Nat)
    (hc : Cascade s sm R I C RC IC F D) (fuel : Nat) (t t1 : Model)
    (h : bootstrapTransitions fuel C t = Outcome.ok () t1) (hb : s.Retraversed t) :
    Traverses t1 IC F ∧ Traverses t1 C D := by
  obtain ⟨n, hn⟩ := transitions_fuel _ _ _ _ h
  subst hn
  have hct := cascade_retraversed s t sm R I C RC IC F D hc hb
  have hst : (t.elem C).isState = true := by
    unfold Element.isState; rw [hct.composite.1]
  obtain ⟨sV, hfold, hvisit⟩ := transitions_state n C t t1 (hct.inModel C (by simp)) hst h
  rw [hct.composite.2.2.1] at hfold
  have hRC : bootstrapTransitions n RC t = Outcome.ok () sV := hfold
  have hbV := walk_retraversed s n RC t sV hRC hb
  have hq := transitions_child_region s sm R I C RC IC F D hc n t sV hRC hb
  obtain ⟨_, k2, k3⟩ := visit_cascade s sm R I C RC IC F D hc C sV t1 hbV hvisit
  exact ⟨k2 (Or.inr hq), k3 (Or.inl rfl)⟩

/-- The second pass at the root region compiles the three transitions of the cascade. -/
theorem transitions_root_region (s : Model) (sm R I C RC IC F D : Nat)
    (hc : Cascade s sm R I C RC IC F D) (fuel : Nat) (t t1 : Model)
    (h : bootstrapTransitions fuel R t = Outcome.ok () t1) (hb : s.Retraversed t) :
    Traverses t1 I C ∧ Traverses t1 IC F ∧ Traverses t1 C D := by
  obtain ⟨n, hn⟩ := transitions_fuel _ _ _ _ h
  subst hn
  have hct := cascade_retraversed s t sm R I C RC IC F D hc hb
  have hfold := transitions_region n R t t1 (hct.inModel R (by simp)) hct.rootRegion.1 h
  have hI := foldl_establish (fun v t => bootstrapTransitions n v t)
    (fun t => s.Retraversed t) (fun t => Traverses t I C) I (t.elem R).vertices
    hct.rootRegion.2.2.2.1
    (fun v _ t t1 ht hg => walk_retraversed s n v t t1 hg ht)
    (fun t t1 ht hg => by
      obtain ⟨k, hk⟩ := transitions_fuel _ _ _ _ hg
      subst hk
      have hc2 := cascade_retraversed s t sm R I C RC IC F D hc ht
      exact (visit_cascade s sm R I C RC IC F D hc I t t1 ht
        (transitions_pseudo k I t t1 _ (hc2.inModel I (by simp)) hc2.rootInitial.1 hg)).1
        (Or.inl rfl))
    (fun v _ t t1 ht hq hg =>
      (walk_cascade s sm R I C RC IC F D hc n v t t1 hg ht).1 hq)
    t t1 hb hfold
  have hC := foldl_establish (fun v t => bootstrapTransitions n v t)
    (fun t => s.Retraversed t) (fun t => Traverses t IC F ∧ Traverses t C D) C
    (t.elem R).vertices hct.rootRegion.2.2.2.2.1
    (fun v _ t t1 ht hg => walk_retraversed s n v t t1 hg ht)
    (fun t t1 ht hg => transitions_composite s sm R I C RC IC F D hc n t t1 hg ht)
    (fun v _ t t1 ht hq hg =>
      ⟨(walk_cascade s sm R I C RC IC F D hc n v t t1 hg ht).2.1 hq.1,
       (walk_cascade s sm R I C RC IC F D hc n v t t1 hg ht).2.2 hq.2⟩)
    t t1 hb hfold
  exact ⟨hI, hC.1, hC.2⟩

/-- The second pass at the machine compiles the three transitions of the cascade. -/
theorem transitions_machine (s : Model) (sm R I C RC IC F D : Nat)
    (hc : Cascade s sm R I C RC IC F D) (fuel : Nat) (t1 : Model)
    (h : bootstrapTransitions fuel sm s = Outcome.ok () t1) :
    s.Retraversed t1 ∧ Traverses t1 I C ∧ Traverses t1 IC F ∧ Traverses t1 C D := by
  have hb : s.Retraversed s := ⟨rfl, fun _ => rfl⟩
  have hb1 := walk_retraversed s fuel sm s t1 h hb
  obtain ⟨n, hn⟩ := transitions_fuel _ _ _ _ h
  subst hn
  have hst : (s.elem sm).isState = true := by
    unfold Element.isState; rw [hc.machine.1]
  obtain ⟨sV, hfold, hvisit⟩ := transitions_state n sm s t1 (hc.inModel sm (by simp)) hst h
  rw [hc.machine.2.2.1] at hfold
  have hR : bootstrapTransitions n R s = Outcome.ok () sV := hfold
  have hbV := walk_retraversed s n R s sV hR hb
  obtain ⟨q1, q2, q3⟩ := transitions_root_region s sm R I C RC IC F D hc n s sV hR hb
  obtain ⟨k1, k2, k3⟩ := visit_cascade s sm R I C RC IC F D hc sm sV t1 hbV hvisit
  exact ⟨hb1, k1 (Or.inr q1), k2 (Or.inr q2), k3 (Or.inr q3)⟩

/-- Objects that differ in their transitions only have the same sequences. -/
theorem compiled_fields (a b : Element) (h : a.compiled = b.compiled) :
    a.leave = b.leave ∧ a.enter = b.enter ∧ a.endEnter = b.endEnter ∧
    a.entryBehavior = b.entryBehavior ∧ a.exitBehavior = b.exitBehavior ∧
    a.clean = b.clean ∧ a.regions = b.regions := by
  have h1 : a.compiled.leave = b.compiled.leave := by rw [h]
  have h2 : a.compiled.enter = b.compiled.enter := by rw [h]
  have h3 : a.compiled.endEnter = b.compiled.endEnter := by rw [h]
  have h4 : a.compiled.entryBehavior = b.compiled.entryBehavior := by rw [h]
  have h5 : a.compiled.exitBehavior = b.compiled.exitBehavior := by rw [h]
  have h6 : a.compiled.clean = b.compiled.clean := by rw [h]
  have h7 : a.compiled.regions = b.compiled.regions := by rw [h]
  exact ⟨h1, h2, h3, h4, h5, h6, h7⟩

/-- What `StateMachine.bootstrap` leaves in the model of a cascade. -/
theorem bootstrap_cascade (m m1 : Model) (sm R I C RC IC F D : Nat)
    (hc : Cascade m sm R I C RC IC F D)
    (hboot : StateMachine.bootstrap sm false m = Outcome.ok () m1) :
    CompiledCascade m1 sm R I C RC IC F D := by
  unfold StateMachine.bootstrap at hboot
  obtain ⟨_, m2, h1, h2⟩ := bind_ok _ _ _ _ hboot
  obtain ⟨hc2, hclean, hM, hI, hC, hD⟩ := stage_machine m m2 sm R I C RC IC F D _ hc h1
  obtain ⟨hb, t1, t2, t3⟩ := transitions_machine m2 sm R I C RC IC F D hc2 _ m1 h2
  have hf := fun z => compiled_fields _ _ (hb.2 z)
  refine ⟨cascade_retraversed m2 m1 sm R I C RC IC F D hc2 hb, ?_, ?_, ?_, ?_, ?_, t1, t2, t3⟩
  · rw [(hf sm).2.2.2.2.2.1]; exact hclean
  · rw [(hf sm).2.1, (hf sm).2.2.2.1]; exact hM
  · unfold EntersInitial at hI ⊢
    rw [(hf I).1, (hf I).2.1]; exact hI
  · unfold EntersCascade EntersComposite EntersRegion EntersInitial EntersLeaf at hC ⊢
    rw [(hf C).1, (hf C).2.1, (hf C).2.2.2.1, (hf C).2.2.2.2.1, (hf RC).1, (hf RC).2.1,
      (hf IC).1, (hf IC).2.1, (hf F).1, (hf F).2.1, (hf F).2.2.2.1, (hf F).2.2.2.2.1]
    exact hC
  · unfold EntersState at hD ⊢
    rw [(hf D).2.1, (hf D).2.2.1, (hf D).2.2.2.1, (hf D).2.2.2.2.2.2]; exact hD

/-- Sequencing is associative. -/
theorem bind_assoc {σ α β γ : Type} (x : Outcome σ α) (f : α → σ → Outcome σ β)
    (g : β → σ → Outcome σ γ) :
    (x.bind f).bind g = x.bind (fun a s => (f a s).bind g) := by
  cases x <;> rfl

/-- Code that returns, followed by code that returns, returns. -/
theorem returns_bind {σ α β : Type} (x : Outcome σ α) (f : α → σ → Outcome σ β)
    (P Q : σ → Prop) (hx : x.Returns P) (hf : ∀ a s, P s → (f a s).Returns Q) :
    (x.bind f).Returns Q := by
  obtain ⟨a, s, hxe, hp⟩ := hx
  rw [hxe]
  exact hf a s hp

/-- A weaker postcondition. -/
theorem returns_mono {σ α : Type} (x : Outcome σ α) (P Q : σ → Prop) (hx : x.Returns P)
    (h : ∀ s, P s → Q s) : x.Returns Q := by
  obtain ⟨a, s, hxe, hp⟩ := hx
  exact ⟨a, s, hxe, h s hp⟩

/-- Calling two sequences one after the other. -/
theorem invoke_append (e : Engine) (a b : List Action) (message : Message) (history : Bool)
    (run : Run) :
    invoke e (a ++ b) message history run =
      (invoke e a message history run).bind (fun _ r => invoke e b message history r) := by
  induction a generalizing run with
  | nil => rfl
  | cons x xs ih =>
    simp only [List.cons_append, invoke]
    rw [bind_assoc]
    congr
    funext _ r
    exact ih r

/-- Postconditions of two sequences called one after the other. -/
theorem invoke_append_returns (e : Engine) (a b : List Action) (message : Message)
    (history : Bool) (run : Run) (P Q : Run → Prop)
    (ha : (invoke e a message history run).Returns P)
    (hb : ∀ r, P r → (invoke e b message history r).Returns Q) :
    (invoke e (a ++ b) message history run).Returns Q := by
  rw [invoke_append]
  exact returns_bind _ _ P Q ha (fun _ r hr => hb r hr)

/-- Postcondition of a sequence by its first function and the rest. -/
theorem invoke_cons_returns (e : Engine) (x : Action) (rest : List Action)
    (message : Message) (history : Bool) (run : Run) (P Q : Run → Prop)
    (ha : (Action.run e x message history run).Returns P)
    (hb : ∀ r, P r → (invoke e rest message history r).Returns Q) :
    (invoke e (x :: rest) message history run).Returns Q := by
  rw [invoke]
  exact returns_bind _ _ P Q ha (fun _ r hr => hb r hr)

/-- The empty sequence. -/
theorem invoke_nil_returns (e : Engine) (message : Message) (history : Bool) (run : Run)
    (P : Run → Prop) (h : P run) : (invoke e [] message history run).Returns P :=
  ⟨(), run, rfl, h⟩

/-- Behaviours of the caller return and leave the model alone. -/
theorem invoke_user_returns (e : Engine) (l : List Action) (message : Message)
    (history : Bool) (run : Run) (hl : UserActions l) :
    (invoke e l message history run).Returns (fun r => r.model = run.model) := by
  induction l generalizing run with
  | nil => exact invoke_nil_returns e message history run _ rfl
  | cons x xs ih =>
    obtain ⟨f, hf⟩ := hl x (List.mem_cons_self x xs)
    subst hf
    apply invoke_cons_returns e _ xs message history run (fun r => r.model = run.model)
    · exact ⟨(), _, rfl, rfl⟩
    · intro r hr
      rw [← hr]
      exact ih r (fun a ha => hl a (List.mem_cons_of_mem _ ha))

/-- Behaviours that leave the record of current states alone. -/
theorem invoke_keep_returns (e : Engine) (l : List Action) (message : Message)
    (history : Bool) (run : Run) (hl : KeepCurrent l) :
    (invoke e l message history run).Returns
      (fun r => r.model = run.model ∧ r.context.last = run.context.last) := by
  induction l generalizing run with
  | nil => exact invoke_nil_returns e message history run _ ⟨rfl, rfl⟩
  | cons x xs ih =>
    obtain ⟨f, hf, hkeep⟩ := hl x (List.mem_cons_self x xs)
    subst hf
    apply invoke_cons_returns e _ xs message history run
      (fun r => r.model = run.model ∧ r.context.last = run.context.last)
    · exact ⟨(), _, rfl, rfl, hkeep message run.context history⟩
    · intro r hr
      rw [← hr.1, ← hr.2]
      exact ih r (fun a ha => hl a (List.mem_cons_of_mem _ ha))

/-- The current states are read from the record `last`. -/
theorem getCurrent_of_last (c1 c2 : Context) (h : c1.last = c2.last) (key : String) :
    c1.getCurrent key = c2.getCurrent key := by
  unfold Context.getCurrent
  rw [h]

/-- Behaviours that leave the record alone keep a settled run settled. -/
theorem invoke_keep_settled (e : Engine) (l : List Action) (message : Message)
    (history : Bool) (run : Run) (hl : KeepCurrent l) (s : Model) (P : Context → Prop)
    (hP : ∀ c, c.last = run.context.last → P c) (hrun : run.model = s) :
    (invoke e l message history run).Returns (fun r => r.model = s ∧ P r.context) := by
  apply returns_mono _ _ _ (invoke_keep_returns e l message history run hl)
  intro r hr
  exact ⟨hr.1.trans hrun, hP _ hr.2⟩

/-- The ancestors of an object without a parent. -/
theorem ancestorsAux_root (s : Model) (fuel x : Nat) (hp : s.parent x = none) :
    Model.ancestorsAux s fuel x = [x] := by
  cases fuel with
  | zero => rfl
  | succ n => simp only [Model.ancestorsAux, hp]

/-- The ancestors of an object with a parent. -/
theorem ancestorsAux_step (s : Model) (fuel x p : Nat) (hp : s.parent x = some p) :
    Model.ancestorsAux s (fuel + 1) x = Model.ancestorsAux s fuel p ++ [x] := by
  simp only [Model.ancestorsAux, hp]

/-- The qualified names of the root region and of the region of `C` differ: the second is
the first with two more names. -/
theorem cascade_keys (s : Model) (sm R I C RC IC F D : Nat)
    (hc : Cascade s sm R I C RC IC F D) : s.toString R ≠ s.toString RC := by
  obtain ⟨pM, pR, _, pC, pRC, _, _, _⟩ := cascade_parents s sm R I C RC IC F D hc
  obtain ⟨h1, h2, _, h4, _, _⟩ := cascade_spine s sm R I C RC IC F D hc
  have l1 : sm < s.length := hc.inModel sm (by simp)
  have l2 : R < s.length := hc.inModel R (by simp)
  have l3 : C < s.length := hc.inModel C (by simp)
  obtain ⟨n, hn⟩ : ∃ n, s.length = n + 3 := ⟨s.length - 3, by omega⟩
  have a1 : s.ancestors R = [sm, R] := by
    unfold Model.ancestors
    rw [hn, ancestorsAux_step s _ R sm pR, ancestorsAux_root s _ sm pM]
    rfl
  have a2 : s.ancestors RC = [sm, R, C, RC] := by
    unfold Model.ancestors
    rw [hn, ancestorsAux_step s _ RC C pRC, ancestorsAux_step s _ C R pC,
      ancestorsAux_step s _ R sm pR, ancestorsAux_root s _ sm pM]
    rfl
  intro h
  have hl := congrArg String.length h
  unfold Model.toString at hl
  rw [a1, a2] at hl
  simp only [List.map_cons, List.map_nil, join, String.length_append, namespaceSeperator] at hl
  have : ".".length = 1 := rfl
  omega

/-- A state without regions and without transitions does not process a message. -/
theorem evaluate_leaf (e : Engine) (random : Nat → ℚ) (x : Nat) (message : Message)
    (run : Run) (el : Element) (hget : run.model.get? x = some el)
    (hk : el.kind = ElementKind.State ∨ el.kind = ElementKind.FinalState)
    (hr : el.regions = []) (ht : el.transitions = []) :
    evaluate e random x message run = Outcome.ok false run := by
  unfold evaluate
  rcases hk with hk | hk
  · simp only [hget, hk, State.evaluate, hr, State.evaluateRegions, Outcome.bind, if_true,
      Vertex.evaluate, ht, Element.selector, State.selector, State.selectorLoop,
      Element.randomCalls]
    simp
  · simp only [hget, hk, State.evaluate, hr, State.evaluateRegions, Outcome.bind, if_true,
      Vertex.evaluate, ht, Element.selector, State.selector, State.selectorLoop,
      Element.randomCalls]
    simp

/-- An Initial pseudo state with one transition traverses it. -/
theorem evaluate_initial (e : Engine) (random : Nat → ℚ) (x : Nat) (message : Message)
    (run : Run) (el : Element) (t : Transition) (hget : run.model.get? x = some el)
    (hk : el.kind = ElementKind.PseudoState PseudoStateKind.Initial)
    (ht : el.transitions = [t]) :
    evaluate e random x message run =
      (e.invoke t.traverse message false run).bind (fun _ r => Outcome.ok true r) := by
  unfold evaluate
  simp only [hget, hk, Vertex.evaluate, ht, Element.selector, pseudoState, initial,
    Element.randomCalls]
  rfl

/-- The completion closure of a vertex evaluates the vertex itself as the message. -/
theorem completions_run (e : Engine) (v : Nat) (message : Message) (history : Bool)
    (run : Run) :
    Action.run e (Action.completions v) message history run =
      (e.evaluate v (Message.element v) run).bind (fun _ r => Outcome.ok () r) := by
  simp [Action.run, Vertex.evaluateCompletions, Vertex.isComplete]

/-- The closure of line 426 on a run that works on the model `s`. -/
theorem setCurrent_returns (e : Engine) (s : Model) (x r : Nat) (message : Message)
    (history : Bool) (run : Run) (hrun : run.model = s) (hx : x < s.length)
    (hr : (s.elem x).region = some r) :
    Action.run e (Action.setCurrent x) message history run =
      Outcome.ok () { run with context := run.context.setCurrent (s.toString r) x } := by
  unfold Action.run
  simp only [hrun, get?_elem s x hx, Option.bind, hr]

/-- Entering the final state `F`: it becomes the current state of its region. -/
theorem enter_final (s : Model) (sm R I C RC IC F D : Nat)
    (hcc : CompiledCascade s sm R I C RC IC F D) (random : Nat → ℚ) (d : Nat)
    (message : Message) (run : Run) (hrun : run.model = s) :
    (invoke (engine random (d + 1)) (s.elem F).enter message false run).Returns
      (fun r => r.model = s ∧ r.context.getCurrent (s.toString RC) = some F) := by
  have hc := hcc.cascade
  rw [hcc.below.2.2.2.2]
  apply invoke_append_returns _ _ _ _ _ _ (fun r => r.model = s)
  · exact returns_mono _ _ _ (invoke_user_returns _ _ _ _ run hc.behaviours.2.2.1)
      (fun r hr => hr.trans hrun)
  · intro r hr
    apply invoke_cons_returns _ _ _ _ _ _
      (fun r => r.model = s ∧ r.context.getCurrent (s.toString RC) = some F)
    · rw [setCurrent_returns _ s F RC _ _ r hr (hc.inModel F (by simp)) hc.final.2.1]
      exact ⟨(), _, rfl, hr, getCurrent_setCurrent_same _ _ _⟩
    · intro r1 hr1
      apply invoke_cons_returns _ _ _ _ _ _
        (fun r => r.model = s ∧ r.context.getCurrent (s.toString RC) = some F)
      · rw [completions_run]
        have hev : (engine random (d + 1)).evaluate F (Message.element F) r1 =
            Outcome.ok false r1 :=
          evaluate_leaf (engine random d) random F _ r1 (s.elem F)
            (by rw [hr1.1]; exact get?_elem s F (hc.inModel F (by simp)))
            (Or.inr hc.final.1) hc.final.2.2.1 hc.final.2.2.2
        rw [hev]
        exact ⟨(), r1, rfl, hr1⟩
      · intro r2 hr2
        exact invoke_nil_returns _ _ _ _ _ hr2

/-- The completion closure of the Initial pseudo state of the region of `C`: the region
ends up in `F`. -/
theorem completions_child_initial (s : Model) (sm R I C RC IC F D : Nat)
    (hcc : CompiledCascade s sm R I C RC IC F D) (random : Nat → ℚ) (d : Nat)
    (message : Message) (history : Bool) (run : Run) (hrun : run.model = s) :
    (Action.run (engine random (d + 3)) (Action.completions IC) message history run).Returns
      (fun r => r.model = s ∧ r.context.getCurrent (s.toString RC) = some F) := by
  have hc := hcc.cascade
  obtain ⟨t, hts, _, _⟩ := ends_single _ _ _ hc.childInitial.2.2
  have htr := hcc.fromChildInitial t (by rw [hts]; exact List.mem_singleton_self t)
  rw [hcc.below.2.2.1.1] at htr
  rw [completions_run]
  have hev : (engine random (d + 3)).evaluate IC (Message.element IC) run =
      (invoke (engine random (d + 1)) t.traverse (Message.element IC) false run).bind
        (fun _ r => Outcome.ok true r) :=
    evaluate_initial (engine random (d + 2)) random IC _ run (s.elem IC) t
      (by rw [hrun]; exact get?_elem s IC (hc.inModel IC (by simp))) hc.childInitial.1 hts
  rw [hev, htr]
  apply returns_bind _ _ (fun r => r.model = s ∧ r.context.getCurrent (s.toString RC) = some F)
  · apply returns_bind _ _
      (fun r => r.model = s ∧ r.context.getCurrent (s.toString RC) = some F)
    · simp only [List.nil_append]
      apply invoke_append_returns _ _ _ _ _ _ (fun r => r.model = s)
      · exact returns_mono _ _ _
          (invoke_user_returns _ _ _ _ run
            (hc.behaviours.2.2.2.2 t (by rw [hts]; exact List.mem_singleton_self t)))
          (fun r hr => hr.trans hrun)
      · intro r hr
        exact enter_final s sm R I C RC IC F D hcc random d _ r hr
    · intro _ r hr
      exact ⟨true, r, rfl, hr⟩
  · intro _ r hr
    exact ⟨(), r, rfl, hr⟩

/-- A region passes a message to its current state. -/
theorem evaluate_region (e : Engine) (random : Nat → ℚ) (r x : Nat) (message : Message)
    (run : Run) (el : Element) (hget : run.model.get? r = some el)
    (hk : el.kind = ElementKind.Region)
    (hcur : run.context.getCurrent (run.model.toString r) = some x) :
    evaluate e random r message run = e.evaluate x message run := by
  unfold evaluate
  simp only [hget, hk, Region.evaluate, hcur]

/-- The completion transition of a state is the one its selector picks for the completion
message. -/
theorem selector_completion (t : Transition) (context : Context)
    (hg : t.guard = Guard.completion) :
    State.selector [t] (Message.element t.source) context = Except.ok (some t) := by
  simp [State.selector, State.selectorLoop, Transition.evalGuard, hg]

/-- The composite state `C` on its own completion message, its region being in `F`:
it traverses its completion transition. -/
theorem evaluate_composite (s : Model) (sm R I C RC IC F D : Nat)
    (hcc : CompiledCascade s sm R I C RC IC F D) (random : Nat → ℚ) (d : Nat) (run : Run)
    (t : Transition) (hts : (s.elem C).transitions = [t]) (hsrc : t.source = C)
    (hrun : run.model = s) (hcur : run.context.getCurrent (s.toString RC) = some F) :
    evaluate (engine random (d + 3)) random C (Message.element C) run =
      (invoke (engine random (d + 2)) t.traverse (Message.element C) false run).bind
        (fun _ r => Outcome.ok true r) := by
  have hc := hcc.cascade
  have gC : run.model.get? C = some (s.elem C) := by
    rw [hrun]; exact get?_elem s C (hc.inModel C (by simp))
  have gRC : run.model.get? RC = some (s.elem RC) := by
    rw [hrun]; exact get?_elem s RC (hc.inModel RC (by simp))
  have gF : run.model.get? F = some (s.elem F) := by
    rw [hrun]; exact get?_elem s F (hc.inModel F (by simp))
  have hreg : (engine random (d + 3)).evaluate RC (Message.element C) run =
      Outcome.ok false run := by
    have h1 : (engine random (d + 3)).evaluate RC (Message.element C) run =
        (engine random (d + 2)).evaluate F (Message.element C) run :=
      evaluate_region (engine random (d + 2)) random RC F _ run (s.elem RC) gRC
        hc.childRegion.1 (by rw [hrun]; exact hcur)
    rw [h1]
    exact evaluate_leaf (engine random (d + 1)) random F _ run (s.elem F) gF
      (Or.inr hc.final.1) hc.final.2.2.1 hc.final.2.2.2
  have hg : t.guard = Guard.completion :=
    hc.composite.2.2.2.2 t (by rw [hts]; exact List.mem_singleton_self t)
  have hsel := selector_completion t run.context hg
  rw [hsrc] at hsel
  unfold evaluate
  simp only [gC, hc.composite.1, State.evaluate, hc.composite.2.2.1, State.evaluateRegions,
    hreg, Outcome.bind, if_true, Bool.false_eq_true, if_false, Vertex.evaluate, hts,
    Element.selector, hsel, Element.randomCalls]
  have hinv : (engine random (d + 3)).invoke =
      invoke (engine random (d + 2)) := rfl
  rw [hinv]
  have hrun0 : ({ run with randomCalls := run.randomCalls + 0 } : Run) = run := rfl
  rw [hrun0]
  cases invoke (engine random (d + 2)) t.traverse (Message.element C) false run with
  | timeout => rfl
  | throw err r => rfl
  | ok a r => simp

/-- Behaviours that leave the record alone keep `F` the current state of the region of
`C`. -/
theorem invoke_keep_final (e : Engine) (l : List Action) (message : Message)
    (history : Bool) (run : Run) (hl : KeepCurrent l) (s : Model) (key : String) (f : Nat)
    (hrun : run.model = s ∧ run.context.getCurrent key = some f) :
    (invoke e l message history run).Returns
      (fun r => r.model = s ∧ r.context.getCurrent key = some f) :=
  invoke_keep_settled e l message history run hl s (fun c => c.getCurrent key = some f)
    (fun c hcl => (getCurrent_of_last c run.context hcl key).trans hrun.2) hrun.1

/-- Leaving the composite state `C` whose region is in `F`: the exit behaviour of `F`. -/
theorem leave_region (s : Model) (sm R I C RC IC F D : Nat)
    (hcc : CompiledCascade s sm R I C RC IC F D) (random : Nat → ℚ) (d : Nat)
    (message : Message) (history : Bool) (run : Run)
    (hrun : run.model = s ∧ run.context.getCurrent (s.toString RC) = some F) :
    (Action.run (engine random (d + 2)) (Action.invokeLeave RC) message history run).Returns
      (fun r => r.model = s ∧ r.context.getCurrent (s.toString RC) = some F) := by
  have hc := hcc.cascade
  have gRC : run.model.get? RC = some (s.elem RC) := by
    rw [hrun.1]; exact get?_elem s RC (hc.inModel RC (by simp))
  have gF : run.model.get? F = some (s.elem F) := by
    rw [hrun.1]; exact get?_elem s F (hc.inModel F (by simp))
  have hcur : run.context.getCurrent (run.model.toString RC) = some F := by
    rw [hrun.1]; exact hrun.2
  have h1 : Action.run (engine random (d + 2)) (Action.invokeLeave RC) message history run =
      invoke (engine random (d + 1)) [Action.regionLeave RC] message history run := by
    unfold Action.run
    simp only [gRC, hcc.below.2.1.1]
    rfl
  have h2 : Action.run (engine random (d + 1)) (Action.regionLeave RC) message history run =
      invoke (engine random d) (s.elem F).exitBehavior message history run := by
    unfold Action.run
    simp only [hcur, Option.bind, gF, hcc.below.2.2.2.1]
    rfl
  rw [h1]
  apply invoke_cons_returns _ _ _ _ _ _
    (fun r => r.model = s ∧ r.context.getCurrent (s.toString RC) = some F)
  · rw [h2]
    exact invoke_keep_final _ _ _ _ run hc.keepCurrent.1 s _ F hrun
  · intro r hr
    exact invoke_nil_returns _ _ _ _ _ hr

/-- The completion closure of the composite state `C`, its region being in `F`: the
machine goes to `D`, provided the rest of the entry of `D` stays there. -/
theorem completions_composite (s : Model) (sm R I C RC IC F D : Nat)
    (hcc : CompiledCascade s sm R I C RC IC F D) (random : Nat → ℚ) (d : Nat)
    (hentry : ∀ run, Run.Settled s R RC D F run →
      (invoke (engine random (d + 2)) (s.elem D).endEnter (Message.element C) false
        run).Returns (Run.Settled s R RC D F))
    (message : Message) (history : Bool) (run : Run)
    (hrun : run.model = s ∧ run.context.getCurrent (s.toString RC) = some F) :
    (Action.run (engine random (d + 4)) (Action.completions C) message history run).Returns
      (Run.Settled s R RC D F) := by
  have hc := hcc.cascade
  obtain ⟨t, hts, hsrc, _⟩ := ends_single _ _ _ hc.composite.2.2.2.1
  have hmem : t ∈ (s.elem C).transitions := by rw [hts]; exact List.mem_singleton_self t
  have htr := hcc.fromComposite t hmem
  rw [hcc.below.1.1, hcc.sibling.1] at htr
  rw [completions_run]
  have hev : (engine random (d + 4)).evaluate C (Message.element C) run =
      (invoke (engine random (d + 2)) t.traverse (Message.element C) false run).bind
        (fun _ r => Outcome.ok true r) :=
    evaluate_composite s sm R I C RC IC F D hcc random d run t hts hsrc hrun.1 hrun.2
  rw [hev, htr]
  apply returns_bind _ _ (Run.Settled s R RC D F)
  · apply returns_bind _ _ (Run.Settled s R RC D F)
    · apply invoke_append_returns _ _ _ _ _ _
        (fun r => r.model = s ∧ r.context.getCurrent (s.toString RC) = some F)
      · apply invoke_append_returns _ _ _ _ _ _
          (fun r => r.model = s ∧ r.context.getCurrent (s.toString RC) = some F)
        · apply invoke_append_returns _ _ _ _ _ _
            (fun r => r.model = s ∧ r.context.getCurrent (s.toString RC) = some F)
          · apply invoke_cons_returns _ _ _ _ _ _
              (fun r => r.model = s ∧ r.context.getCurrent (s.toString RC) = some F)
            · exact leave_region s sm R I C RC IC F D hcc random d _ _ run hrun
            · intro r hr
              exact invoke_nil_returns _ _ _ _ _ hr
          · intro r hr
            exact invoke_keep_final _ _ _ _ r hc.keepCurrent.2.1 s _ F hr
        · intro r hr
          exact invoke_keep_final _ _ _ _ r (hc.keepCurrent.2.2.2 t hmem) s _ F hr
      · intro r hr
        apply invoke_append_returns _ _ _ _ _ _ (Run.Settled s R RC D F)
        · apply invoke_append_returns _ _ _ _ _ _
            (fun r => r.model = s ∧ r.context.getCurrent (s.toString RC) = some F)
          · exact invoke_keep_final _ _ _ _ r hc.keepCurrent.2.2.1 s _ F hr
          · intro r1 hr1
            apply invoke_cons_returns _ _ _ _ _ _ (Run.Settled s R RC D F)
            · rw [setCurrent_returns _ s D R _ _ r1 hr1.1 (hc.inModel D (by simp))
                hc.sibling.2.1]
              refine ⟨(), _, rfl, hr1.1, getCurrent_setCurrent_same _ _ _, ?_⟩
              show (r1.context.setCurrent (s.toString R) D).getCurrent (s.toString RC) = some F
              rw [getCurrent_setCurrent_other _ _ _ _
                (cascade_keys s sm R I C RC IC F D hc)]
              exact hr1.2
            · intro r2 hr2
              exact invoke_nil_returns _ _ _ _ _ hr2
        · intro r1 hr1
          exact hentry r1 hr1
    · intro _ r hr
      exact ⟨true, r, rfl, hr⟩
  · intro _ r hr
    exact ⟨(), r, rfl, hr⟩

/-- The completion closure of the Initial pseudo state of the root region: the cascade. -/
theorem completions_root_initial (s : Model) (sm R I C RC IC F D : Nat)
    (hcc : CompiledCascade s sm R I C RC IC F D) (random : Nat → ℚ) (d : Nat)
    (hentry : ∀ run, Run.Settled s R RC D F run →
      (invoke (engine random (d + 2)) (s.elem D).endEnter (Message.element C) false
        run).Returns (Run.Settled s R RC D F))
    (message : Message) (history : Bool) (run : Run) (hrun : run.model = s) :
    (Action.run (engine random (d + 6)) (Action.completions I) message history run).Returns
      (Run.Settled s R RC D F) := by
  have hc := hcc.cascade
  obtain ⟨t, hts, _, _⟩ := ends_single _ _ _ hc.rootInitial.2.2
  have hmem : t ∈ (s.elem I).transitions := by rw [hts]; exact List.mem_singleton_self t
  have htr := hcc.fromInitial t hmem
  rw [hcc.initial.1, hcc.below.1.2] at htr
  rw [completions_run]
  have hev : (engine random (d + 6)).evaluate I (Message.element I) run =
      (invoke (engine random (d + 4)) t.traverse (Message.element I) false run).bind
        (fun _ r => Outcome.ok true r) :=
    evaluate_initial (engine random (d + 5)) random I _ run (s.elem I) t
      (by rw [hrun]; exact get?_elem s I (hc.inModel I (by simp))) hc.rootInitial.1 hts
  rw [hev, htr]
  apply returns_bind _ _ (Run.Settled s R RC D F)
  · apply returns_bind _ _ (Run.Settled s R RC D F)
    · simp only [List.nil_append]
      apply invoke_append_returns _ _ _ _ _ _ (fun r => r.model = s)
      · exact returns_mono _ _ _
          (invoke_user_returns _ _ _ _ run (hc.behaviours.2.2.2.1 t hmem))
          (fun r hr => hr.trans hrun)
      · intro r hr
        apply invoke_append_returns _ _ _ _ _ _ (fun r => r.model = s)
        · exact returns_mono _ _ _
            (invoke_user_returns _ _ _ _ r hc.behaviours.2.1)
            (fun r1 hr1 => hr1.trans hr)
        · intro r1 hr1
          apply invoke_cons_returns _ _ _ _ _ _ (fun r => r.model = s)
          · rw [setCurrent_returns _ s C R _ _ r1 hr1 (hc.inModel C (by simp))
              hc.composite.2.1]
            exact ⟨(), _, rfl, hr1⟩
          · intro r2 hr2
            apply invoke_cons_returns _ _ _ _ _ _
              (fun r => r.model = s ∧ r.context.getCurrent (s.toString RC) = some F)
            · exact completions_child_initial s sm R I C RC IC F D hcc random (d + 1)
                _ _ r2 hr2
            · intro r3 hr3
              apply invoke_cons_returns _ _ _ _ _ _ (Run.Settled s R RC D F)
              · exact completions_composite s sm R I C RC IC F D hcc random d hentry
                  _ _ r3 hr3
              · intro r4 hr4
                exact invoke_nil_returns _ _ _ _ _ hr4
    · intro _ r hr
      exact ⟨true, r, rfl, hr⟩
  · intro _ r hr
    exact ⟨(), r, rfl, hr⟩

/-- A compiled machine that is asked to evaluate a message does not compile again. -/
theorem evaluateWith_clean (e : Engine) (random : Nat → ℚ) (sm : Nat) (message : Message)
    (auto : Bool) (run : Run) (el : Element) (hget : run.model.get? sm = some el)
    (hclean : el.clean = true) :
    StateMachine.evaluateWith e random sm message auto run =
      if run.context.isTerminated then Outcome.ok false run
      else State.evaluate e random sm message run := by
  unfold StateMachine.evaluateWith
  simp only [hget, hclean]
  cases auto <;> rfl

/-- The machine on its own completion message, once settled: it stays settled, provided
`D` does on that message. -/
theorem evaluate_machine (s : Model) (sm R I C RC IC F D : Nat)
    (hcc : CompiledCascade s sm R I C RC IC F D) (random : Nat → ℚ) (d : Nat)
    (hmessage : ∀ run, Run.Settled s R RC D F run →
      (evaluate (engine random (d + 3)) random D (Message.element sm) run).Returns
        (Run.Settled s R RC D F))
    (run : Run) (hrun : Run.Settled s R RC D F run) :
    (evaluate (engine random (d + 5)) random sm (Message.element sm) run).Returns
      (Run.Settled s R RC D F) := by
  have hc := hcc.cascade
  have gM : run.model.get? sm = some (s.elem sm) := by
    rw [hrun.1]; exact get?_elem s sm (hc.inModel sm (by simp))
  have gR : run.model.get? R = some (s.elem R) := by
    rw [hrun.1]; exact get?_elem s R (hc.inModel R (by simp))
  have hreg : (engine random (d + 5)).evaluate R (Message.element sm) run =
      evaluate (engine random (d + 3)) random D (Message.element sm) run :=
    evaluate_region (engine random (d + 4)) random R D _ run (s.elem R) gR
      hc.rootRegion.1 (by rw [hrun.1]; exact hrun.2.1)
  obtain ⟨b, r1, hb, hr1⟩ := hmessage run hrun
  rw [hb] at hreg
  have gM1 : r1.model.get? sm = some (s.elem sm) := by
    rw [hr1.1]; exact get?_elem s sm (hc.inModel sm (by simp))
  have hrun0 : ({ r1 with randomCalls := r1.randomCalls + 0 } : Run) = r1 := rfl
  have hev : evaluate (engine random (d + 5)) random sm (Message.element sm) run =
      StateMachine.evaluateWith (engine random (d + 5)) random sm (Message.element sm)
        true run := by
    unfold evaluate
    simp only [gM, hc.machine.1]
  rw [hev, evaluateWith_clean _ _ _ _ _ run (s.elem sm) gM hcc.clean]
  by_cases hterm : run.context.isTerminated = true
  · rw [if_pos hterm]
    exact ⟨false, run, rfl, hrun⟩
  · rw [if_neg hterm]
    unfold State.evaluate
    simp only [gM, hc.machine.2.2.1, State.evaluateRegions, hreg, Outcome.bind]
    cases b with
    | true =>
      simp only [if_true, Bool.true_eq_false, if_false, ne_eq, not_true_eq_false,
        and_false]
      exact ⟨true, r1, rfl, hr1⟩
    | false =>
      simp only [Bool.false_eq_true, if_false, if_true, Vertex.evaluate, gM1,
        hc.machine.2.2.2, Element.selector, hc.machine.1, State.selector,
        State.selectorLoop, Element.randomCalls, false_and, hrun0]
      exact ⟨false, r1, rfl, hr1⟩

/-- Entering the compiled machine of a cascade. -/
theorem enter_machine (s : Model) (sm R I C RC IC F D : Nat)
    (hcc : CompiledCascade s sm R I C RC IC F D) (random : Nat → ℚ) (d : Nat)
    (hentry : ∀ run, Run.Settled s R RC D F run →
      (invoke (engine random (d + 2)) (s.elem D).endEnter (Message.element C) false
        run).Returns (Run.Settled s R RC D F))
    (hmessage : ∀ run, Run.Settled s R RC D F run →
      (evaluate (engine random (d + 3)) random D (Message.element sm) run).Returns
        (Run.Settled s R RC D F))
    (message : Message) (run : Run) (hrun : run.model = s) :
    (invoke (engine random (d + 6)) (s.elem sm).enter message false run).Returns
      (Run.Settled s R RC D F) := by
  have hc := hcc.cascade
  rw [hcc.machine]
  apply invoke_append_returns _ _ _ _ _ _ (fun r => r.model = s)
  · exact returns_mono _ _ _ (invoke_user_returns _ _ _ _ run hc.behaviours.1)
      (fun r hr => hr.trans hrun)
  · intro r hr
    apply invoke_cons_returns _ _ _ _ _ _ (fun r => r.model = s)
    · have h1 : Action.run (engine random (d + 6)) (Action.setCurrent sm) message false r =
          Outcome.ok () r := by
        unfold Action.run
        simp only [hr, get?_elem s sm (hc.inModel sm (by simp)), Option.bind,
          hc.machine.2.1]
      rw [h1]
      exact ⟨(), r, rfl, hr⟩
    · intro r1 hr1
      apply invoke_cons_returns _ _ _ _ _ _ (Run.Settled s R RC D F)
      · exact completions_root_initial s sm R I C RC IC F D hcc random d hentry _ _ r1 hr1
      · intro r2 hr2
        apply invoke_cons_returns _ _ _ _ _ _ (Run.Settled s R RC D F)
        · rw [completions_run]
          apply returns_bind _ _ (Run.Settled s R RC D F)
          · exact evaluate_machine s sm R I C RC IC F D hcc random d hmessage r2 hr2
          · intro _ r3 hr3
            exact ⟨(), r3, rfl, hr3⟩
        · intro r3 hr3
          exact invoke_nil_returns _ _ _ _ _ hr3

/-- The method `initialise` on the compiled machine of a cascade. -/
theorem initialise_compiled (s : Model) (sm R I C RC IC F D : Nat)
    (hcc : CompiledCascade s sm R I C RC IC F D) (random : Nat → ℚ) (d : Nat)
    (hentry : ∀ run, Run.Settled s R RC D F run →
      (invoke (engine random (d + 2)) (s.elem D).endEnter (Message.element C) false
        run).Returns (Run.Settled s R RC D F))
    (hmessage : ∀ run, Run.Settled s R RC D F run →
      (evaluate (engine random (d + 3)) random D (Message.element sm) run).Returns
        (Run.Settled s R RC D F))
    (auto : Bool) (run : Run) (hrun : run.model = s) :
    (StateMachine.initialise (d + 7) random sm auto run).Returns
      (Run.Settled s R RC D F) := by
  have gM : run.model.get? sm = some (s.elem sm) := by
    rw [hrun]; exact get?_elem s sm (hcc.cascade.inModel sm (by simp))
  have h1 : StateMachine.initialise (d + 7) random sm auto run =
      invoke (engine random (d + 6)) (s.elem sm).enter Message.undefined false run := by
    unfold StateMachine.initialise
    simp only [gM, hcc.clean]
    have hb : (if (auto && (true == false)) = true then Run.bootstrap sm run
        else Outcome.ok () run) = Outcome.ok () run := by
      cases auto <;> rfl
    rw [hb]
    simp only [Outcome.bind, gM]
    rfl
  rw [h1]
  exact enter_machine s sm R I C RC IC F D hcc random d hentry hmessage _ run hrun

/-- The method `initialise` on a machine that is yet to be compiled and on which
`StateMachine.bootstrap` returns. -/
theorem initialise_dirty (m m1 : Model) (sm : Nat) (depth : Nat) (random : Nat → ℚ)
    (context : Context) (calls : Nat) (hlt : sm < m.length)
    (hdirty : (m.elem sm).clean = false)
    (hboot : StateMachine.bootstrap sm false m = Outcome.ok () m1) :
    StateMachine.initialise depth random sm true
        { model := m, context := context, randomCalls := calls } =
      match m1.get? sm with
      | none => Outcome.throw typeError { model := m1, context := context, randomCalls := calls }
      | some e1 =>
        (engine random depth).invoke e1.enter Message.undefined false
          { model := m1, context := context, randomCalls := calls } := by
  unfold StateMachine.initialise
  simp only [get?_elem m sm hlt, hdirty, Run.bootstrap, hboot]
  rfl

/-- `StateMachine.bootstrap` changes nothing but the sequences and the flag. -/
theorem bootstrap_shape (m m1 : Model) (sm : Nat) (dha : Bool)
    (h : StateMachine.bootstrap sm dha m = Outcome.ok () m1) : m1.shape = m.shape := by
  have hfr := machineBootstrap_frame sm dha m
  rw [h] at hfr
  rw [shape_of_frame _ _ hfr]
  exact shape_update m sm _ (fun _ => rfl)

/-- A sibling `D` that is a state without regions and without transitions stays the current
state once it is entered, whatever the message. -/
theorem leaf_sibling (s : Model) (sm R I C RC IC F D : Nat)
    (hcc : CompiledCascade s sm R I C RC IC F D)
    (hk : (s.elem D).kind = ElementKind.State ∨ (s.elem D).kind = ElementKind.FinalState)
    (hr : (s.elem D).regions = []) (ht : (s.elem D).transitions = [])
    (random : Nat → ℚ) (d : Nat) :
    (∀ run, Run.Settled s R RC D F run →
      (invoke (engine random (d + 2)) (s.elem D).endEnter (Message.element C) false
        run).Returns (Run.Settled s R RC D F)) ∧
    (∀ run, Run.Settled s R RC D F run →
      (evaluate (engine random (d + 3)) random D (Message.element sm) run).Returns
        (Run.Settled s R RC D F)) := by
  have hlt : D < s.length := hcc.cascade.inModel D (by simp)
  refine ⟨?_, ?_⟩
  · intro run hrun
    rw [hcc.sibling.2 hr]
    apply invoke_cons_returns _ _ _ _ _ _ (Run.Settled s R RC D F)
    · rw [completions_run]
      have hev : (engine random (d + 2)).evaluate D (Message.element D) run =
          Outcome.ok false run :=
        evaluate_leaf (engine random (d + 1)) random D _ run (s.elem D)
          (by rw [hrun.1]; exact get?_elem s D hlt) hk hr ht
      rw [hev]
      exact ⟨(), run, rfl, hrun⟩
    · intro r hr1
      exact invoke_nil_returns _ _ _ _ _ hr1
  · intro run hrun
    rw [evaluate_leaf (engine random (d + 3)) random D _ run (s.elem D)
      (by rw [hrun.1]; exact get?_elem s D hlt) hk hr ht]
    exact ⟨false, run, rfl, hrun⟩

/-- No behaviour at all. -/
theorem userActions_of_length (l : List Action) (h : l.length = 0) : UserActions l := by
  rw [List.length_eq_zero.mp h]
  intro a ha
  cases ha

/-- No behaviour at all. -/
theorem keepCurrent_of_length (l : List Action) (h : l.length = 0) : KeepCurrent l := by
  rw [List.length_eq_zero.mp h]
  intro a ha
  cases ha

/-- A property of every transition of a list that a test decides. -/
theorem forall_of_all (ts : List Transition) (P : Transition → Prop)
    (b : Transition → Bool) (hb : ∀ t, b t = true → P t) (h : ts.all b = true) :
    ∀ t ∈ ts, P t := by
  intro t ht
  exact hb t (List.all_eq_true.mp h t ht)

/-- Test `guard` for the closure of `Transition.completion`. -/
theorem completion_of_test (t : Transition)
    (h : (match t.guard with | Guard.completion => true | _ => false) = true) :
    t.guard = Guard.completion := by
  cases hg : t.guard <;> rw [hg] at h <;> simp at h

/-- Well-formedness, object by object. -/
theorem wellFormed_of_bounded (m : Model)
    (h : ∀ x < m.length, ∀ c ∈ (m.elem x).children, m.parent c = some x) :
    m.wellFormed := by
  intro x e hx c hc
  have hlt : x < m.length := by
    by_contra hge
    rw [List.get?_eq_none.mpr (Nat.le_of_not_lt hge)] at hx
    cases hx
  have he : m.elem x = e := by
    unfold Model.elem
    rw [hx]
    rfl
  exact h x hlt c (by rw [he]; exact hc)

/-- The model `cascade` is one of the cascade. -/
theorem cascade_model :
    Cascade (cascade ElementKind.State).model 0 2 1 3 6 5 7 4 where
  inModel := by decide
  wellFormed := wellFormed_of_bounded _ (by decide)
  machine := ⟨by decide, by decide, by decide, List.length_eq_zero.mp (by decide)⟩
  rootRegion := by decide
  rootInitial := by decide
  composite := ⟨by decide, by decide, by decide, by decide,
    forall_of_all _ _ _ completion_of_test (by decide)⟩
  childRegion := by decide
  childInitial := by decide
  final := ⟨by decide, by decide, by decide, List.length_eq_zero.mp (by decide)⟩
  sibling := by decide
  behaviours := ⟨userActions_of_length _ (by decide), userActions_of_length _ (by decide),
    userActions_of_length _ (by decide),
    forall_of_all _ _ (fun t => decide (t.transitionBehavior.length = 0))
      (fun t h => userActions_of_length _ (of_decide_eq_true h)) (by decide),
    forall_of_all _ _ (fun t => decide (t.transitionBehavior.length = 0))
      (fun t h => userActions_of_length _ (of_decide_eq_true h)) (by decide)⟩
  keepCurrent := ⟨keepCurrent_of_length _ (by decide), keepCurrent_of_length _ (by decide),
    keepCurrent_of_length _ (by decide),
    forall_of_all _ _ (fun t => decide (t.transitionBehavior.length = 0))
      (fun t h => keepCurrent_of_length _ (of_decide_eq_true h)) (by decide)⟩

/-- Code whose final state is there has returned. -/
theorem ok_of_final (x : Outcome Model Unit) (h : x.final?.isSome = true) :
    ∃ s, x = Outcome.ok () s := by
  cases x with
  | ok a s => exact ⟨s, rfl⟩
  | throw err s => simp [Outcome.final?] at h
  | timeout => simp [Outcome.final?] at h

/-- C6 amended.  For every model of the cascade (`Cascade`: a well-formed model in which the
Initial pseudo state `I` of the root region `R` leads to the composite state `C`, the one
region `RC` of `C` has an Initial pseudo state `IC` leading to the final state `F`, the one
transition of `C` is a completion transition to its sibling `D`, and the behaviours run from
the entry of `F` to the entry of `D` leave the record of current states alone) on which
`StateMachine.bootstrap` returns, leaving `m1`: if what `D` does on being entered (the rest
of its entry sequence, called with the completion message of `C`) and on being asked to
evaluate the completion message of the machine returns with `D` still the current state of
`R` and `F` that of `RC`, within `k + 2` and `k + 3` nested calls, then `initialise` alone,
within `k + 7` nested calls, returns with `F` the current state of `RC` and `D` the current
state of `R`; on the model as built, which it compiles first, and on the compiled model. -/
theorem C6_completion_cascade_settles (m m1 : Model) (sm R I C RC IC F D k : Nat)
    (random : Nat → ℚ) (context : Context) (calls : Nat)
    (hm : Cascade m sm R I C RC IC F D)
    (hboot : StateMachine.bootstrap sm false m = Outcome.ok () m1)
    (hentry : ∀ run, Run.Settled m1 R RC D F run →
      (invoke (engine random (k + 2)) (m1.elem D).endEnter (Message.element C) false
        run).Returns (Run.Settled m1 R RC D F))
    (hmessage : ∀ run, Run.Settled m1 R RC D F run →
      (evaluate (engine random (k + 3)) random D (Message.element sm) run).Returns
        (Run.Settled m1 R RC D F)) :
    ((m.elem sm).clean = false →
      (StateMachine.initialise (k + 7) random sm true
        { model := m, context := context, randomCalls := calls }).Returns
        (Run.Settled m1 R RC D F)) ∧
    ∀ auto, (StateMachine.initialise (k + 7) random sm auto
        { model := m1, context := context, randomCalls := calls }).Returns
        (Run.Settled m1 R RC D F) := by
  have hcc := bootstrap_cascade m m1 sm R I C RC IC F D hm hboot
  have hcompiled := fun auto =>
    initialise_compiled m1 sm R I C RC IC F D hcc random k hentry hmessage auto
      { model := m1, context := context, randomCalls := calls } rfl
  refine ⟨?_, hcompiled⟩
  intro hdirty
  rw [initialise_dirty m m1 sm (k + 7) random context calls (hm.inModel sm (by simp))
    hdirty hboot]
  have h := hcompiled false
  unfold StateMachine.initialise at h
  simp only [get?_elem m1 sm (hcc.cascade.inModel sm (by simp)), Bool.false_and,
    Bool.false_eq_true, if_false, Outcome.bind] at h
  simp only [get?_elem m1 sm (hcc.cascade.inModel sm (by simp))]
  exact h

/-- The amended C6 on the model `cascade`, whose sibling `d` is a state without regions and
without transitions: `StateMachine.bootstrap` returns, and `initialise` on a fresh context
returns with the region of `c` (position 6) in `f` (position 7) and the root region
(position 2) in `d` (position 4). -/
theorem C6_completion_cascade_settles_witness :
    ∃ m1, StateMachine.bootstrap 0 false (cascade ElementKind.State).model =
        Outcome.ok () m1 ∧
      (StateMachine.initialise (25 + 7) (fun _ => 0) 0 true
        { model := (cascade ElementKind.State).model, context := Context.new,
          randomCalls := 0 }).Returns (Run.Settled m1 2 6 4 7) := by
  obtain ⟨m1, hboot⟩ := ok_of_final
    (StateMachine.bootstrap 0 false (cascade ElementKind.State).model) (by decide)
  have hcc := bootstrap_cascade _ m1 0 2 1 3 6 5 7 4 cascade_model hboot
  have hsh := shape_elem m1 _ (bootstrap_shape _ m1 0 false hboot) 4
  have hk : (m1.elem 4).kind = ElementKind.State := by
    have h1 : (m1.elem 4).shape.kind = ((cascade ElementKind.State).model.elem 4).shape.kind := by
      rw [hsh]
    exact h1.trans (by decide)
  have hr : (m1.elem 4).regions = [] :=
    (shape_fields _ _ hsh).1.trans (by decide)
  have ht : (m1.elem 4).transitions = [] :=
    shape_transitions_nil _ _ hsh (List.length_eq_zero.mp (by decide))
  obtain ⟨hentry, hmessage⟩ := leaf_sibling m1 0 2 1 3 6 5 7 4 hcc (Or.inl hk) hr ht
    (fun _ => 0) 25
  exact ⟨m1, hboot,
    (C6_completion_cascade_settles (cascade ElementKind.State).model m1 0 2 1 3 6 5 7 4
      25 (fun _ => 0) Context.new 0 cascade_model hboot hentry hmessage).1 (by decide)⟩

/-- An update that keeps the class and the initial pseudo state of the object and drops
none of its vertices keeps the initial pseudo states listed. -/
theorem listed_update (m : Model) (id : Nat) (f : Element → Element)
    (h : m.initialsListed)
    (hf : ∀ e, (f e).kind = e.kind ∧ (f e).initial = e.initial ∧
      ∀ v ∈ e.vertices, v ∈ (f e).vertices) :
    (m.update id f).initialsListed := by
  intro r e i he hk hi
  by_cases hr : r = id
  · subst hr
    rw [get?_update_self] at he
    cases h0 : m.get? r with
    | none => rw [h0] at he; simp at he
    | some e0 =>
      rw [h0] at he
      simp only [Option.map_some', Option.some.injEq] at he
      subst he
      obtain ⟨h1, h2, h3⟩ := hf e0
      exact h3 i (h r e0 i h0 (h1 ▸ hk) (h2 ▸ hi))
  · rw [get?_update_other _ _ _ _ hr] at he
    exact h r e i he hk hi

/-- A new object without an initial pseudo state keeps the initial pseudo states listed. -/
theorem listed_append (m : Model) (e0 : Element) (h : m.initialsListed)
    (he0 : e0.initial = none) : (m ++ [e0]).initialsListed := by
  intro r e i he hk hi
  by_cases hr : r < m.length
  · rw [get?_append_lt m [e0] r hr] at he
    exact h r e i he hk hi
  · rw [List.get?_eq_getElem?, List.getElem?_append_right (Nat.le_of_not_lt hr)] at he
    cases hx : r - m.length with
    | zero =>
      rw [hx] at he
      simp only [List.getElem?_cons_zero, Option.some.injEq] at he
      subst he
      rw [he0] at hi
      cases hi
    | succ n =>
      rw [hx] at he
      simp at he

/-- The statement `x.root().clean = false` keeps the initial pseudo states listed. -/
theorem setDirty_listed (m m1 : Model) (id : Nat) (h : m.initialsListed)
    (hrun : setDirty id m = Outcome.ok () m1) : m1.initialsListed := by
  obtain ⟨root, hroot⟩ := setDirty_eq m m1 id hrun
  rw [hroot]
  refine listed_update m root _ h ?_
  intro _
  exact ⟨rfl, rfl, fun _ hv => hv⟩

/-- The constructor `Region` keeps the initial pseudo states listed. -/
theorem regionNew_listed (m m1 : Model) (name : String) (state r : Nat)
    (h : m.initialsListed) (hrun : Region.new name state m = Outcome.ok r m1) :
    m1.initialsListed := by
  obtain ⟨_, root, hm1⟩ := regionNew_eq m m1 name state r hrun
  rw [hm1]
  refine listed_update _ root _ ?_ ?_
  · refine listed_update _ state _ ?_ ?_
    · exact listed_append m _ h rfl
    · intro _
      exact ⟨rfl, rfl, fun _ hv => hv⟩
  · intro _
    exact ⟨rfl, rfl, fun _ hv => hv⟩

/-- The method `State.defaultRegion` keeps the initial pseudo states listed. -/
theorem defaultRegion_listed (m m1 : Model) (state r : Nat) (h : m.initialsListed)
    (hrun : State.defaultRegion state m = Outcome.ok r m1) : m1.initialsListed := by
  cases he : m.get? state with
  | none =>
    unfold State.defaultRegion at hrun
    rw [he] at hrun
    simp at hrun
  | some e =>
    rw [defaultRegion_eq state m e he] at hrun
    cases hl : lastDefault m e.regions with
    | some r0 =>
      rw [hl] at hrun
      simp only [Outcome.ok.injEq] at hrun
      rw [← hrun.2]
      exact h
    | none =>
      rw [hl] at hrun
      exact regionNew_listed m m1 _ state r h hrun

/-- The constructor `Vertex`, when it returns: the model is as it was, or the vertex has been
put into a region, the parent given or the default region of the parent. -/
theorem vertexInit_eq (m m1 : Model) (id : Nat) (element : Option Nat)
    (h : Vertex.init id element m = Outcome.ok () m1) :
    m1 = m ∨ ∃ r base, (base = m ∨ ∃ p, State.defaultRegion p m = Outcome.ok r base) ∧
      setDirty r ((base.update id (fun e => { e with region := some r })).update r
        (fun e => { e with vertices := e.vertices ++ [id] })) = Outcome.ok () m1 := by
  unfold Vertex.init at h
  cases hq : element.bind (fun p => (m.get? p).map (fun pe => (p, pe))) with
  | none =>
    rw [hq] at h
    simp only [Outcome.ok.injEq, true_and] at h
    exact Or.inl h.symm
  | some ppe =>
    obtain ⟨p, pe⟩ := ppe
    rw [hq] at h
    simp only at h
    obtain ⟨region, s, hs1, hf⟩ := bind_ok _ _ _ _ h
    by_cases hreg : pe.isRegion = true
    · rw [if_pos hreg] at hs1
      simp only [Outcome.ok.injEq] at hs1
      obtain ⟨h1, h2⟩ := hs1
      subst h1
      subst h2
      exact Or.inr ⟨p, m, Or.inl rfl, hf⟩
    · rw [if_neg hreg] at hs1
      by_cases hst : pe.isState = true
      · rw [if_pos hst] at hs1
        obtain ⟨r, s1, hd, hf1⟩ := bind_ok _ _ _ _ hs1
        simp only [Outcome.ok.injEq] at hf1
        obtain ⟨h1, h2⟩ := hf1
        subst h1
        subst h2
        exact Or.inr ⟨r, s1, Or.inr ⟨p, hd⟩, hf⟩
      · rw [if_neg hst] at hs1
        simp only [Outcome.ok.injEq] at hs1
        obtain ⟨h1, h2⟩ := hs1
        subst h1
        subst h2
        simp only [Outcome.ok.injEq, true_and] at hf
        exact Or.inl hf.symm

/-- The constructor `Vertex` keeps the initial pseudo states listed. -/
theorem vertexInit_listed (m m1 : Model) (id : Nat) (element : Option Nat)
    (h : m.initialsListed) (hrun : Vertex.init id element m = Outcome.ok () m1) :
    m1.initialsListed := by
  rcases vertexInit_eq m m1 id element hrun with h1 | ⟨r, base, hbase, hd⟩
  · rw [h1]
    exact h
  · have hb : base.initialsListed := by
      rcases hbase with hb | ⟨p, hp⟩
      · rw [hb]
        exact h
      · exact defaultRegion_listed m base p r h hp
    refine setDirty_listed _ m1 r ?_ hd
    refine listed_update _ r _ ?_ ?_
    · refine listed_update _ id _ hb ?_
      intro _
      exact ⟨rfl, rfl, fun _ hv => hv⟩
    · intro _
      exact ⟨rfl, rfl, fun _ hv => List.mem_append_left _ hv⟩

/-- After the constructor `Vertex` a new vertex that has a region is one of the vertices of
that region. -/
theorem vertexInit_member (m m1 : Model) (id : Nat) (element : Option Nat)
    (hfresh : (m.get? id).bind Element.region = none)
    (hrun : Vertex.init id element m = Outcome.ok () m1) (r : Nat) (er : Element)
    (hr : (m1.get? id).bind Element.region = some r) (her : m1.get? r = some er) :
    id ∈ er.vertices := by
  rcases vertexInit_eq m m1 id element hrun with h1 | ⟨r0, base, _, hd⟩
  · rw [h1, hfresh] at hr
    cases hr
  · obtain ⟨root, hroot⟩ := setDirty_eq _ m1 r0 hd
    have hreg : (m1.get? id).map Element.region =
        (base.get? id).map (fun _ => some r0) := by
      rw [hroot, map_update Element.region _ root id (fun e => { e with clean := false })
        (fun _ => rfl),
        map_update Element.region _ r0 id (fun e => { e with vertices := e.vertices ++ [id] })
        (fun _ => rfl), get?_update_self]
      cases base.get? id <;> rfl
    have hr0 : r = r0 := by
      cases h2 : m1.get? id with
      | none => rw [h2] at hr; cases hr
      | some e =>
        rw [h2] at hr hreg
        simp only [Option.bind] at hr
        cases h3 : base.get? id with
        | none => rw [h3] at hreg; simp at hreg
        | some e3 =>
          rw [h3] at hreg
          simp only [Option.map_some', Option.some.injEq] at hreg
          rw [hreg] at hr
          exact (Option.some.inj hr).symm
    subst hr0
    have hv : (m1.get? r).map Element.vertices =
        ((base.update id (fun e => { e with region := some r })).get? r).map
          (fun e => e.vertices ++ [id]) := by
      rw [hroot, map_update Element.vertices _ root r (fun e => { e with clean := false })
        (fun _ => rfl), get?_update_self]
      cases (base.update id (fun e => { e with region := some r })).get? r <;> rfl
    rw [her] at hv
    cases h4 : (base.update id (fun e => { e with region := some r })).get? r with
    | none => rw [h4] at hv; simp at hv
    | some e4 =>
      rw [h4] at hv
      simp only [Option.map_some', Option.some.injEq] at hv
      rw [hv]
      exact List.mem_append_right _ (List.mem_singleton_self id)

/-- A new vertex keeps the initial pseudo states listed. -/
theorem vertexNew_listed (m m1 : Model) (e0 : Element) (element : Option Nat) (id : Nat)
    (h : m.initialsListed) (he0 : e0.initial = none)
    (hrun : (Vertex.init m.length element (m ++ [e0])).bind
      (fun _ m1 => Outcome.ok m.length m1) = Outcome.ok id m1) :
    m1.initialsListed := by
  obtain ⟨_, s, hs, hf⟩ := bind_ok _ _ _ _ hrun
  simp only [Outcome.ok.injEq] at hf
  rw [← hf.2]
  exact vertexInit_listed _ s _ element (listed_append m e0 h he0) hs

/-- The constructor `State` keeps the initial pseudo states listed. -/
theorem stateNew_listed (m m1 : Model) (name : String) (element : Option Nat) (id : Nat)
    (h : m.initialsListed) (hrun : State.new name element m = Outcome.ok id m1) :
    m1.initialsListed :=
  vertexNew_listed m m1 _ element id h rfl hrun

/-- The constructor `FinalState` keeps the initial pseudo states listed. -/
theorem finalStateNew_listed (m m1 : Model) (name : String) (element : Option Nat)
    (id : Nat) (h : m.initialsListed)
    (hrun : FinalState.new name element m = Outcome.ok id m1) : m1.initialsListed :=
  vertexNew_listed m m1 _ element id h rfl hrun

/-- The constructor `StateMachine` keeps the initial pseudo states listed. -/
theorem stateMachineNew_listed (m m1 : Model) (name : String) (id : Nat)
    (h : m.initialsListed) (hrun : StateMachine.new name m = Outcome.ok id m1) :
    m1.initialsListed := by
  unfold StateMachine.new at hrun
  obtain ⟨_, s, hs, hf⟩ := bind_ok _ _ _ _ hrun
  simp only [Outcome.ok.injEq] at hf
  rw [← hf.2]
  refine listed_update _ _ _ (vertexInit_listed _ s _ none (listed_append m _ h rfl) hs) ?_
  intro _
  exact ⟨rfl, rfl, fun _ hv => hv⟩

/-- The constructor `PseudoState` keeps the initial pseudo states listed: the pseudo state
it makes the initial one of a region is a vertex of that region. -/
theorem pseudoStateNew_listed (m m1 : Model) (name : String) (element : Option Nat)
    (kind : PseudoStateKind) (id : Nat) (h : m.initialsListed)
    (hrun : PseudoState.new name element kind m = Outcome.ok id m1) : m1.initialsListed := by
  unfold PseudoState.new at hrun
  obtain ⟨_, s, hs, hf⟩ := bind_ok _ _ _ _ hrun
  have hl : s.initialsListed := vertexInit_listed _ s _ element (listed_append m _ h rfl) hs
  by_cases hk : kind.isInitial = true
  · simp only [hk, if_true] at hf
    cases hr : (s.get? m.length).bind (fun e => e.region) with
    | none => rw [hr] at hf; simp at hf
    | some r =>
      rw [hr] at hf
      simp only [Outcome.ok.injEq] at hf
      rw [← hf.2]
      intro r2 e i he hke hi
      by_cases hr2 : r2 = r
      · subst hr2
        rw [get?_update_self] at he
        cases h0 : s.get? r2 with
        | none => rw [h0] at he; simp at he
        | some e0 =>
          rw [h0] at he
          simp only [Option.map_some', Option.some.injEq] at he
          subst he
          simp only [Option.some.injEq] at hi
          subst hi
          have hfresh : ((m ++ [({ kind := ElementKind.PseudoState kind, name := name } :
              Element)]).get? m.length).bind Element.region = none := by
            simp
          exact vertexInit_member _ s m.length element hfresh hs r2 e0 hr h0
      · rw [get?_update_other _ _ _ _ hr2] at he
        exact hl r2 e i he hke hi
  · simp only [hk, Bool.false_eq_true, if_false, Outcome.ok.injEq] at hf
    rw [← hf.2]
    exact hl

/-- The method `to` keeps the initial pseudo states listed. -/
theorem vertexTo_listed (m m1 : Model) (source : Nat) (target : Target) (t : TransitionRef)
    (h : m.initialsListed) (hrun : Vertex.to source target m = Outcome.ok t m1) :
    m1.initialsListed := by
  unfold Vertex.to at hrun
  cases he : m.get? source with
  | none => rw [he] at hrun; simp at hrun
  | some e =>
    rw [he] at hrun
    cases hk : e.kind <;> simp only [hk] at hrun
    case FinalState => simp at hrun
    all_goals
      obtain ⟨_, s, hs, hf⟩ := bind_ok _ _ _ _ hrun
      simp only [Outcome.ok.injEq] at hf
      rw [← hf.2]
      refine setDirty_listed _ s source ?_ hs
      refine listed_update m source _ h ?_
      intro _
      exact ⟨rfl, rfl, fun _ hv => hv⟩

/-- A change of a transition keeps the initial pseudo states listed. -/
theorem updateTransition_listed (m : Model) (t : TransitionRef) (f : Transition → Transition)
    (h : m.initialsListed) : (m.updateTransition t f).initialsListed := by
  unfold Model.updateTransition
  refine listed_update m t.source _ h ?_
  intro _
  exact ⟨rfl, rfl, fun _ hv => hv⟩

/-- The methods `completion`, `else`, `when` and `effect` of a transition keep the initial
pseudo states listed. -/
theorem transition_listed (m m1 : Model) (t t1 : TransitionRef) (h : m.initialsListed) :
    (Transition.completion t m = Outcome.ok t1 m1 → m1.initialsListed) ∧
    (Transition.else t m = Outcome.ok t1 m1 → m1.initialsListed) ∧
    (∀ guard, Transition.when t guard m = Outcome.ok t1 m1 → m1.initialsListed) ∧
    (∀ action, Transition.effect t action m = Outcome.ok t1 m1 → m1.initialsListed) := by
  refine ⟨?_, ?_, ?_, ?_⟩
  · intro hrun
    simp only [Transition.completion, Outcome.ok.injEq] at hrun
    rw [← hrun.2]
    exact updateTransition_listed m t _ h
  · intro hrun
    simp only [Transition.else, Outcome.ok.injEq] at hrun
    rw [← hrun.2]
    exact updateTransition_listed m t _ h
  · intro guard hrun
    simp only [Transition.when, Outcome.ok.injEq] at hrun
    rw [← hrun.2]
    exact updateTransition_listed m t _ h
  · intro action hrun
    unfold Transition.effect at hrun
    obtain ⟨_, s, hs, hf⟩ := bind_ok _ _ _ _ hrun
    simp only [Outcome.ok.injEq] at hf
    rw [← hf.2]
    exact setDirty_listed _ s t.source (updateTransition_listed m t _ h) hs

/-- The methods `exit` and `entry` of a state keep the initial pseudo states listed. -/
theorem behaviour_listed (m m1 : Model) (state id : Nat)
    (action : Message → Context → Bool → Context) (h : m.initialsListed) :
    (State.exit state action m = Outcome.ok id m1 → m1.initialsListed) ∧
    (State.entry state action m = Outcome.ok id m1 → m1.initialsListed) := by
  refine ⟨?_, ?_⟩
  · intro hrun
    unfold State.exit at hrun
    obtain ⟨_, s, hs, hf⟩ := bind_ok _ _ _ _ hrun
    simp only [Outcome.ok.injEq] at hf
    rw [← hf.2]
    refine setDirty_listed _ s state ?_ hs
    refine listed_update m state _ h ?_
    intro _
    exact ⟨rfl, rfl, fun _ hv => hv⟩
  · intro hrun
    unfold State.entry at hrun
    obtain ⟨_, s, hs, hf⟩ := bind_ok _ _ _ _ hrun
    simp only [Outcome.ok.injEq] at hf
    rw [← hf.2]
    refine setDirty_listed _ s state ?_ hs
    refine listed_update m state _ h ?_
    intro _
    exact ⟨rfl, rfl, fun _ hv => hv⟩

/-- The model without objects has its initial pseudo states listed. -/
theorem listed_nil : Model.initialsListed [] := by
  intro r e i he
  cases he

end fsm
